import Mathlib

/-!
# obsidian-export: date extraction and section capture

A shallow embedding of `main.go` of `rfpludwick/obsidian-export`:

* `extractDateFromHeader`, `isDateInRange`, `processMarkdownFile` follow the Go
  functions of the same names line by line;
* the pieces of the Go standard library they call (`strings.TrimLeft`,
  `strings.TrimSpace`, `strings.Split`, `regexp.ReplaceAllString` for the one
  ordinal pattern, `time.Parse` and `Time.Format` for the seven layouts) are
  modelled after the Go implementation of each.

A Go string is modelled as the list of its code points (`Str`); the tool reads
UTF-8 text, and every byte-level operation used here (ASCII digit tests,
ASCII case folding, comparison with ASCII layout bytes, bytewise ordering)
agrees with the code-point reading on valid UTF-8.  The output file is an
explicit `Str` that `processMarkdownFile` extends.
-/

namespace ObsidianExport

/-- A Go string of UTF-8 text, as the list of its code points. -/
abbrev Str := List Char

/-! ## `strings` -/

/-- Go `strings.HasPrefix(s, pre)`. -/
def stringsHasPrefix (s pre : Str) : Bool := pre.isPrefixOf s

/-- Go `strings.TrimSuffix(s, suffix)`: drop `suffix` once from the end of `s`
when `s` ends with it. -/
def stringsTrimSuffix (s suffix : Str) : Str :=
  if suffix.isSuffixOf s then s.take (s.length - suffix.length) else s

/-- Go `strings.TrimLeft(s, cutset)` for a one-character cutset: drop every
leading occurrence of `c`. -/
def stringsTrimLeft (s : Str) (c : Char) : Str := s.dropWhile (fun x => x == c)

/-- Go `unicode.IsSpace`: the code points with the Unicode White_Space
property. -/
def isSpace (c : Char) : Bool :=
  let n := c.toNat
  (9 ≤ n && n ≤ 13) || n == 32 || n == 0x85 || n == 0xA0 || n == 0x1680 ||
  (0x2000 ≤ n && n ≤ 0x200A) || n == 0x2028 || n == 0x2029 || n == 0x202F ||
  n == 0x205F || n == 0x3000

/-- Go `strings.TrimSpace`: drop leading and trailing white space. -/
def stringsTrimSpace (s : Str) : Str :=
  ((s.dropWhile isSpace).reverse.dropWhile isSpace).reverse

/-- Go `strings.Split(s, "\n")`: the pieces between newlines; always at least
one piece. -/
def splitLines : Str → List Str
  | [] => [[]]
  | c :: cs =>
    if c = '\n' then [] :: splitLines cs
    else
      match splitLines cs with
      | [] => [[c]]
      | l :: ls => (c :: l) :: ls

/-- Go string comparison `a <= b`: lexicographic on bytes, which on UTF-8 is
lexicographic on code points. -/
def strLe : Str → Str → Bool
  | [], _ => true
  | _ :: _, [] => false
  | a :: s, b :: t =>
    if a.toNat < b.toNat then true
    else if a.toNat = b.toNat then strLe s t
    else false

/-! ## `regexp`: the ordinal pattern -/

/-- ASCII digit, the class `\d` of Go regexps and `isDigit` of package time. -/
def isDigit (c : Char) : Bool := 48 ≤ c.toNat && c.toNat ≤ 57

/-- ASCII word character `[0-9A-Za-z_]`, the class behind `\b` in Go regexps. -/
def isWordChar (c : Char) : Bool :=
  let n := c.toNat
  (48 ≤ n && n ≤ 57) || (65 ≤ n && n ≤ 90) || n == 95 || (97 ≤ n && n ≤ 122)

/-- The alternation `(st|nd|rd|th)` on two consecutive characters. -/
def isOrdinalSuffix (a b : Char) : Bool :=
  (a == 's' && b == 't') || (a == 'n' && b == 'd') ||
  (a == 'r' && b == 'd') || (a == 't' && b == 'h')

/-- Whether the text `s` begins with a word character (the right-hand side of
a `\b` test at the position where `s` starts). -/
def startsWithWord : Str → Bool
  | [] => false
  | c :: _ => isWordChar c

/-- A match of `\b(\d+)(st|nd|rd|th)\b` starting exactly where `s` starts,
`prevWord` telling whether the character before `s` is a word character.
Returns group 1 and the text after the match.  The leading `\b` stands before
a digit, so it needs a non-word character (or the start) on the left; `\d+` can
only take the whole digit run, since a shorter run is followed by a digit and
not by a suffix; the closing `\b` stands after a letter, so the text after it
must not begin with a word character. -/
def ordinalMatchAt (prevWord : Bool) (s : Str) : Option (Str × Str) :=
  if prevWord then none
  else
    match s.takeWhile isDigit, s.dropWhile isDigit with
    | [], _ => none
    | d :: ds, a :: b :: rest =>
      if isOrdinalSuffix a b && !startsWithWord rest then some (d :: ds, rest) else none
    | _ :: _, _ => none

/-- Go `ReplaceAllString` for the ordinal pattern with template `$1`: scan
left to right; at the leftmost match keep the digits, drop the suffix and go on
after the match; elsewhere copy one character.  Each step consumes at least one
character, so `fuel = length` is enough. -/
def replaceOrdinals : Nat → Bool → Str → Str
  | 0, _, s => s
  | _ + 1, _, [] => []
  | fuel + 1, prevWord, c :: cs =>
    match ordinalMatchAt prevWord (c :: cs) with
    | some (ds, rest) => ds ++ replaceOrdinals fuel true rest
    | none => c :: replaceOrdinals fuel (isWordChar c) cs

/-- The substitution `ordinalRegex.ReplaceAllString(headerLine, "$1")`. -/
def stripOrdinals (s : Str) : Str := replaceOrdinals s.length false s

/-! ## `time`: parsing and formatting of the seven layouts -/

/-- The layout elements (`std` codes of package time) that occur in the seven
layouts. -/
inductive Std
  | stdLongYear
  | stdMonth
  | stdLongMonth
  | stdZeroMonth
  | stdLongWeekDay
  | stdDay
  | stdZeroDay
  deriving DecidableEq, Repr

/-- One step of `nextStdChunk`: the literal text before a layout element and
the element. -/
structure Chunk where
  lit : Str
  std : Std
  deriving DecidableEq, Repr

/-- A layout as the chunks `nextStdChunk` cuts it into.  All seven layouts end
with an element, so the text after the last chunk is empty. -/
abbrev Layout := List Chunk

open Std in
/-- Layout `"2006-01-02"`. -/
def layoutISO : Layout :=
  [⟨[], stdLongYear⟩, ⟨['-'], stdZeroMonth⟩, ⟨['-'], stdZeroDay⟩]

open Std in
/-- Layout `"January 2, 2006"`. -/
def layoutLongMonth : Layout :=
  [⟨[], stdLongMonth⟩, ⟨[' '], stdDay⟩, ⟨[',', ' '], stdLongYear⟩]

open Std in
/-- Layout `"Jan 2, 2006"`. -/
def layoutShortMonthComma : Layout :=
  [⟨[], stdMonth⟩, ⟨[' '], stdDay⟩, ⟨[',', ' '], stdLongYear⟩]

open Std in
/-- Layout `"Jan 2 2006"`. -/
def layoutShortMonth : Layout :=
  [⟨[], stdMonth⟩, ⟨[' '], stdDay⟩, ⟨[' '], stdLongYear⟩]

open Std in
/-- Layout `"Monday, January 2, 2006"`. -/
def layoutWeekday : Layout :=
  [⟨[], stdLongWeekDay⟩, ⟨[',', ' '], stdLongMonth⟩, ⟨[' '], stdDay⟩, ⟨[',', ' '], stdLongYear⟩]

open Std in
/-- Layout `"02 Jan 2006"`. -/
def layoutZeroDay : Layout :=
  [⟨[], stdZeroDay⟩, ⟨[' '], stdMonth⟩, ⟨[' '], stdLongYear⟩]

open Std in
/-- Layout `"2 Jan 2006"`. -/
def layoutDay : Layout :=
  [⟨[], stdDay⟩, ⟨[' '], stdMonth⟩, ⟨[' '], stdLongYear⟩]

/-- The table `shortMonthNames` of package time. -/
def shortMonthNames : List Str :=
  ["Jan", "Feb", "Mar", "Apr", "May", "Jun", "Jul", "Aug", "Sep", "Oct", "Nov", "Dec"].map
    String.toList

/-- The table `longMonthNames` of package time. -/
def longMonthNames : List Str :=
  ["January", "February", "March", "April", "May", "June", "July", "August", "September",
    "October", "November", "December"].map String.toList

/-- The table `longDayNames` of package time. -/
def longDayNames : List Str :=
  ["Sunday", "Monday", "Tuesday", "Wednesday", "Thursday", "Friday", "Saturday"].map
    String.toList

/-- One character of Go `match`: equal, or equal after setting the case bit
and then a lower-case ASCII letter. -/
def matchChar (c1 c2 : Char) : Bool :=
  c1 == c2 ||
    ((c1.toNat ||| 32) == (c2.toNat ||| 32) && 97 ≤ (c1.toNat ||| 32) && (c1.toNat ||| 32) ≤ 122)

/-- Go `match(s1, s2)` of package time: ASCII case-insensitive equality,
position by position over `s1`. -/
def matchFold : Str → Str → Bool
  | [], _ => true
  | _ :: _, [] => false
  | c1 :: s1, c2 :: s2 => matchChar c1 c2 && matchFold s1 s2

/-- Go `lookup(tab, val)` with the running index: the first table entry that
`val` starts with (case-insensitively), and the rest of `val`. -/
def lookupFrom (i : Nat) : List Str → Str → Option (Nat × Str)
  | [], _ => none
  | v :: tab, val =>
    if v.length ≤ val.length && matchFold (val.take v.length) v then
      some (i, val.drop v.length)
    else lookupFrom (i + 1) tab val

/-- Go `lookup(tab, val)`. -/
def lookup (tab : List Str) (val : Str) : Option (Nat × Str) := lookupFrom 0 tab val

/-- Value of an ASCII digit, `c - '0'`. -/
def digitVal (c : Char) : Nat := c.toNat - 48

/-- Go `isDigit(s, i)`: position `i` exists and holds an ASCII digit. -/
def isDigitAt (s : Str) (i : Nat) : Bool :=
  match s.get? i with
  | some c => isDigit c
  | none => false

/-- Go `getnum(s, fixed)`: one or two leading digits (`fixed` demands two). -/
def getnum (s : Str) (fixed : Bool) : Option (Nat × Str) :=
  if !isDigitAt s 0 then none
  else if !isDigitAt s 1 then
    if fixed then none
    else
      match s with
      | c :: rest => some (digitVal c, rest)
      | [] => none
  else
    match s with
    | c0 :: c1 :: rest => some (digitVal c0 * 10 + digitVal c1, rest)
    | _ => none

/-- Go `leadingInt`: the value of the leading digits and the remainder.  The
overflow test is left out: the only caller passes four bytes. -/
def leadingInt : Nat → Str → Nat × Str
  | x, [] => (x, [])
  | x, c :: cs => if isDigit c then leadingInt (x * 10 + digitVal c) cs else (x, c :: cs)

/-- Go `atoi` on text that starts with a digit (the sign branch cannot be
taken after the `isDigit(value, 0)` test of `stdLongYear`): all of the text
must be digits. -/
def atoi (s : Str) : Option Nat :=
  match leadingInt 0 s with
  | (x, []) => some x
  | (_, _ :: _) => none

/-- Go `cutspace`: drop leading blanks. -/
def cutspace (s : Str) : Str := s.dropWhile (fun c => c == ' ')

/-- Go `skip(value, pre)`, one loop iteration per unit of fuel: remove the
literal text `pre` from the front of `value`, a run of blanks in `pre` standing
for a run of blanks (or the end) in `value`. -/
def skipFuel : Nat → Str → Str → Option Str
  | _, value, [] => some value
  | 0, _, _ :: _ => none
  | fuel + 1, value, p :: pre =>
    if p = ' ' then
      match value with
      | [] => skipFuel fuel (cutspace []) (cutspace (p :: pre))
      | v :: vs =>
        if v ≠ ' ' then none
        else skipFuel fuel (cutspace (v :: vs)) (cutspace (p :: pre))
    else
      match value with
      | [] => none
      | v :: vs => if v ≠ p then none else skipFuel fuel vs pre

/-- Go `skip(value, pre)`. -/
def skip (value pre : Str) : Option Str := skipFuel pre.length value pre

/-- The fields `parse` fills in; `month` and `day` start unset (`-1` in Go). -/
structure Fields where
  year : Nat := 0
  month : Option Nat := none
  day : Option Nat := none
  deriving DecidableEq, Repr

/-- The `switch std` of `time.parse` for one layout element: consume it from
`value` and record it.  `none` is any parse error. -/
def parseStd (std : Std) (value : Str) (f : Fields) : Option (Str × Fields) :=
  match std with
  | .stdLongYear =>
    if value.length < 4 || !isDigitAt value 0 then none
    else
      match atoi (value.take 4) with
      | some y => some (value.drop 4, { f with year := y })
      | none => none
  | .stdMonth =>
    match lookup shortMonthNames value with
    | some (i, rest) => some (rest, { f with month := some (i + 1) })
    | none => none
  | .stdLongMonth =>
    match lookup longMonthNames value with
    | some (i, rest) => some (rest, { f with month := some (i + 1) })
    | none => none
  | .stdZeroMonth =>
    match getnum value true with
    | some (m, rest) => if m ≤ 0 || 12 < m then none else some (rest, { f with month := some m })
    | none => none
  | .stdLongWeekDay =>
    match lookup longDayNames value with
    | some (_, rest) => some (rest, f)
    | none => none
  | .stdDay =>
    match getnum value false with
    | some (d, rest) => some (rest, { f with day := some d })
    | none => none
  | .stdZeroDay =>
    match getnum value true with
    | some (d, rest) => some (rest, { f with day := some d })
    | none => none

/-- The main loop of `time.parse`: for each chunk skip its literal text and
parse its element; after the last chunk no text may be left. -/
def parseChunks : Layout → Str → Fields → Option Fields
  | [], value, f => if value = [] then some f else none
  | ch :: rest, value, f =>
    match skip value ch.lit with
    | none => none
    | some value1 =>
      match parseStd ch.std value1 f with
      | none => none
      | some (value2, f1) => parseChunks rest value2 f1

/-- Go `isLeap`. -/
def isLeap (year : Nat) : Bool := year % 4 == 0 && (year % 100 != 0 || year % 400 == 0)

/-- The table `daysBefore` of package time. -/
def daysBefore : List Nat := [0, 31, 59, 90, 120, 151, 181, 212, 243, 273, 304, 334, 365]

/-- Go `daysIn(m, year)`. -/
def daysIn (m year : Nat) : Nat :=
  if m = 2 && isLeap year then 29
  else daysBefore.getD m 0 - daysBefore.getD (m - 1) 0

/-- A calendar date as `time.Parse` returns it for these layouts (midnight
UTC, no other component). -/
structure Date where
  year : Nat
  month : Nat
  day : Nat
  deriving DecidableEq, Repr

/-- Go `time.Parse(layout, value)` with every error mapped to `none`: run the
chunks, default unset month and day to 1, and check the day of the month. -/
def parse (layout : Layout) (value : Str) : Option Date :=
  match parseChunks layout value {} with
  | none => none
  | some f =>
    let month := f.month.getD 1
    let day := f.day.getD 1
    if day < 1 || daysIn month f.year < day then none
    else some ⟨f.year, month, day⟩

/-- The digit byte `'0' + k` for `k < 10`. -/
def digitChar (k : Nat) : Char :=
  match k with
  | 0 => '0' | 1 => '1' | 2 => '2' | 3 => '3' | 4 => '4'
  | 5 => '5' | 6 => '6' | 7 => '7' | 8 => '8' | _ => '9'

/-- The digit loop of Go `appendInt` over its 20-byte buffer: the decimal
digits of `u`. -/
def decimal : Nat → Nat → Str
  | 0, _ => []
  | fuel + 1, u => if u < 10 then [digitChar u] else decimal fuel (u / 10) ++ [digitChar (u % 10)]

/-- Go `appendInt(b, x, width)` for `x ≥ 0`: decimal digits, zero-padded on the
left to `width`. -/
def appendInt (x width : Nat) : Str :=
  let ds := decimal 20 x
  List.replicate (width - ds.length) '0' ++ ds

/-- Go `parsedDate.Format("2006-01-02")`. -/
def formatISO (d : Date) : Str :=
  appendInt d.year 4 ++ '-' :: appendInt d.month 2 ++ '-' :: appendInt d.day 2

/-! ## `main.go` -/

/-- The slice `dateFormats` of `extractDateFromHeader`, in the order of the
source. -/
def dateFormats : List Layout :=
  [layoutISO, layoutLongMonth, layoutShortMonthComma, layoutShortMonth, layoutWeekday,
    layoutZeroDay, layoutDay]

/-- The loop `for _, format := range dateFormats` of `extractDateFromHeader`:
the date of the first layout that parses all of `value`. -/
def parseFirst : List Layout → Str → Option Date
  | [], _ => none
  | l :: ls, value =>
    match parse l value with
    | some d => some d
    | none => parseFirst ls value

/-- The cleaned title of `extractDateFromHeader`: leading `#` removed, white
space trimmed, ordinal suffixes removed. -/
def cleanTitle (headerLine : Str) : Str :=
  stripOrdinals (stringsTrimSpace (stringsTrimLeft headerLine '#'))

/-- The date the header names, if any layout parses its cleaned title. -/
def headerDate (headerLine : Str) : Option Date :=
  parseFirst dateFormats (cleanTitle headerLine)

/-- Go `extractDateFromHeader`: the date in `YYYY-MM-DD` form, or the empty
string when no layout parses the cleaned title. -/
def extractDateFromHeader (headerLine : Str) : Str :=
  match headerDate headerLine with
  | some d => formatISO d
  | none => []

/-- Go `isDateInRange`. -/
def isDateInRange (headerLine startDate endDate : Str) : Bool :=
  let hd := extractDateFromHeader headerLine
  if hd = [] then false
  else strLe startDate hd && strLe hd endDate

/-- The loop state of `processMarkdownFile`. -/
structure Capture where
  isMatchingHeader : Bool
  outputContent : Str
  deriving DecidableEq, Repr

/-- The synthetic title line `fmt.Sprintf("# %s\n", strings.TrimSuffix(filePath, ".md"))`. -/
def titleLine (filePath : Str) : Str :=
  '#' :: ' ' :: stringsTrimSuffix filePath ".md".toList ++ ['\n']

/-- One iteration of the loop over `lines` in `processMarkdownFile`. -/
def captureStep (filePath startDate endDate : Str) (st : Capture) (line : Str) : Capture :=
  if stringsHasPrefix line "# ".toList then
    if isDateInRange line startDate endDate then
      { isMatchingHeader := true, outputContent := st.outputContent ++ titleLine filePath }
    else
      { st with isMatchingHeader := false }
  else if st.isMatchingHeader then
    { st with outputContent := st.outputContent ++ (line ++ ['\n']) }
  else st

/-- The state after the loop of `processMarkdownFile` over `lines`. -/
def captureLines (filePath startDate endDate : Str) (lines : List Str) : Capture :=
  lines.foldl (captureStep filePath startDate endDate) ⟨false, []⟩

/-- The text `outputContent` that `processMarkdownFile` has accumulated after
its loop. -/
def accumulated (filePath startDate endDate : Str) (lines : List Str) : Str :=
  (captureLines filePath startDate endDate lines).outputContent

/-- The write at the end of `processMarkdownFile`, on the output file `out`:
when something was accumulated, append it and one newline. -/
def writeOutput (out outputContent : Str) : Str :=
  if outputContent.length > 0 then out ++ (outputContent ++ ['\n']) else out

/-- Go `processMarkdownFile` on the lines of a document, the output file being
the explicit text `out` (reads and writes succeed). -/
def processLines (filePath : Str) (lines : List Str) (startDate endDate out : Str) : Str :=
  writeOutput out (accumulated filePath startDate endDate lines)

/-- Go `processMarkdownFile` on the content of the file at `filePath`. -/
def processMarkdownFile (filePath content startDate endDate out : Str) : Str :=
  processLines filePath (splitLines content) startDate endDate out

/-! ## Reference descriptions -/

/-- A top-level header line: it starts with `"# "`. -/
def isTopHeader (line : Str) : Bool := stringsHasPrefix line "# ".toList

/-- A matching header: a top-level header whose date is in range. -/
def isMatching (startDate endDate line : Str) : Bool :=
  isTopHeader line && isDateInRange line startDate endDate

/-- Lines written verbatim, each newline-terminated. -/
def joinLines : List Str → Str
  | [] => []
  | l :: ls => (l ++ ['\n']) ++ joinLines ls

/-- The captured section that starts right after a header: the lines up to
(not including) the next top-level header or the end of the document. -/
def sectionBody (lines : List Str) : List Str := lines.takeWhile (fun l => !isTopHeader l)

/-- The block of one matching header: the synthetic title line, then the
captured lines. -/
def block (filePath : Str) (after : List Str) : Str :=
  titleLine filePath ++ joinLines (sectionBody after)

/-- The blocks of the matching headers of a document, in line order. -/
def blocks (filePath startDate endDate : Str) : List Str → List Str
  | [] => []
  | l :: rest =>
    if isMatching startDate endDate l then
      block filePath rest :: blocks filePath startDate endDate rest
    else blocks filePath startDate endDate rest

/-- The text the capture boundary rule describes: the blocks one after the
other. -/
def sectionsText (filePath startDate endDate : Str) (lines : List Str) : Str :=
  (blocks filePath startDate endDate lines).flatten

/-- The emission format with a blank line after every block: each block of a
matching header followed by its own empty line. -/
def blankSeparatedText (filePath startDate endDate : Str) (lines : List Str) : Str :=
  ((blocks filePath startDate endDate lines).map (fun b => b ++ ['\n'])).flatten

/-- A real calendar date with a four-digit year: month 1..12 and a day that
exists in that month of that year. -/
def isValidDate (d : Date) : Bool :=
  d.year ≤ 9999 && 1 ≤ d.month && d.month ≤ 12 && 1 ≤ d.day && d.day ≤ daysIn d.month d.year

/-- Chronological order on calendar dates: `a` is on or before `b`. -/
def dateLe (a b : Date) : Bool :=
  a.year < b.year ||
    (a.year == b.year && (a.month < b.month || (a.month == b.month && a.day ≤ b.day)))

/-- The fields hold a four-digit year and, when set, a month in 1..12. -/
def FieldsOk (f : Fields) : Prop :=
  f.year < 10000 ∧ ∀ m, f.month = some m → 1 ≤ m ∧ m ≤ 12

/-- The candidate layouts in the priority order of the written design: numeric,
weekday form, full month, abbreviated month with comma, abbreviated month
without comma, zero-padded day first, unpadded day first. -/
def dateFormatsSpec : List Layout :=
  [layoutISO, layoutWeekday, layoutLongMonth, layoutShortMonthComma, layoutShortMonth,
    layoutZeroDay, layoutDay]

/-- The reference extractor: the first layout of `dateFormatsSpec` that parses
the whole cleaned title gives the date, rendered in canonical form. -/
def extractDateSpec (headerLine : Str) : Str :=
  match parseFirst dateFormatsSpec (cleanTitle headerLine) with
  | some d => formatISO d
  | none => []

/-- The first two characters of a text with the ASCII case bit set. -/
def fold2 : Str → Option (Nat × Nat)
  | a :: b :: _ => some (a.toNat ||| 32, b.toNat ||| 32)
  | _ => none

/-- The replacement of `stripOrdinals` started in the middle of a text:
`prevWord` tells whether the character before `s` is a word character. -/
def strip (prevWord : Bool) (s : Str) : Str := replaceOrdinals s.length prevWord s

/-- An ASCII letter, read off the case-folded code as Go `match` does. -/
def isLetterFold (c : Char) : Bool := 97 ≤ (c.toNat ||| 32) && (c.toNat ||| 32) ≤ 122

/-- The layout ends with the four-digit year element. -/
def endsWithYear (l : Layout) : Bool :=
  match l.getLast? with
  | some ch => ch.std == Std.stdLongYear
  | none => false

/-- Go `Month.String()` for a month in 1..12. -/
def monthLong (m : Nat) : Str := longMonthNames.getD (m - 1) []

/-- The abbreviated month name `month.String()[:3]` that `Format` writes for
the element `Jan`. -/
def monthShort (m : Nat) : Str := (monthLong m).take 3

/-- The number of days from 0000-01-01 (proleptic Gregorian) to the date. -/
def dayNumber (d : Date) : Nat :=
  365 * d.year + ((d.year + 3) / 4 - (d.year + 99) / 100 + (d.year + 399) / 400) +
    daysBefore.getD (d.month - 1) 0 + (if 2 < d.month && isLeap d.year then 1 else 0) +
    (d.day - 1)

/-- Go `Time.Weekday()`, Sunday = 0; 0000-01-01 was a Saturday. -/
def weekday (d : Date) : Nat := (dayNumber d + 6) % 7

/-- Go `Weekday.String()`. -/
def dayLong (w : Nat) : Str := longDayNames.getD w []

/-- What `Time.Format` writes for one layout element. -/
def formatStd (std : Std) (d : Date) : Str :=
  match std with
  | .stdLongYear => appendInt d.year 4
  | .stdMonth => monthShort d.month
  | .stdLongMonth => monthLong d.month
  | .stdZeroMonth => appendInt d.month 2
  | .stdLongWeekDay => dayLong (weekday d)
  | .stdDay => appendInt d.day 0
  | .stdZeroDay => appendInt d.day 2

/-- Go `Time.Format(layout)` on the chunks of the layout: each literal text,
then its element. -/
def format : Layout → Date → Str
  | [], _ => []
  | ch :: rest, d => ch.lit ++ (formatStd ch.std d ++ format rest d)

/-- The canonical form `YYYY-MM-DD`, read off the text: ten characters, four
digits, a hyphen, two digits that make a month in 01..12, a hyphen, and two
digits that make a day of that month in that year. -/
def isCanonical (s : Str) : Bool :=
  match s with
  | [y3, y2, y1, y0, h1, m1, m0, h2, d1, d0] =>
    isDigit y3 && isDigit y2 && isDigit y1 && isDigit y0 && h1 == '-' &&
    isDigit m1 && isDigit m0 && h2 == '-' && isDigit d1 && isDigit d0 &&
    1 ≤ digitVal m1 * 10 + digitVal m0 && digitVal m1 * 10 + digitVal m0 ≤ 12 &&
    1 ≤ digitVal d1 * 10 + digitVal d0 &&
    digitVal d1 * 10 + digitVal d0 ≤
      daysIn (digitVal m1 * 10 + digitVal m0)
        (((digitVal y3 * 10 + digitVal y2) * 10 + digitVal y1) * 10 + digitVal y0)
  | _ => false

/-- One entry that `filepath.Walk` hands to the callback of `main`: its path,
its base name `info.Name()`, whether it is a directory, whether
`filepath.Clean(path) == filepath.Clean(flagOutputFile)`, and the content
`os.ReadFile` returns for it.  The content does not depend on what the tool
writes: the output file itself is not among the scanned documents. -/
structure Entry where
  path : Str
  name : Str
  isDir : Bool
  isOutputFile : Bool
  content : Str
  deriving DecidableEq, Repr

/-- Go `strings.HasSuffix(s, suffix)`. -/
def stringsHasSuffix (s suffix : Str) : Bool := suffix.isSuffixOf s

/-- The callback of `filepath.Walk` in `main` on one entry: skip the output
file, process a regular file whose name ends in `.md`. -/
def walkStep (startDate endDate : Str) (out : Str) (e : Entry) : Str :=
  if e.isOutputFile then out
  else if !e.isDir && stringsHasSuffix e.name ".md".toList then
    processMarkdownFile e.path e.content startDate endDate out
  else out

/-- The defaulting of a date flag in `main`: an empty flag becomes the current
date. -/
def defaultDate (flag currentDate : Str) : Str := if flag = [] then currentDate else flag

/-- Go `main` on the output file `out`: default the dates, truncate the output
unless `flagAppend`, then walk the entries in traversal order (every read and
write succeeds). -/
def runMain (flagAppend : Bool) (flagStartDate flagEndDate currentDate : Str)
    (entries : List Entry) (out : Str) : Str :=
  let startDate := defaultDate flagStartDate currentDate
  let endDate := defaultDate flagEndDate currentDate
  let out0 := if !flagAppend then [] else out
  entries.foldl (walkStep startDate endDate) out0

/-- The blocks one run of the tool emits: for each scanned document in
traversal order, the blocks of its matching headers. -/
def emittedBlocks (startDate endDate : Str) : List Entry → List Str
  | [] => []
  | e :: rest =>
    (if e.isOutputFile then []
      else if !e.isDir && stringsHasSuffix e.name ".md".toList then
        blocks e.path startDate endDate (splitLines e.content)
      else []) ++ emittedBlocks startDate endDate rest

/-- The last top-level header among some lines, if there is one. -/
def lastTopHeader (lines : List Str) : Option Str := (lines.filter isTopHeader).getLast?

/-- A date written as "W, <full month> <day>, <year>" with the weekday name
number `w` (Sunday = 0), whatever the weekday of the date is. -/
def formatWithWeekday (w : Nat) (d : Date) : Str :=
  dayLong w ++ ',' :: ' ' :: format layoutLongMonth d

/-- What `Time.Format` writes for one layout element when the year is written
with two digits (the element `06` in place of `2006`). -/
def formatStdShortYear (std : Std) (d : Date) : Str :=
  match std with
  | .stdLongYear => appendInt d.year 2
  | s => formatStd s d

/-- A date written in the shape of a layout, the year with two digits only. -/
def formatShortYear : Layout → Date → Str
  | [], _ => []
  | ch :: rest, d => ch.lit ++ (formatStdShortYear ch.std d ++ formatShortYear rest d)

/-! ## The capture loop -/

theorem foldl_captureStep (filePath startDate endDate : Str) (lines : List Str) (st : Capture) :
    (lines.foldl (captureStep filePath startDate endDate) st).outputContent =
      st.outputContent ++
        ((if st.isMatchingHeader then joinLines (sectionBody lines) else []) ++
          sectionsText filePath startDate endDate lines) := by
  induction lines generalizing st with
  | nil => simp [sectionBody, joinLines, sectionsText, blocks]
  | cons l rest ih =>
    rw [List.foldl_cons, ih]
    by_cases hh : stringsHasPrefix l ['#', ' '] = true
    · by_cases hr : isDateInRange l startDate endDate = true
      · simp [captureStep, hh, hr, sectionBody, isTopHeader, joinLines, sectionsText, blocks,
          isMatching, block]
      · simp [captureStep, hh, hr, sectionBody, isTopHeader, joinLines, sectionsText, blocks,
          isMatching]
    · by_cases hm : st.isMatchingHeader = true
      · simp [captureStep, hh, hm, sectionBody, isTopHeader, joinLines, sectionsText, blocks,
          isMatching]
      · simp [captureStep, hh, hm, sectionBody, isTopHeader, joinLines, sectionsText, blocks,
          isMatching]

theorem accumulated_eq_sectionsText (filePath startDate endDate : Str) (lines : List Str) :
    accumulated filePath startDate endDate lines =
      sectionsText filePath startDate endDate lines := by
  simp [accumulated, captureLines, foldl_captureStep]

theorem titleLine_ne_nil (filePath : Str) : titleLine filePath ≠ [] := by
  simp [titleLine]

theorem block_ne_nil (filePath : Str) (after : List Str) : block filePath after ≠ [] := by
  simp [block, titleLine]

theorem blocks_eq_nil_iff (filePath startDate endDate : Str) (lines : List Str) :
    blocks filePath startDate endDate lines = [] ↔
      ∀ l ∈ lines, isMatching startDate endDate l = false := by
  induction lines with
  | nil => simp [blocks]
  | cons l rest ih =>
    by_cases h : isMatching startDate endDate l = true
    · simp [blocks, h]
    · simp [blocks, h, ih]

theorem sectionsText_eq_nil_iff (filePath startDate endDate : Str) (lines : List Str) :
    sectionsText filePath startDate endDate lines = [] ↔
      ∀ l ∈ lines, isMatching startDate endDate l = false := by
  rw [← blocks_eq_nil_iff filePath]
  constructor
  · intro h
    cases hb : blocks filePath startDate endDate lines with
    | nil => rfl
    | cons b bs =>
      have hmem : b ∈ blocks filePath startDate endDate lines := by simp [hb]
      have hblock : ∃ after, b = block filePath after := by
        clear hb h
        induction lines with
        | nil => simp [blocks] at hmem
        | cons l rest ih =>
          by_cases hm : isMatching startDate endDate l = true
          · simp only [blocks, hm, if_true, List.mem_cons] at hmem
            rcases hmem with h1 | h1
            · exact ⟨rest, h1⟩
            · exact ih h1
          · simp only [blocks, hm] at hmem
            exact ih hmem
      obtain ⟨after, rfl⟩ := hblock
      simp [sectionsText, hb, block, titleLine] at h
  · intro h
    simp [sectionsText, h]

theorem strLe_refl (a : Str) : strLe a a = true := by
  induction a with
  | nil => rfl
  | cons c s ih => simp [strLe, ih]

theorem strLe_trans : ∀ (a b c : Str), strLe a b = true → strLe b c = true → strLe a c = true
  | [], _, _, _, _ => by simp [strLe]
  | _ :: _, [], _, h, _ => by simp [strLe] at h
  | _ :: _, _ :: _, [], _, h => by simp [strLe] at h
  | x :: a, y :: b, z :: c, h1, h2 => by
    simp only [strLe] at h1 h2 ⊢
    split_ifs at h1 h2 ⊢ <;>
      first
        | rfl
        | exact strLe_trans a b c h1 h2
        | (exfalso; omega)

theorem isDateInRange_false_of_inverted (headerLine startDate endDate : Str)
    (h : strLe startDate endDate = false) : isDateInRange headerLine startDate endDate = false := by
  by_contra hne
  have ht : isDateInRange headerLine startDate endDate = true := by simpa using hne
  unfold isDateInRange at ht
  simp only at ht
  split at ht
  · simp at ht
  · rw [Bool.and_eq_true] at ht
    have := strLe_trans _ _ _ ht.1 ht.2
    simp [h] at this

theorem processLines_eq (filePath : Str) (lines : List Str) (startDate endDate out : Str) :
    processLines filePath lines startDate endDate out =
      if (blocks filePath startDate endDate lines).isEmpty then out
      else out ++ ((blocks filePath startDate endDate lines).flatten ++ ['\n']) := by
  unfold processLines writeOutput
  rw [accumulated_eq_sectionsText]
  by_cases h : blocks filePath startDate endDate lines = []
  · simp [h, sectionsText]
  · have h2 : sectionsText filePath startDate endDate lines ≠ [] := by
      rw [Ne, sectionsText_eq_nil_iff, ← blocks_eq_nil_iff filePath]
      exact h
    have h3 : 0 < (sectionsText filePath startDate endDate lines).length :=
      List.length_pos.mpr h2
    have h4 : (blocks filePath startDate endDate lines).isEmpty = false := by
      cases hb : blocks filePath startDate endDate lines with
      | nil => exact absurd hb h
      | cons b bs => rfl
    rw [if_pos h3, h4]
    simp [sectionsText]

/-- C1: for every path, every sequence of lines and every range, the text
`processMarkdownFile` accumulates is, for each top-level header in range and in
line order, the synthetic title line followed by the non-header lines up to the
next top-level header or the end, each newline-terminated; on the six lines of
the capture-boundary example it is the two sections with "body A" and "body C"
and without "body B". -/
theorem accumulated_is_sections :
    (∀ (filePath startDate endDate : Str) (lines : List Str),
      accumulated filePath startDate endDate lines =
        sectionsText filePath startDate endDate lines) ∧
    (∀ filePath : Str,
      accumulated filePath "2024-01-01".toList "2024-01-01".toList
          ["# 2024-01-01".toList, "body A".toList, "# Other".toList, "body B".toList,
            "# 2024-01-01".toList, "body C".toList] =
        titleLine filePath ++ "body A\n".toList ++ (titleLine filePath ++ "body C\n".toList)) := by
  refine ⟨accumulated_eq_sectionsText, ?_⟩
  intro filePath
  have h1 : isMatching "2024-01-01".toList "2024-01-01".toList "# 2024-01-01".toList = true := by
    decide
  have h2 : isMatching "2024-01-01".toList "2024-01-01".toList "# Other".toList = false := by
    decide
  have h3 : isMatching "2024-01-01".toList "2024-01-01".toList "body A".toList = false := by
    decide
  have h4 : isMatching "2024-01-01".toList "2024-01-01".toList "body B".toList = false := by
    decide
  have h5 : isMatching "2024-01-01".toList "2024-01-01".toList "body C".toList = false := by
    decide
  have t1 : isTopHeader "# Other".toList = true := by decide
  have t2 : isTopHeader "body A".toList = false := by decide
  have t3 : isTopHeader "body C".toList = false := by decide
  rw [accumulated_eq_sectionsText]
  simp only [sectionsText, blocks, h1, h2, h3, h4, h5, if_true, block, sectionBody,
    List.takeWhile, t1, t2, t3, joinLines, Bool.not_true, Bool.not_false]
  simp

/-- C7 (as stated, refuted): with two matching headers in one document the
written text has no blank line between the first block and the second; the
only blank line comes after the last block. -/
theorem blank_line_between_blocks_counterexample :
    processLines "doc.md".toList
        ["# 2024-01-01".toList, "A".toList, "# 2024-01-01".toList, "B".toList]
        "2024-01-01".toList "2024-01-01".toList [] = "# doc\nA\n# doc\nB\n\n".toList ∧
    blankSeparatedText "doc.md".toList "2024-01-01".toList "2024-01-01".toList
        ["# 2024-01-01".toList, "A".toList, "# 2024-01-01".toList, "B".toList] =
      "# doc\nA\n\n# doc\nB\n\n".toList ∧
    processLines "doc.md".toList
        ["# 2024-01-01".toList, "A".toList, "# 2024-01-01".toList, "B".toList]
        "2024-01-01".toList "2024-01-01".toList [] ≠
      blankSeparatedText "doc.md".toList "2024-01-01".toList "2024-01-01".toList
        ["# 2024-01-01".toList, "A".toList, "# 2024-01-01".toList, "B".toList] := by
  decide

/-- C7 (amended): for every document, what `processMarkdownFile` appends to the
output is nothing when the document has no matching header, and otherwise the
blocks of its matching headers one directly after the other, each block being
the synthetic title line and then the captured lines verbatim, followed by one
single newline after the last block of the document. -/
theorem processLines_blocks_then_one_blank (filePath : Str) (lines : List Str)
    (startDate endDate out : Str) :
    processLines filePath lines startDate endDate out =
      (if (blocks filePath startDate endDate lines).isEmpty then out
      else out ++ ((blocks filePath startDate endDate lines).flatten ++ ['\n'])) ∧
    ∀ b ∈ blocks filePath startDate endDate lines,
      ∃ after : List Str,
        b = '#' :: ' ' :: stringsTrimSuffix filePath ".md".toList ++ ['\n'] ++
          joinLines (after.takeWhile (fun l => !isTopHeader l)) := by
  refine ⟨processLines_eq filePath lines startDate endDate out, ?_⟩
  intro b hb
  induction lines with
  | nil => simp [blocks] at hb
  | cons l rest ih =>
    by_cases hm : isMatching startDate endDate l = true
    · simp only [blocks, hm, if_true, List.mem_cons] at hb
      rcases hb with h1 | h1
      · exact ⟨rest, by simp [h1, block, titleLine, sectionBody]⟩
      · exact ih h1
    · simp only [blocks, hm] at hb
      exact ih hb

/-- C8: `processMarkdownFile` writes (its accumulated text is non-empty, and the
output file changes) exactly when some line is a top-level header with a date
in range; a matching header alone, or directly followed by another header,
still gives its title line; without a matching header the output is
unchanged. -/
theorem processLines_writes_iff (filePath : Str) (lines : List Str)
    (startDate endDate out : Str) :
    (0 < (accumulated filePath startDate endDate lines).length ↔
      ∃ l ∈ lines, isTopHeader l = true ∧ isDateInRange l startDate endDate = true) ∧
    (processLines filePath lines startDate endDate out = out ↔
      ∀ l ∈ lines, (isTopHeader l && isDateInRange l startDate endDate) = false) ∧
    (∀ h : Str, processLines filePath [h] startDate endDate out =
      if isTopHeader h && isDateInRange h startDate endDate then
        out ++ (titleLine filePath ++ ['\n'])
      else out) ∧
    (∀ h t : Str, accumulated filePath startDate endDate [h, '#' :: ' ' :: t] =
      (if isTopHeader h && isDateInRange h startDate endDate then titleLine filePath else []) ++
      (if isDateInRange ('#' :: ' ' :: t) startDate endDate then titleLine filePath else [])) := by
  have key := sectionsText_eq_nil_iff filePath startDate endDate lines
  refine ⟨?_, ?_, ?_, ?_⟩
  · rw [accumulated_eq_sectionsText, List.length_pos, Ne, key]
    simp [isMatching]
  · unfold processLines writeOutput
    rw [accumulated_eq_sectionsText]
    by_cases h : sectionsText filePath startDate endDate lines = []
    · simp only [h, List.length_nil, lt_self_iff_false, if_false, true_iff]
      exact key.mp h
    · have h3 : 0 < (sectionsText filePath startDate endDate lines).length :=
        List.length_pos.mpr h
      rw [if_pos h3]
      constructor
      · intro h4
        have h5 := congrArg List.length h4
        simp at h5
      · intro h4
        exact absurd (key.mpr h4) h
  · intro h
    rw [processLines_eq]
    by_cases hm : isMatching startDate endDate h = true
    · have hm2 := hm
      unfold isMatching at hm2
      simp [blocks, hm, hm2, block, sectionBody, joinLines]
    · have hm2 := hm
      unfold isMatching at hm2
      simp [blocks, hm, hm2]
  · intro h t
    rw [accumulated_eq_sectionsText]
    have ht : isTopHeader ('#' :: ' ' :: t) = true := by
      simp [isTopHeader, stringsHasPrefix, List.isPrefixOf]
    by_cases hm : isMatching startDate endDate h = true <;>
      by_cases hr : isDateInRange ('#' :: ' ' :: t) startDate endDate = true <;>
      · have hm2 := hm
        unfold isMatching at hm2
        simp [sectionsText, blocks, hm, hm2, hr, isMatching, ht, block, sectionBody, joinLines]

/-- C9: with an inverted range (`startDate > endDate` in Go string order) no
header line is in range, and for every document `processMarkdownFile`
accumulates nothing and leaves the output as it was. -/
theorem inverted_range_yields_nothing (startDate endDate : Str)
    (h : strLe startDate endDate = false) :
    (∀ headerLine : Str, isDateInRange headerLine startDate endDate = false) ∧
    (∀ (filePath : Str) (lines : List Str) (out : Str),
      accumulated filePath startDate endDate lines = [] ∧
      processLines filePath lines startDate endDate out = out) := by
  have h1 : ∀ headerLine : Str, isDateInRange headerLine startDate endDate = false :=
    fun headerLine => isDateInRange_false_of_inverted headerLine startDate endDate h
  refine ⟨h1, ?_⟩
  intro filePath lines out
  have h2 : sectionsText filePath startDate endDate lines = [] := by
    rw [sectionsText_eq_nil_iff]
    intro l _
    simp [isMatching, h1]
  constructor
  · rw [accumulated_eq_sectionsText, h2]
  · unfold processLines writeOutput
    rw [accumulated_eq_sectionsText, h2]
    simp

/-- Witness for C9: the range 2024-01-03..2024-01-01 is inverted, so the header
"# 2024-01-02" is not in range and a document with that header and a body line
writes nothing. -/
theorem inverted_range_yields_nothing_witness :
    strLe "2024-01-03".toList "2024-01-01".toList = false ∧
    isDateInRange "# 2024-01-02".toList "2024-01-03".toList "2024-01-01".toList = false ∧
    processLines "doc.md".toList ["# 2024-01-02".toList, "body".toList]
      "2024-01-03".toList "2024-01-01".toList "old".toList = "old".toList :=
  ⟨by decide,
    (inverted_range_yields_nothing "2024-01-03".toList "2024-01-01".toList (by decide)).1 _,
    ((inverted_range_yields_nothing "2024-01-03".toList "2024-01-01".toList (by decide)).2
      _ _ _).2⟩

/-! ## What `time.Parse` returns -/

theorem digitVal_le_nine (c : Char) (h : isDigit c = true) : digitVal c ≤ 9 := by
  simp only [isDigit, Bool.and_eq_true, decide_eq_true_eq] at h
  simp only [digitVal]
  omega

theorem leadingInt_bound : ∀ (s : Str) (x y : Nat),
    leadingInt x s = (y, []) → y < (x + 1) * 10 ^ s.length
  | [], x, y, h => by
    simp only [leadingInt, Prod.mk.injEq] at h
    simp
    omega
  | c :: cs, x, y, h => by
    simp only [leadingInt] at h
    split at h
    · rename_i hd
      have h1 := leadingInt_bound cs _ y h
      have h2 := digitVal_le_nine c hd
      have h3 : (x * 10 + digitVal c + 1) * 10 ^ cs.length ≤ ((x + 1) * 10) * 10 ^ cs.length :=
        Nat.mul_le_mul_right _ (by omega)
      simp only [List.length_cons, pow_succ]
      calc y < (x * 10 + digitVal c + 1) * 10 ^ cs.length := h1
        _ ≤ ((x + 1) * 10) * 10 ^ cs.length := h3
        _ = (x + 1) * (10 ^ cs.length * 10) := by ring
    · simp at h

theorem atoi_take_four_lt (value : Str) (y : Nat) (h : atoi (value.take 4) = some y) :
    y < 10000 := by
  unfold atoi at h
  split at h
  · rename_i x hx
    simp only [Option.some.injEq] at h
    subst h
    have h1 := leadingInt_bound _ _ _ hx
    have h2 : (value.take 4).length ≤ 4 := by simp
    have h3 : 10 ^ (value.take 4).length ≤ 10 ^ 4 := Nat.pow_le_pow_right (by omega) h2
    omega
  · simp at h

theorem lookupFrom_bound : ∀ (tab : List Str) (i : Nat) (val : Str) (j : Nat) (rest : Str),
    lookupFrom i tab val = some (j, rest) → i ≤ j ∧ j < i + tab.length
  | [], _, _, _, _, h => by simp [lookupFrom] at h
  | v :: tab, i, val, j, rest, h => by
    simp only [lookupFrom] at h
    split at h
    · simp only [Option.some.injEq, Prod.mk.injEq] at h
      simp only [List.length_cons]
      omega
    · have := lookupFrom_bound tab (i + 1) val j rest h
      simp only [List.length_cons]
      omega

theorem parseStd_ok (std : Std) (value rest : Str) (f g : Fields) (hf : FieldsOk f)
    (h : parseStd std value f = some (rest, g)) : FieldsOk g := by
  cases std <;> simp only [parseStd] at h
  · split at h
    · simp at h
    · split at h
      · rename_i y hy
        simp only [Option.some.injEq, Prod.mk.injEq] at h
        obtain ⟨_, rfl⟩ := h
        exact ⟨atoi_take_four_lt _ _ hy, hf.2⟩
      · simp at h
  · split at h
    · rename_i i r hl
      simp only [Option.some.injEq, Prod.mk.injEq] at h
      obtain ⟨_, rfl⟩ := h
      have hb := lookupFrom_bound _ _ _ _ _ hl
      refine ⟨hf.1, ?_⟩
      intro m hm
      simp only [Option.some.injEq] at hm
      simp [shortMonthNames] at hb
      omega
    · simp at h
  · split at h
    · rename_i i r hl
      simp only [Option.some.injEq, Prod.mk.injEq] at h
      obtain ⟨_, rfl⟩ := h
      have hb := lookupFrom_bound _ _ _ _ _ hl
      refine ⟨hf.1, ?_⟩
      intro m hm
      simp only [Option.some.injEq] at hm
      simp [longMonthNames] at hb
      omega
    · simp at h
  · split at h
    · rename_i m r hl
      split at h
      · simp at h
      · rename_i hm
        simp only [Option.some.injEq, Prod.mk.injEq] at h
        obtain ⟨_, rfl⟩ := h
        refine ⟨hf.1, ?_⟩
        intro m' hm'
        simp only [Option.some.injEq] at hm'
        simp at hm
        omega
    · simp at h
  · split at h
    · simp only [Option.some.injEq, Prod.mk.injEq] at h
      obtain ⟨_, rfl⟩ := h
      exact hf
    · simp at h
  · split at h
    · simp only [Option.some.injEq, Prod.mk.injEq] at h
      obtain ⟨_, rfl⟩ := h
      exact hf
    · simp at h
  · split at h
    · simp only [Option.some.injEq, Prod.mk.injEq] at h
      obtain ⟨_, rfl⟩ := h
      exact hf
    · simp at h

theorem parseChunks_ok : ∀ (layout : Layout) (value : Str) (f g : Fields), FieldsOk f →
    parseChunks layout value f = some g → FieldsOk g
  | [], value, f, g, hf, h => by
    simp only [parseChunks] at h
    split at h
    · simp only [Option.some.injEq] at h
      exact h ▸ hf
    · simp at h
  | ch :: rest, value, f, g, hf, h => by
    simp only [parseChunks] at h
    split at h
    · simp at h
    · split at h
      · simp at h
      · rename_i v2 f1 hp
        exact parseChunks_ok rest v2 f1 g (parseStd_ok _ _ _ _ _ hf hp) h

theorem parse_valid (layout : Layout) (value : Str) (d : Date)
    (h : parse layout value = some d) : isValidDate d = true := by
  unfold parse at h
  split at h
  · simp at h
  · rename_i f hf
    have hok : FieldsOk f := parseChunks_ok layout value {} f ⟨by decide, by simp⟩ hf
    simp only at h
    split at h
    · simp at h
    · rename_i hd
      simp only [Option.some.injEq] at h
      subst h
      simp only [Bool.or_eq_true, decide_eq_true_eq, not_or, not_lt] at hd
      have hm : 1 ≤ f.month.getD 1 ∧ f.month.getD 1 ≤ 12 := by
        cases hmo : f.month with
        | none => simp
        | some m => simpa using hok.2 m hmo
      have hy := hok.1
      simp only [isValidDate, Bool.and_eq_true, decide_eq_true_eq]
      omega

theorem parseFirst_valid : ∀ (ls : List Layout) (value : Str) (d : Date),
    parseFirst ls value = some d → isValidDate d = true
  | [], _, _, h => by simp [parseFirst] at h
  | l :: ls, value, d, h => by
    simp only [parseFirst] at h
    split at h
    · rename_i d' hd
      simp only [Option.some.injEq] at h
      exact h ▸ parse_valid l value d' hd
    · exact parseFirst_valid ls value d h

theorem headerDate_valid (headerLine : Str) (d : Date) (h : headerDate headerLine = some d) :
    isValidDate d = true :=
  parseFirst_valid _ _ _ h

/-! ## The canonical form `YYYY-MM-DD` -/

theorem appendInt_two (m : Nat) (h : m < 100) :
    appendInt m 2 = [digitChar (m / 10), digitChar (m % 10)] := by
  by_cases h1 : m < 10
  · have e1 : m / 10 = 0 := by omega
    have e2 : m % 10 = m := by omega
    simp [appendInt, decimal, h1, e1, e2, digitChar]
  · have h2 : m / 10 < 10 := by omega
    simp [appendInt, decimal, h1, h2]

theorem appendInt_four (y : Nat) (h : y < 10000) :
    appendInt y 4 =
      [digitChar (y / 1000), digitChar (y / 100 % 10), digitChar (y / 10 % 10),
        digitChar (y % 10)] := by
  by_cases h1 : y < 10
  · have e1 : y / 1000 = 0 := by omega
    have e2 : y / 100 % 10 = 0 := by omega
    have e3 : y / 10 % 10 = 0 := by omega
    have e4 : y % 10 = y := by omega
    simp [appendInt, decimal, h1, e1, e2, e3, e4, digitChar]
  · by_cases h2 : y / 10 < 10
    · have e1 : y / 1000 = 0 := by omega
      have e2 : y / 100 % 10 = 0 := by omega
      have e3 : y / 10 % 10 = y / 10 := by omega
      simp [appendInt, decimal, h1, h2, e1, e2, e3, digitChar]
    · by_cases h3 : y / 10 / 10 < 10
      · have e1 : y / 1000 = 0 := by omega
        have e2 : y / 100 % 10 = y / 10 / 10 := by omega
        simp [appendInt, decimal, h1, h2, h3, e1, e2, digitChar]
      · have h4 : y / 10 / 10 / 10 < 10 := by omega
        have e1 : y / 1000 = y / 10 / 10 / 10 := by omega
        have e2 : y / 100 % 10 = y / 10 / 10 % 10 := by omega
        simp [appendInt, decimal, h1, h2, h3, h4, e1, e2]

theorem formatISO_eq (d : Date) (hy : d.year < 10000) (hm : d.month < 100) (hd : d.day < 100) :
    formatISO d =
      [digitChar (d.year / 1000), digitChar (d.year / 100 % 10), digitChar (d.year / 10 % 10),
        digitChar (d.year % 10), '-', digitChar (d.month / 10), digitChar (d.month % 10), '-',
        digitChar (d.day / 10), digitChar (d.day % 10)] := by
  simp [formatISO, appendInt_four _ hy, appendInt_two _ hm, appendInt_two _ hd]

theorem formatISO_ne_nil (d : Date) : formatISO d ≠ [] := by
  simp [formatISO]

theorem daysIn_le (m y : Nat) : daysIn m y ≤ 31 := by
  unfold daysIn
  split
  · omega
  · by_cases h : m ≤ 13
    · interval_cases m <;> simp [daysBefore]
    · have h1 : daysBefore.getD m 0 = 0 :=
        List.getD_eq_default _ _ (by simp only [daysBefore, List.length_cons, List.length_nil]; omega)
      omega

theorem isValidDate_bounds (d : Date) (h : isValidDate d = true) :
    d.year < 10000 ∧ 1 ≤ d.month ∧ d.month ≤ 12 ∧ 1 ≤ d.day ∧ d.day ≤ 31 := by
  simp only [isValidDate, Bool.and_eq_true, decide_eq_true_eq] at h
  have := daysIn_le d.month d.year
  omega

theorem digitChar_toNat (k : Nat) (h : k < 10) : (digitChar k).toNat = 48 + k := by
  interval_cases k <;> rfl

theorem strLe_dash (s t : Str) : strLe ('-' :: s) ('-' :: t) = strLe s t := by
  simp [strLe]

theorem strLe_digit (j k : Nat) (hj : j < 10) (hk : k < 10) (s t : Str) :
    strLe (digitChar j :: s) (digitChar k :: t) = (decide (j < k) || (j == k && strLe s t)) := by
  simp only [strLe, digitChar_toNat j hj, digitChar_toNat k hk]
  by_cases h1 : j < k
  · have h2 : 48 + j < 48 + k := by omega
    simp [h1, h2]
  · by_cases h3 : j = k
    · subst h3
      simp
    · have h2 : ¬ 48 + j < 48 + k := by omega
      have h4 : ¬ 48 + j = 48 + k := by omega
      simp [h1, h2, h3, h4]

theorem strLe_two (m n : Nat) (hm : m < 100) (hn : n < 100) (s t : Str) :
    strLe (digitChar (m / 10) :: digitChar (m % 10) :: s)
        (digitChar (n / 10) :: digitChar (n % 10) :: t) =
      (decide (m < n) || (m == n && strLe s t)) := by
  rw [strLe_digit _ _ (by omega) (by omega), strLe_digit _ _ (by omega) (by omega)]
  rw [Bool.eq_iff_iff]
  generalize strLe s t = r
  cases r <;> simp <;> omega

theorem strLe_four (m n : Nat) (hm : m < 10000) (hn : n < 10000) (s t : Str) :
    strLe
        (digitChar (m / 1000) :: digitChar (m / 100 % 10) :: digitChar (m / 10 % 10) ::
          digitChar (m % 10) :: s)
        (digitChar (n / 1000) :: digitChar (n / 100 % 10) :: digitChar (n / 10 % 10) ::
          digitChar (n % 10) :: t) =
      (decide (m < n) || (m == n && strLe s t)) := by
  rw [strLe_digit _ _ (by omega) (by omega), strLe_digit _ _ (by omega) (by omega),
    strLe_digit _ _ (by omega) (by omega), strLe_digit _ _ (by omega) (by omega)]
  rw [Bool.eq_iff_iff]
  generalize strLe s t = r
  cases r <;> simp <;> omega

theorem strLe_formatISO (a b : Date) (ha : isValidDate a = true) (hb : isValidDate b = true) :
    strLe (formatISO a) (formatISO b) = dateLe a b := by
  obtain ⟨ay, am1, am2, ad1, ad2⟩ := isValidDate_bounds a ha
  obtain ⟨by', bm1, bm2, bd1, bd2⟩ := isValidDate_bounds b hb
  rw [formatISO_eq a ay (by omega) (by omega), formatISO_eq b by' (by omega) (by omega)]
  rw [strLe_four _ _ ay by', strLe_dash, strLe_two _ _ (by omega) (by omega), strLe_dash,
    strLe_two _ _ (by omega) (by omega)]
  have h : (decide (a.day < b.day) || (a.day == b.day && strLe [] [])) = decide (a.day ≤ b.day) := by
    rw [Bool.eq_iff_iff]
    simp [strLe]
    omega
  rw [h]
  rfl

theorem parseFirst_eq_none_iff : ∀ (ls : List Layout) (value : Str),
    parseFirst ls value = none ↔ ∀ l ∈ ls, parse l value = none
  | [], _ => by simp [parseFirst]
  | l :: ls, value => by
    simp only [parseFirst, List.mem_cons, forall_eq_or_imp]
    cases h : parse l value with
    | none => simpa using parseFirst_eq_none_iff ls value
    | some d => simp

theorem extractDateFromHeader_cases (headerLine : Str) :
    (headerDate headerLine = none ∧ extractDateFromHeader headerLine = []) ∨
    ∃ d, headerDate headerLine = some d ∧ isValidDate d = true ∧
      extractDateFromHeader headerLine = formatISO d := by
  unfold extractDateFromHeader
  cases h : headerDate headerLine with
  | none => exact Or.inl ⟨rfl, rfl⟩
  | some d => exact Or.inr ⟨d, rfl, headerDate_valid headerLine d h, rfl⟩

theorem isDateInRange_iff (headerLine : Str) (s e : Date) (hs : isValidDate s = true)
    (he : isValidDate e = true) :
    isDateInRange headerLine (formatISO s) (formatISO e) = true ↔
      ∃ d, isValidDate d = true ∧ extractDateFromHeader headerLine = formatISO d ∧
        dateLe s d = true ∧ dateLe d e = true := by
  constructor
  · intro h
    rcases extractDateFromHeader_cases headerLine with ⟨_, h0⟩ | ⟨d, _, hv, hd⟩
    · simp [isDateInRange, h0] at h
    · refine ⟨d, hv, hd, ?_⟩
      simp only [isDateInRange, hd, formatISO_ne_nil, if_false, Bool.and_eq_true] at h
      rw [strLe_formatISO s d hs hv, strLe_formatISO d e hv he] at h
      exact h
  · rintro ⟨d, hv, hd, h1, h2⟩
    simp only [isDateInRange, hd, formatISO_ne_nil, if_false, Bool.and_eq_true]
    rw [strLe_formatISO s d hs hv, strLe_formatISO d e hv he]
    exact ⟨h1, h2⟩

/-- C2: for valid canonical start and end dates, `isDateInRange` holds exactly
when `extractDateFromHeader` finds a date and that calendar date is
chronologically on or after the start and on or before the end; with range
2024-01-01..2024-01-03 the headers dated 2024-01-01 and 2024-01-03 match and
those dated 2023-12-31 and 2024-01-04 do not. -/
theorem isDateInRange_iff_chronological :
    (∀ (headerLine : Str) (s e : Date), isValidDate s = true → isValidDate e = true →
      (isDateInRange headerLine (formatISO s) (formatISO e) = true ↔
        ∃ d, isValidDate d = true ∧ extractDateFromHeader headerLine = formatISO d ∧
          dateLe s d = true ∧ dateLe d e = true)) ∧
    isDateInRange "# 2024-01-01".toList "2024-01-01".toList "2024-01-03".toList = true ∧
    isDateInRange "# 2024-01-03".toList "2024-01-01".toList "2024-01-03".toList = true ∧
    isDateInRange "# 2023-12-31".toList "2024-01-01".toList "2024-01-03".toList = false ∧
    isDateInRange "# 2024-01-04".toList "2024-01-01".toList "2024-01-03".toList = false :=
  ⟨isDateInRange_iff, by decide, by decide, by decide, by decide⟩

/-- Witness for C2: 2024-01-01 and 2024-01-03 are valid dates, and for the
header "# Jan 2nd, 2024" the range test is equivalent to the chronological
one, which holds. -/
theorem isDateInRange_iff_chronological_witness :
    isValidDate ⟨2024, 1, 1⟩ = true ∧ isValidDate ⟨2024, 1, 3⟩ = true ∧
    (isDateInRange "# Jan 2nd, 2024".toList (formatISO ⟨2024, 1, 1⟩) (formatISO ⟨2024, 1, 3⟩) =
        true ↔
      ∃ d, isValidDate d = true ∧
        extractDateFromHeader "# Jan 2nd, 2024".toList = formatISO d ∧
        dateLe ⟨2024, 1, 1⟩ d = true ∧ dateLe d ⟨2024, 1, 3⟩ = true) ∧
    isDateInRange "# Jan 2nd, 2024".toList (formatISO ⟨2024, 1, 1⟩) (formatISO ⟨2024, 1, 3⟩) =
      true :=
  ⟨by decide, by decide,
    isDateInRange_iff_chronological.1 "# Jan 2nd, 2024".toList ⟨2024, 1, 1⟩ ⟨2024, 1, 3⟩
      (by decide) (by decide),
    by decide⟩

/-- C4: `extractDateFromHeader` always returns a value, either the empty string
or the canonical form of a valid date, and it returns the empty string exactly
when none of the seven layouts parses the whole cleaned title; for
"# Project Notes" it is the empty string. -/
theorem extractDateFromHeader_nil_iff :
    (∀ headerLine : Str,
      extractDateFromHeader headerLine = [] ∨
        ∃ d, isValidDate d = true ∧ extractDateFromHeader headerLine = formatISO d) ∧
    (∀ headerLine : Str,
      extractDateFromHeader headerLine = [] ↔
        ∀ l ∈ dateFormats, parse l (cleanTitle headerLine) = none) ∧
    extractDateFromHeader "# Project Notes".toList = [] := by
  refine ⟨?_, ?_, by decide⟩
  · intro headerLine
    rcases extractDateFromHeader_cases headerLine with ⟨_, h0⟩ | ⟨d, _, hv, hd⟩
    · exact Or.inl h0
    · exact Or.inr ⟨d, hv, hd⟩
  · intro headerLine
    rw [← parseFirst_eq_none_iff]
    rcases extractDateFromHeader_cases headerLine with ⟨h1, h0⟩ | ⟨d, h1, _, hd⟩
    · simp only [h0, true_iff]
      exact h1
    · have h2 : extractDateFromHeader headerLine ≠ [] := hd ▸ formatISO_ne_nil d
      unfold headerDate at h1
      simp [h2, h1]

/-! ## The order of the layouts -/

theorem matchChar_fold (c t : Char) (h : matchChar c t = true) :
    c.toNat ||| 32 = t.toNat ||| 32 := by
  simp only [matchChar, Bool.or_eq_true, beq_iff_eq, Bool.and_eq_true] at h
  rcases h with h | h
  · rw [h]
  · exact h.1.1

theorem fold2_of_matchFold (v name : Str) (hn : 2 ≤ name.length)
    (hl : name.length ≤ v.length) (h : matchFold (v.take name.length) name = true) :
    fold2 v = fold2 name := by
  match name, v, hn, hl, h with
  | s :: t :: name', a :: b :: v', _, _, h =>
    simp only [List.length_cons, List.take_succ_cons, matchFold, Bool.and_eq_true] at h
    simp only [fold2, matchChar_fold a s h.1, matchChar_fold b t h.2.1]
  | s :: t :: name', [a], _, hl, _ => simp at hl
  | s :: t :: name', [], _, hl, _ => simp at hl
  | [s], _, hn, _, _ => simp at hn
  | [], _, hn, _, _ => simp at hn

theorem lookupFrom_fold2 : ∀ (tab : List Str) (i : Nat) (v : Str) (r : Nat × Str),
    (∀ name ∈ tab, 2 ≤ name.length) → lookupFrom i tab v = some r →
      fold2 v ∈ tab.map fold2
  | [], _, _, _, _, h => by simp [lookupFrom] at h
  | name :: tab, i, v, r, hlen, h => by
    simp only [lookupFrom] at h
    split at h
    · rename_i hm
      simp only [Bool.and_eq_true, decide_eq_true_eq] at hm
      simp only [List.map_cons, List.mem_cons]
      exact Or.inl (fold2_of_matchFold v name (hlen name (by simp)) hm.1 hm.2)
    · simp only [List.map_cons, List.mem_cons]
      exact Or.inr (lookupFrom_fold2 tab (i + 1) v r
        (fun n hn => hlen n (List.mem_cons_of_mem _ hn)) h)

theorem lookup_day_excludes_month (v : Str) (r : Nat × Str)
    (h : lookup longDayNames v = some r) :
    lookup longMonthNames v = none ∧ lookup shortMonthNames v = none := by
  have hd : fold2 v ∈ longDayNames.map fold2 :=
    lookupFrom_fold2 longDayNames 0 v r (by decide) h
  have hdis : ∀ x ∈ longDayNames.map fold2,
      x ∉ longMonthNames.map fold2 ∧ x ∉ shortMonthNames.map fold2 := by decide
  constructor
  · cases hm : lookup longMonthNames v with
    | none => rfl
    | some r2 =>
      exact absurd (lookupFrom_fold2 longMonthNames 0 v r2 (by decide) hm) (hdis _ hd).1
  · cases hm : lookup shortMonthNames v with
    | none => rfl
    | some r2 =>
      exact absurd (lookupFrom_fold2 shortMonthNames 0 v r2 (by decide) hm) (hdis _ hd).2

theorem parse_weekday_excludes_month (v : Str) (d : Date)
    (h : parse layoutWeekday v = some d) :
    parse layoutLongMonth v = none ∧ parse layoutShortMonthComma v = none ∧
      parse layoutShortMonth v = none := by
  have hl : ∃ r, lookup longDayNames v = some r := by
    cases hl : lookup longDayNames v with
    | some r => exact ⟨r, rfl⟩
    | none =>
      simp [parse, layoutWeekday, parseChunks, skip, skipFuel, parseStd, hl] at h
  obtain ⟨r, hr⟩ := hl
  obtain ⟨h1, h2⟩ := lookup_day_excludes_month v r hr
  refine ⟨?_, ?_, ?_⟩
  · simp [parse, layoutLongMonth, parseChunks, skip, skipFuel, parseStd, h1]
  · simp [parse, layoutShortMonthComma, parseChunks, skip, skipFuel, parseStd, h2]
  · simp [parse, layoutShortMonth, parseChunks, skip, skipFuel, parseStd, h2]

theorem parseFirst_dateFormats_eq_spec (v : Str) :
    parseFirst dateFormats v = parseFirst dateFormatsSpec v := by
  simp only [dateFormats, dateFormatsSpec, parseFirst]
  cases h0 : parse layoutISO v with
  | some d => rfl
  | none =>
    cases hw : parse layoutWeekday v with
    | some d =>
      obtain ⟨h1, h2, h3⟩ := parse_weekday_excludes_month v d hw
      simp [h1, h2, h3]
    | none => rfl

/-- C10: on every input the code's `extractDateFromHeader`, whose layout list
has the weekday form in fifth place, returns the same result as the reference
extractor that tries the layouts in the order of the written design (weekday
form second): the first layout that parses the whole cleaned title wins, and
the weekday form never parses a title that one of the three month-first forms
parses. -/
theorem extractDateFromHeader_eq_spec (headerLine : Str) :
    extractDateFromHeader headerLine = extractDateSpec headerLine := by
  unfold extractDateFromHeader extractDateSpec headerDate
  rw [parseFirst_dateFormats_eq_spec]

/-! ## The ordinal substitution -/

theorem isOrdinalSuffix_facts (a b : Char) (h : isOrdinalSuffix a b = true) :
    isDigit a = false ∧ isWordChar a = true ∧ isWordChar b = true ∧ isDigit b = false := by
  simp only [isOrdinalSuffix, Bool.or_eq_true, Bool.and_eq_true, beq_iff_eq] at h
  rcases h with ((⟨rfl, rfl⟩ | ⟨rfl, rfl⟩) | ⟨rfl, rfl⟩) | ⟨rfl, rfl⟩ <;> decide

theorem isWordChar_of_isDigit (c : Char) (h : isDigit c = true) : isWordChar c = true := by
  simp only [isDigit, Bool.and_eq_true, decide_eq_true_eq] at h
  simp only [isWordChar, Bool.or_eq_true, Bool.and_eq_true, decide_eq_true_eq]
  exact Or.inl (Or.inl (Or.inl h))

theorem ordinalMatchAt_some (pw : Bool) (s ds rest : Str)
    (h : ordinalMatchAt pw s = some (ds, rest)) :
    pw = false ∧ ds ≠ [] ∧ (∀ c ∈ ds, isDigit c = true) ∧
      ∃ a b, isOrdinalSuffix a b = true ∧ s = ds ++ a :: b :: rest ∧
        startsWithWord rest = false := by
  unfold ordinalMatchAt at h
  split at h
  · simp at h
  · rename_i hpw
    split at h
    · simp at h
    · rename_i d ds' a b rest' htake hdrop
      split at h
      · rename_i hc
        simp only [Option.some.injEq, Prod.mk.injEq] at h
        obtain ⟨rfl, rfl⟩ := h
        simp only [Bool.and_eq_true, Bool.not_eq_true'] at hc
        refine ⟨by simpa using hpw, by simp, ?_, a, b, hc.1, ?_, hc.2⟩
        · intro c hc'
          have : c ∈ s.takeWhile isDigit := htake ▸ hc'
          exact (List.mem_takeWhile_imp this)
        · rw [← htake, ← hdrop, List.takeWhile_append_dropWhile]
      · simp at h
    · simp at h

theorem ordinalMatchAt_digits (ds : Str) (a b : Char) (rest : Str) (hne : ds ≠ [])
    (hds : ∀ c ∈ ds, isDigit c = true) (hab : isOrdinalSuffix a b = true)
    (hrest : startsWithWord rest = false) :
    ordinalMatchAt false (ds ++ a :: b :: rest) = some (ds, rest) := by
  have ha : isDigit a = false := (isOrdinalSuffix_facts a b hab).1
  have h1 : (ds ++ a :: b :: rest).takeWhile isDigit = ds := by
    rw [List.takeWhile_append_of_pos hds]
    simp [ha]
  have h2 : (ds ++ a :: b :: rest).dropWhile isDigit = a :: b :: rest := by
    rw [List.dropWhile_append_of_pos hds]
    simp [ha]
  unfold ordinalMatchAt
  rw [h1, h2]
  cases ds with
  | nil => exact absurd rfl hne
  | cons d ds' => simp [hab, hrest]

theorem ordinalMatchAt_prevWord (s : Str) : ordinalMatchAt true s = none := by
  simp [ordinalMatchAt]

theorem ordinalMatchAt_of_not_digit (pw : Bool) (c : Char) (cs : Str) (h : isDigit c = false) :
    ordinalMatchAt pw (c :: cs) = none := by
  unfold ordinalMatchAt
  cases pw <;> simp [h]

theorem ordinalMatchAt_nil (pw : Bool) : ordinalMatchAt pw [] = none := by
  cases pw <;> simp [ordinalMatchAt]

theorem replaceOrdinals_fuel : ∀ (n : Nat) (pw : Bool) (s : Str), s.length ≤ n →
    replaceOrdinals n pw s = replaceOrdinals s.length pw s
  | 0, pw, s, h => by
    have : s = [] := List.length_eq_zero.mp (by omega)
    subst this
    rfl
  | n + 1, pw, [], _ => by simp [replaceOrdinals]
  | n + 1, pw, c :: cs, h => by
    simp only [List.length_cons, replaceOrdinals]
    cases hm : ordinalMatchAt pw (c :: cs) with
    | none =>
      simp only
      rw [replaceOrdinals_fuel n _ cs (by simpa using h)]
    | some r =>
      obtain ⟨ds, rest⟩ := r
      obtain ⟨_, hne, _, a, b, _, hs, _⟩ := ordinalMatchAt_some pw _ ds rest hm
      have hlen : rest.length + 2 + ds.length = cs.length + 1 := by
        have := congrArg List.length hs
        simp only [List.length_cons, List.length_append] at this
        omega
      have hpos : 0 < ds.length := List.length_pos.mpr hne
      simp only
      rw [replaceOrdinals_fuel n _ rest (by simp only [List.length_cons] at h; omega),
        replaceOrdinals_fuel cs.length _ rest (by omega)]

theorem stripOrdinals_eq_strip (s : Str) : stripOrdinals s = strip false s := rfl

theorem strip_nil (pw : Bool) : strip pw [] = [] := rfl

theorem strip_cons (pw : Bool) (c : Char) (cs : Str) :
    strip pw (c :: cs) =
      match ordinalMatchAt pw (c :: cs) with
      | some (ds, rest) => ds ++ strip true rest
      | none => c :: strip (isWordChar c) cs := by
  unfold strip
  simp only [List.length_cons, replaceOrdinals]
  cases hm : ordinalMatchAt pw (c :: cs) with
  | none => rfl
  | some r =>
    obtain ⟨ds, rest⟩ := r
    obtain ⟨_, hne, _, a, b, _, hs, _⟩ := ordinalMatchAt_some pw _ ds rest hm
    have hlen : rest.length + 2 + ds.length = cs.length + 1 := by
      have := congrArg List.length hs
      simp only [List.length_cons, List.length_append] at this
      omega
    have hpos : 0 < ds.length := List.length_pos.mpr hne
    simp only
    rw [replaceOrdinals_fuel cs.length _ rest (by omega)]

theorem strip_cons_of_none (pw : Bool) (c : Char) (cs : Str)
    (h : ordinalMatchAt pw (c :: cs) = none) :
    strip pw (c :: cs) = c :: strip (isWordChar c) cs := by
  rw [strip_cons, h]

theorem strip_cons_of_not_digit (pw : Bool) (c : Char) (cs : Str) (h : isDigit c = false) :
    strip pw (c :: cs) = c :: strip (isWordChar c) cs :=
  strip_cons_of_none pw c cs (ordinalMatchAt_of_not_digit pw c cs h)

theorem strip_true_cons (c : Char) (cs : Str) :
    strip true (c :: cs) = c :: strip (isWordChar c) cs :=
  strip_cons_of_none true c cs (ordinalMatchAt_prevWord _)

/-- After a run of digits that no match starts at, the run is copied. -/
theorem strip_digits_of_none : ∀ (ds : Str) (pw : Bool) (s : Str), ds ≠ [] →
    (∀ c ∈ ds, isDigit c = true) → ordinalMatchAt pw (ds ++ s) = none →
    strip pw (ds ++ s) = ds ++ strip true s
  | [], _, _, hne, _, _ => absurd rfl hne
  | [d], pw, s, _, hds, hm => by
    have hd : isDigit d = true := hds d (by simp)
    rw [List.singleton_append, strip_cons_of_none pw d s hm, isWordChar_of_isDigit d hd]
    rfl
  | d :: d' :: ds, pw, s, _, hds, hm => by
    have hd : isDigit d = true := hds d (by simp)
    have ih := strip_digits_of_none (d' :: ds) true s (by simp)
      (fun c hc => hds c (List.mem_cons_of_mem _ hc)) (ordinalMatchAt_prevWord _)
    have h1 : strip pw (d :: (d' :: ds ++ s)) = d :: strip (isWordChar d) (d' :: ds ++ s) :=
      strip_cons_of_none pw d _ hm
    rw [isWordChar_of_isDigit d hd, ih] at h1
    exact h1

theorem strip_digits_match (ds : Str) (a b : Char) (rest : Str) (hne : ds ≠ [])
    (hds : ∀ c ∈ ds, isDigit c = true) (hab : isOrdinalSuffix a b = true)
    (hrest : startsWithWord rest = false) :
    strip false (ds ++ a :: b :: rest) = ds ++ strip true rest := by
  cases ds with
  | nil => exact absurd rfl hne
  | cons d ds' =>
    have := ordinalMatchAt_digits (d :: ds') a b rest hne hds hab hrest
    rw [List.cons_append] at this ⊢
    rw [strip_cons, this]

theorem isOrdinalSuffix_left_nonword (c b : Char) (h : isWordChar c = false) :
    isOrdinalSuffix c b = false := by
  cases hs : isOrdinalSuffix c b with
  | false => rfl
  | true => rw [(isOrdinalSuffix_facts c b hs).2.1] at h; exact absurd h (by decide)

theorem isOrdinalSuffix_right_nonword (a c : Char) (h : isWordChar c = false) :
    isOrdinalSuffix a c = false := by
  cases hs : isOrdinalSuffix a c with
  | false => rfl
  | true => rw [(isOrdinalSuffix_facts a c hs).2.2.1] at h; exact absurd h (by decide)

theorem isDigit_of_nonword (c : Char) (h : isWordChar c = false) : isDigit c = false := by
  cases hd : isDigit c with
  | false => rfl
  | true => rw [isWordChar_of_isDigit c hd] at h; exact absurd h (by decide)

theorem startsWithWord_append_cons (r : Str) (c : Char) (x y : Str) :
    startsWithWord (r ++ c :: x) = startsWithWord (r ++ c :: y) := by
  cases r <;> rfl

/-- A match cannot reach across a non-word character: what `ordinalMatchAt`
finds in `q ++ c :: x` is what it finds in `q ++ [c]`. -/
theorem ordinalMatchAt_split (pw : Bool) (q : Str) (c : Char) (x : Str)
    (hc : isWordChar c = false) :
    (ordinalMatchAt pw (q ++ [c]) = none ∧ ordinalMatchAt pw (q ++ c :: x) = none) ∨
    ∃ ds r, r.length < q.length ∧ ordinalMatchAt pw (q ++ [c]) = some (ds, r ++ [c]) ∧
      ordinalMatchAt pw (q ++ c :: x) = some (ds, r ++ c :: x) := by
  have hcd : isDigit c = false := isDigit_of_nonword c hc
  cases pw with
  | true => exact Or.inl ⟨ordinalMatchAt_prevWord _, ordinalMatchAt_prevWord _⟩
  | false =>
    have key : ∀ y : Str, (q ++ c :: y).takeWhile isDigit = q.takeWhile isDigit ∧
        (q ++ c :: y).dropWhile isDigit = q.dropWhile isDigit ++ c :: y := by
      intro y
      induction q with
      | nil => simp [hcd]
      | cons a q ih =>
        by_cases ha : isDigit a = true
        · simp [ha, ih]
        · simp [ha]
    have k1 := key []
    have k2 := key x
    have hsplit : q.takeWhile isDigit ++ q.dropWhile isDigit = q :=
      List.takeWhile_append_dropWhile _ _
    unfold ordinalMatchAt
    simp only [Bool.false_eq_true, if_false]
    rw [k1.1, k1.2, k2.1, k2.2]
    cases hds : q.takeWhile isDigit with
    | nil => exact Or.inl ⟨rfl, rfl⟩
    | cons d ds =>
      cases hq2 : q.dropWhile isDigit with
      | nil =>
        left
        cases x with
        | nil => exact ⟨rfl, rfl⟩
        | cons b rest =>
          simp [isOrdinalSuffix_left_nonword c b hc]
      | cons a q3 =>
        cases q3 with
        | nil =>
          left
          simp [isOrdinalSuffix_right_nonword a c hc]
        | cons b r =>
          by_cases hab : isOrdinalSuffix a b = true
          · by_cases hw : startsWithWord (r ++ [c]) = true
            · left
              have hw2 : startsWithWord (r ++ c :: x) = true := by
                rw [startsWithWord_append_cons r c x []]; exact hw
              simp [hab, hw, hw2]
            · right
              have hw' : startsWithWord (r ++ [c]) = false := by simpa using hw
              have hw2 : startsWithWord (r ++ c :: x) = false := by
                rw [startsWithWord_append_cons r c x []]; exact hw'
              refine ⟨d :: ds, r, ?_, ?_, ?_⟩
              · have := congrArg List.length hsplit
                rw [hds, hq2] at this
                simp only [List.length_cons, List.length_append] at this
                omega
              · simp [hab, hw']
              · simp [hab, hw2]
          · left
            simp [hab]

/-- The substitution splits at a non-word character. -/
theorem strip_split (c : Char) (x : Str) (hc : isWordChar c = false) :
    ∀ (n : Nat) (p : Str) (pw : Bool), p.length ≤ n →
      strip pw (p ++ c :: x) = strip pw (p ++ [c]) ++ strip false x
  | _, [], pw, _ => by
    have hcd : isDigit c = false := isDigit_of_nonword c hc
    rw [List.nil_append, List.nil_append, strip_cons_of_not_digit pw c x hcd,
      strip_cons_of_not_digit pw c [] hcd, hc]
    rfl
  | 0, _ :: _, _, h => by simp at h
  | n + 1, c0 :: p, pw, h => by
    have hlen : p.length ≤ n := by simpa using h
    rcases ordinalMatchAt_split pw (c0 :: p) c x hc with ⟨h1, h2⟩ | ⟨ds, r, hr, h1, h2⟩
    · rw [List.cons_append] at h1 h2 ⊢
      rw [List.cons_append, strip_cons_of_none _ _ _ h1, strip_cons_of_none _ _ _ h2,
        strip_split c x hc n p _ hlen]
      rfl
    · rw [List.cons_append] at h1 h2 ⊢
      rw [List.cons_append, strip_cons, strip_cons, h1, h2]
      simp only
      rw [strip_split c x hc n r true (by simp only [List.length_cons] at hr; omega),
        List.append_assoc]

/-- A digit run followed by the end or by a non-word character is copied. -/
theorem strip_digits_nonword (ds : Str) (pw : Bool) (s : Str) (hne : ds ≠ [])
    (hds : ∀ c ∈ ds, isDigit c = true) (hs : startsWithWord s = false) :
    strip pw (ds ++ s) = ds ++ strip true s := by
  apply strip_digits_of_none ds pw s hne hds
  cases hm : ordinalMatchAt pw (ds ++ s) with
  | none => rfl
  | some r =>
    exfalso
    obtain ⟨ds', rest⟩ := r
    obtain ⟨_, _, hds', a, b, hab, heq, _⟩ := ordinalMatchAt_some _ _ _ _ hm
    have ha := isOrdinalSuffix_facts a b hab
    have h1 : (ds ++ s).dropWhile isDigit = s.dropWhile isDigit :=
      List.dropWhile_append_of_pos hds
    have h2 : (ds' ++ a :: b :: rest).dropWhile isDigit = a :: b :: rest := by
      rw [List.dropWhile_append_of_pos hds']
      simp [ha.1]
    rw [heq, h2] at h1
    cases s with
    | nil => simp at h1
    | cons c s' =>
      have hcw : isWordChar c = false := hs
      have hcd := isDigit_of_nonword c hcw
      simp only [List.dropWhile_cons, hcd] at h1
      simp only [Bool.false_eq_true, if_false, List.cons.injEq] at h1
      rw [← h1.1] at hcw
      rw [ha.2.1] at hcw
      exact absurd hcw (by decide)

/-- A text whose word characters are all digits has no ordinal to remove. -/
theorem strip_letterFree : ∀ (d : Str) (pw : Bool),
    (∀ c ∈ d, isWordChar c = true → isDigit c = true) → strip pw d = d
  | [], _, _ => rfl
  | c :: cs, pw, h => by
    have hnone : ordinalMatchAt pw (c :: cs) = none := by
      cases hm : ordinalMatchAt pw (c :: cs) with
      | none => rfl
      | some r =>
        exfalso
        obtain ⟨ds', rest⟩ := r
        obtain ⟨_, _, _, a, b, hab, heq, _⟩ := ordinalMatchAt_some _ _ _ _ hm
        have ha := isOrdinalSuffix_facts a b hab
        have hmem : a ∈ c :: cs := by rw [heq]; simp
        have := h a hmem ha.2.1
        rw [ha.1] at this
        exact absurd this (by decide)
    rw [strip_cons_of_none _ _ _ hnone,
      strip_letterFree cs _ (fun c' hc' => h c' (List.mem_cons_of_mem _ hc'))]

/-- In front of a text that starts with a digit and has no letters, the
substitution leaves that text in place, and keeps at least one character of
what stands before it. -/
theorem strip_keeps_letterFree_suffix (d : Str)
    (hd : ∀ c ∈ d, isWordChar c = true → isDigit c = true)
    (hstart : startsWithWord d = true) :
    ∀ (n : Nat) (w : Str) (pw : Bool), w.length ≤ n →
      ∃ x, strip pw (w ++ d) = x ++ d ∧ (w ≠ [] → x ≠ [])
  | _, [], pw, _ => ⟨[], by simp [strip_letterFree d pw hd], by simp⟩
  | 0, _ :: _, _, h => by simp at h
  | n + 1, c :: w, pw, h => by
    have hlen : w.length ≤ n := by simpa using h
    cases hm : ordinalMatchAt pw (c :: w ++ d) with
    | none =>
      obtain ⟨x, hx, _⟩ := strip_keeps_letterFree_suffix d hd hstart n w (isWordChar c) hlen
      refine ⟨c :: x, ?_, by simp⟩
      rw [List.cons_append] at hm ⊢
      rw [strip_cons_of_none _ _ _ hm, hx]
      rfl
    | some r =>
      obtain ⟨ds, rest⟩ := r
      obtain ⟨_, hne, _, a, b, hab, heq, hrest⟩ := ordinalMatchAt_some _ _ _ _ hm
      have ha := isOrdinalSuffix_facts a b hab
      have heq2 : (c :: w) ++ d = (ds ++ [a, b]) ++ rest := by simpa using heq
      have hr : ∃ r', rest = r' ++ d ∧ r'.length < (c :: w).length := by
        rcases List.append_eq_append_iff.mp heq2 with ⟨t, h1, h2⟩ | ⟨t, h1, h2⟩
        · cases t with
          | nil =>
            simp only [List.nil_append] at h2
            rw [← h2] at hrest
            rw [hstart] at hrest
            exact absurd hrest (by decide)
          | cons t0 t =>
            have hb : b ∈ d := by
              have e1 := congrArg List.getLast? h1
              rw [List.getLast?_append_of_ne_nil _ (by simp),
                List.getLast?_append_of_ne_nil _ (by simp)] at e1
              have e2 : b ∈ (t0 :: t).getLast? := by
                rw [← e1]; simp
              rw [h2]
              exact List.mem_append_left _ (List.mem_of_mem_getLast? e2)
            have := hd b hb ha.2.2.1
            rw [ha.2.2.2] at this
            exact absurd this (by decide)
        · refine ⟨t, h2, ?_⟩
          have := congrArg List.length h1
          simp only [List.length_append, List.length_cons, List.length_nil] at this
          simp only [List.length_cons]
          omega
      obtain ⟨r', hr1, hr2⟩ := hr
      obtain ⟨x, hx, _⟩ := strip_keeps_letterFree_suffix d hd hstart n r' true
        (by simp only [List.length_cons] at hr2; omega)
      refine ⟨ds ++ x, ?_, by simp [hne]⟩
      rw [List.cons_append] at hm ⊢
      rw [strip_cons, hm]
      simp only
      rw [hr1, hx, List.append_assoc]

/-! ## Trimming -/

theorem dropWhile_append_stop (p : Char → Bool) (a : Str) (c : Char) (y : Str)
    (hc : p c = false) : (a ++ c :: y).dropWhile p = a.dropWhile p ++ c :: y := by
  induction a with
  | nil => simp [hc]
  | cons x a ih =>
    by_cases hx : p x = true
    · simp [hx, ih]
    · simp [hx]

theorem stringsTrimSpace_eq (s : Str) :
    stringsTrimSpace s = (s.dropWhile isSpace).rdropWhile isSpace := rfl

theorem rdropWhile_append_stop (p : Char → Bool) (x : Str) (c : Char) (b : Str)
    (hc : p c = false) : (x ++ c :: b).rdropWhile p = x ++ c :: b.rdropWhile p := by
  unfold List.rdropWhile
  have h1 : (x ++ c :: b).reverse = b.reverse ++ c :: x.reverse := by simp
  rw [h1, dropWhile_append_stop p _ c _ hc]
  simp

theorem isSpace_of_isDigit (c : Char) (h : isDigit c = true) : isSpace c = false := by
  simp only [isDigit, Bool.and_eq_true, decide_eq_true_eq] at h
  simp only [isSpace, Bool.or_eq_false_iff, Bool.and_eq_false_iff, decide_eq_false_iff_not,
    beq_eq_false_iff_ne, ne_eq]
  omega

theorem ne_hash_of_isDigit (c : Char) (h : isDigit c = true) : (c == '#') = false := by
  rw [beq_eq_false_iff_ne]
  rintro rfl
  simp [isDigit] at h

theorem isSpace_of_isOrdinalSuffix (a b : Char) (h : isOrdinalSuffix a b = true) :
    isSpace b = false := by
  simp only [isOrdinalSuffix, Bool.or_eq_true, Bool.and_eq_true, beq_iff_eq] at h
  rcases h with ((⟨rfl, rfl⟩ | ⟨rfl, rfl⟩) | ⟨rfl, rfl⟩) | ⟨rfl, rfl⟩ <;> decide

/-- The trimmed text before the ordinal substitution: all of `cleanTitle` but
its last step. -/
theorem cleanTitle_eq (h : Str) :
    cleanTitle h = strip false (stringsTrimSpace (stringsTrimLeft h '#')) := rfl

/-- Trimming a header around a digit: what is left of the digit loses leading
`#` and white space, what is right of it loses trailing white space. -/
theorem trim_around_digit (a : Str) (c : Char) (b : Str) (hc : isDigit c = true) :
    stringsTrimSpace (stringsTrimLeft (a ++ c :: b) '#') =
      (a.dropWhile (fun x => x == '#')).dropWhile isSpace ++ c :: b.rdropWhile isSpace := by
  rw [stringsTrimSpace_eq]
  unfold stringsTrimLeft
  rw [dropWhile_append_stop _ a c b (ne_hash_of_isDigit c hc),
    dropWhile_append_stop _ _ c b (isSpace_of_isDigit c hc),
    rdropWhile_append_stop _ _ c b (isSpace_of_isDigit c hc)]

theorem getLast?_of_suffix (a a2 : Str) (h : a2 <:+ a) (c : Char)
    (hc : a2.getLast? = some c) : a.getLast? = some c := by
  obtain ⟨t, rfl⟩ := h
  have hne : a2 ≠ [] := by
    rintro rfl
    simp at hc
  rw [List.getLast?_append_of_ne_nil _ hne, hc]

theorem startsWithWord_of_prefix (b b2 : Str) (h : b2 <+: b) (hb : startsWithWord b = false) :
    startsWithWord b2 = false := by
  obtain ⟨t, rfl⟩ := h
  cases b2 with
  | nil => rfl
  | cons c b2 => exact hb

theorem eq_nil_or_concat_of_getLast? (a : Str) (P : Char → Prop)
    (h : ∀ c, a.getLast? = some c → P c) : a = [] ∨ ∃ p c, a = p ++ [c] ∧ P c := by
  induction a using List.reverseRecOn with
  | nil => exact Or.inl rfl
  | append_singleton p c _ => exact Or.inr ⟨p, c, rfl, h c (by simp)⟩

/-- Attaching an ordinal suffix to a number that stands between word
boundaries does not change the cleaned title. -/
theorem cleanTitle_attach_suffix (a R b : Str) (s1 s2 : Char) (hne : R ≠ [])
    (hR : ∀ c ∈ R, isDigit c = true)
    (ha : ∀ c, a.getLast? = some c → isWordChar c = false)
    (hb : startsWithWord b = false) (hs : isOrdinalSuffix s1 s2 = true) :
    cleanTitle (a ++ R ++ s1 :: s2 :: b) = cleanTitle (a ++ R ++ b) := by
  obtain ⟨r0, R', rfl⟩ : ∃ r0 R', R = r0 :: R' := by
    cases R with
    | nil => exact absurd rfl hne
    | cons r0 R' => exact ⟨r0, R', rfl⟩
  have hr0 : isDigit r0 = true := hR r0 (by simp)
  have hs2 : isSpace s2 = false := isSpace_of_isOrdinalSuffix s1 s2 hs
  set a2 := (a.dropWhile (fun x => x == '#')).dropWhile isSpace with ha2
  have hsuf : a2 <:+ a :=
    (List.dropWhile_suffix _).trans (List.dropWhile_suffix _)
  have ha2w : ∀ c, a2.getLast? = some c → isWordChar c = false :=
    fun c hc => ha c (getLast?_of_suffix a a2 hsuf c hc)
  have hb2 : startsWithWord (b.rdropWhile isSpace) = false :=
    startsWithWord_of_prefix b _ (List.rdropWhile_prefix isSpace b) hb
  have e1 : a ++ r0 :: R' ++ s1 :: s2 :: b = a ++ r0 :: (R' ++ s1 :: s2 :: b) := by simp
  have e2 : a ++ r0 :: R' ++ b = a ++ r0 :: (R' ++ b) := by simp
  rw [cleanTitle_eq, cleanTitle_eq, e1, e2, trim_around_digit a r0 _ hr0,
    trim_around_digit a r0 _ hr0, ← ha2]
  have e3 : (R' ++ s1 :: s2 :: b).rdropWhile isSpace = R' ++ s1 :: s2 :: b.rdropWhile isSpace := by
    have : R' ++ s1 :: s2 :: b = (R' ++ [s1]) ++ s2 :: b := by simp
    rw [this, rdropWhile_append_stop _ _ s2 b hs2]
    simp
  have e4 : (R' ++ b).rdropWhile isSpace = R' ++ b.rdropWhile isSpace := by
    rcases eq_nil_or_concat_of_getLast? R' (fun _ => True) (fun _ _ => trivial) with
      rfl | ⟨R'', z, rfl, _⟩
    · rfl
    · have hz : isDigit z = true := hR z (by simp)
      have : R'' ++ [z] ++ b = R'' ++ z :: b := by simp
      rw [this, rdropWhile_append_stop _ _ z b (isSpace_of_isDigit z hz)]
      simp
  rw [e3, e4]
  have k1 : strip false (r0 :: (R' ++ s1 :: s2 :: b.rdropWhile isSpace)) =
      (r0 :: R') ++ strip true (b.rdropWhile isSpace) :=
    strip_digits_match (r0 :: R') s1 s2 _ hne hR hs hb2
  have k2 : strip false (r0 :: (R' ++ b.rdropWhile isSpace)) =
      (r0 :: R') ++ strip true (b.rdropWhile isSpace) :=
    strip_digits_nonword (r0 :: R') false _ hne hR hb2
  rcases eq_nil_or_concat_of_getLast? a2 _ ha2w with h0 | ⟨p, c, hp, hc⟩
  · rw [h0, List.nil_append, List.nil_append, k1, k2]
  · rw [hp, List.append_assoc, List.append_assoc, List.singleton_append, List.singleton_append,
      strip_split c (r0 :: (R' ++ s1 :: s2 :: b.rdropWhile isSpace)) hc p.length p false
        (le_refl _),
      strip_split c (r0 :: (R' ++ b.rdropWhile isSpace)) hc p.length p false (le_refl _),
      k1, k2]

/-! ## What a successful parse says about the text -/

theorem cutspace_suffix (s : Str) : cutspace s <:+ s := List.dropWhile_suffix _

theorem skipFuel_suffix : ∀ (n : Nat) (value pre v1 : Str),
    skipFuel n value pre = some v1 → v1 <:+ value
  | _, value, [], v1, h => by
    simp only [skipFuel, Option.some.injEq] at h
    exact h ▸ List.suffix_refl _
  | 0, _, _ :: _, _, h => by simp [skipFuel] at h
  | n + 1, value, p :: pre, v1, h => by
    simp only [skipFuel] at h
    split at h
    · cases value with
      | nil =>
        simp only at h
        exact skipFuel_suffix n _ _ v1 h
      | cons v vs =>
        simp only at h
        split at h
        · simp at h
        · exact (skipFuel_suffix n _ _ v1 h).trans (cutspace_suffix _)
    · cases value with
      | nil => simp at h
      | cons v vs =>
        simp only at h
        split at h
        · simp at h
        · exact (skipFuel_suffix n _ _ v1 h).trans (List.suffix_cons _ _)

theorem skip_suffix (value pre v1 : Str) (h : skip value pre = some v1) : v1 <:+ value :=
  skipFuel_suffix _ _ _ _ h

theorem lookupFrom_suffix : ∀ (tab : List Str) (i : Nat) (val : Str) (j : Nat) (rest : Str),
    lookupFrom i tab val = some (j, rest) → rest <:+ val
  | [], _, _, _, _, h => by simp [lookupFrom] at h
  | v :: tab, i, val, j, rest, h => by
    simp only [lookupFrom] at h
    split at h
    · simp only [Option.some.injEq, Prod.mk.injEq] at h
      exact h.2 ▸ List.drop_suffix _ _
    · exact lookupFrom_suffix tab (i + 1) val j rest h

theorem getnum_suffix (s : Str) (fixed : Bool) (n : Nat) (rest : Str)
    (h : getnum s fixed = some (n, rest)) : rest <:+ s := by
  unfold getnum at h
  split at h
  · simp at h
  · split at h
    · split at h
      · simp at h
      · split at h
        · simp only [Option.some.injEq, Prod.mk.injEq] at h
          exact h.2 ▸ List.suffix_cons _ _
        · simp at h
    · split at h
      · simp only [Option.some.injEq, Prod.mk.injEq] at h
        exact h.2 ▸ (List.suffix_cons _ _).trans (List.suffix_cons _ _)
      · simp at h

theorem parseStd_suffix (std : Std) (value rest : Str) (f g : Fields)
    (h : parseStd std value f = some (rest, g)) : rest <:+ value := by
  cases std <;> simp only [parseStd] at h
  · split at h
    · simp at h
    · split at h
      · simp only [Option.some.injEq, Prod.mk.injEq] at h
        exact h.1 ▸ List.drop_suffix _ _
      · simp at h
  · split at h
    · rename_i i r hl
      simp only [Option.some.injEq, Prod.mk.injEq] at h
      exact h.1 ▸ lookupFrom_suffix _ _ _ _ _ hl
    · simp at h
  · split at h
    · rename_i i r hl
      simp only [Option.some.injEq, Prod.mk.injEq] at h
      exact h.1 ▸ lookupFrom_suffix _ _ _ _ _ hl
    · simp at h
  · split at h
    · rename_i m r hl
      split at h
      · simp at h
      · simp only [Option.some.injEq, Prod.mk.injEq] at h
        exact h.1 ▸ getnum_suffix _ _ _ _ hl
    · simp at h
  · split at h
    · rename_i i r hl
      simp only [Option.some.injEq, Prod.mk.injEq] at h
      exact h.1 ▸ lookupFrom_suffix _ _ _ _ _ hl
    · simp at h
  · split at h
    · rename_i m r hl
      simp only [Option.some.injEq, Prod.mk.injEq] at h
      exact h.1 ▸ getnum_suffix _ _ _ _ hl
    · simp at h
  · split at h
    · rename_i m r hl
      simp only [Option.some.injEq, Prod.mk.injEq] at h
      exact h.1 ▸ getnum_suffix _ _ _ _ hl
    · simp at h

theorem leadingInt_digits : ∀ (s : Str) (x y : Nat),
    leadingInt x s = (y, []) → ∀ c ∈ s, isDigit c = true
  | [], _, _, _ => by simp
  | c :: cs, x, y, h => by
    simp only [leadingInt] at h
    split at h
    · rename_i hd
      intro c' hc'
      rcases List.mem_cons.mp hc' with rfl | hmem
      · exact hd
      · exact leadingInt_digits cs _ y h c' hmem
    · simp at h

theorem atoi_digits (s : Str) (y : Nat) (h : atoi s = some y) : ∀ c ∈ s, isDigit c = true := by
  unfold atoi at h
  split at h
  · rename_i x hx
    exact leadingInt_digits s 0 x hx
  · simp at h

/-- The year element at the end of a layout takes exactly four digits. -/
theorem parseStd_year_last (value : Str) (f g : Fields)
    (h : parseStd .stdLongYear value f = some ([], g)) :
    value.length = 4 ∧ ∀ c ∈ value, isDigit c = true := by
  simp only [parseStd] at h
  split at h
  · simp at h
  · rename_i hlen
    split at h
    · rename_i y hy
      simp only [Option.some.injEq, Prod.mk.injEq] at h
      have h4 : value.length = 4 := by
        have h1 := congrArg List.length h.1
        simp only [List.length_drop, List.length_nil] at h1
        simp only [Bool.or_eq_true, decide_eq_true_eq, not_or, not_lt] at hlen
        omega
      refine ⟨h4, ?_⟩
      have : value.take 4 = value := List.take_of_length_le (by omega)
      rw [this] at hy
      exact atoi_digits value y hy
    · simp at h

theorem endsWithYear_cons (ch ch2 : Chunk) (l : Layout) :
    endsWithYear (ch :: ch2 :: l) = endsWithYear (ch2 :: l) := by
  simp [endsWithYear, List.getLast?_cons_cons]

/-- A layout that ends with the year element only parses a text that ends with
four digits. -/
theorem parseChunks_endsWithYear : ∀ (l : Layout) (value : Str) (f g : Fields),
    endsWithYear l = true → parseChunks l value f = some g →
      ∃ p y, value = p ++ y ∧ y.length = 4 ∧ ∀ c ∈ y, isDigit c = true
  | [], _, _, _, he, _ => by simp [endsWithYear] at he
  | ch :: rest, value, f, g, he, h => by
    simp only [parseChunks] at h
    split at h
    · simp at h
    · rename_i v1 hskip
      split at h
      · simp at h
      · rename_i v2 f1 hstd
        have hs1 : v1 <:+ value := skip_suffix _ _ _ hskip
        have hs2 : v2 <:+ v1 := parseStd_suffix _ _ _ _ _ hstd
        cases rest with
        | nil =>
          simp only [parseChunks] at h
          split at h
          · rename_i hv2
            subst hv2
            have hstd' : ch.std = Std.stdLongYear := by
              simpa [endsWithYear] using he
            rw [hstd'] at hstd
            obtain ⟨h4, hdig⟩ := parseStd_year_last _ _ _ hstd
            obtain ⟨t, ht⟩ := hs1
            exact ⟨t, v1, ht.symm, h4, hdig⟩
          · simp at h
        | cons ch2 rest2 =>
          rw [endsWithYear_cons] at he
          obtain ⟨p, y, hv, hy⟩ := parseChunks_endsWithYear (ch2 :: rest2) v2 f1 g he h
          obtain ⟨t1, ht1⟩ := hs1
          obtain ⟨t2, ht2⟩ := hs2
          refine ⟨t1 ++ t2 ++ p, y, ?_, hy⟩
          rw [← ht1, ← ht2, hv]
          simp

theorem parse_endsWithYear (l : Layout) (value : Str) (d : Date) (he : endsWithYear l = true)
    (h : parse l value = some d) :
    ∃ p y, value = p ++ y ∧ y.length = 4 ∧ ∀ c ∈ y, isDigit c = true := by
  unfold parse at h
  split at h
  · simp at h
  · rename_i f hf
    exact parseChunks_endsWithYear l value {} f he hf

theorem skip_dash (value v1 : Str) (h : skip value ['-'] = some v1) : value = '-' :: v1 := by
  cases value with
  | nil => simp [skip, skipFuel] at h
  | cons v vs =>
    simp only [skip, List.length_singleton, skipFuel] at h
    simp only [show ('-' : Char) ≠ ' ' by decide, if_false] at h
    split at h
    · simp at h
    · rename_i hv
      simp only [ne_eq, not_not] at hv
      simp only [Option.some.injEq] at h
      rw [hv, h]

theorem getnum_fixed_length (s rest : Str) (n : Nat) (h : getnum s true = some (n, rest)) :
    s.length = rest.length + 2 := by
  unfold getnum at h
  split at h
  · simp at h
  · split at h
    · simp at h
    · split at h
      · simp only [Option.some.injEq, Prod.mk.injEq] at h
        rw [← h.2]
        simp
      · simp at h

/-- The numeric layout only parses a text of exactly ten characters. -/
theorem parse_layoutISO_length (value : Str) (d : Date) (h : parse layoutISO value = some d) :
    value.length = 10 := by
  unfold parse at h
  split at h
  · simp at h
  · rename_i f hf
    clear h
    simp only [layoutISO, parseChunks] at hf
    simp only [skip, List.length_nil, skipFuel] at hf
    split at hf
    · simp at hf
    · rename_i v2 f1 hy
      simp only [parseStd] at hy
      split at hy
      · simp at hy
      · rename_i hlen
        simp only [Bool.or_eq_true, decide_eq_true_eq, not_or, not_lt] at hlen
        split at hy
        · simp only [Option.some.injEq, Prod.mk.injEq] at hy
          obtain ⟨hv2, _⟩ := hy
          have hl2 : value.length = v2.length + 4 := by
            rw [← hv2, List.length_drop]
            omega
          split at hf
          · simp at hf
          · rename_i v3 hs3
            have e3 := skip_dash _ _ hs3
            split at hf
            · simp at hf
            · rename_i v4 f2 hm
              simp only [parseStd] at hm
              split at hm
              · rename_i m r hg
                have e4 := getnum_fixed_length _ _ _ hg
                split at hm
                · simp at hm
                · simp only [Option.some.injEq, Prod.mk.injEq] at hm
                  obtain ⟨hr, _⟩ := hm
                  subst hr
                  split at hf
                  · simp at hf
                  · rename_i v5 hs5
                    have e5 := skip_dash _ _ hs5
                    split at hf
                    · simp at hf
                    · rename_i v6 f3 hd
                      simp only [parseStd] at hd
                      split at hd
                      · rename_i dd r2 hg2
                        have e6 := getnum_fixed_length _ _ _ hg2
                        simp only [Option.some.injEq, Prod.mk.injEq] at hd
                        obtain ⟨hr2, _⟩ := hd
                        subst hr2
                        split at hf
                        · rename_i hnil
                          subst hnil
                          rw [e3] at hl2
                          rw [e5] at e4
                          simp only [List.length_cons, List.length_nil] at hl2 e4 e6
                          omega
                        · simp at hf
                      · simp at hd
              · simp at hm
        · simp at hy

/-! ## Digits and table lookups -/

theorem isDigit_digitChar (k : Nat) : isDigit (digitChar k) = true := by
  unfold digitChar
  split <;> decide

theorem digitVal_digitChar (k : Nat) (h : k < 10) : digitVal (digitChar k) = k := by
  interval_cases k <;> rfl

theorem isLetterFold_of_isDigit (c : Char) (h : isDigit c = true) : isLetterFold c = false := by
  simp only [isDigit, Bool.and_eq_true, decide_eq_true_eq] at h
  unfold isLetterFold
  generalize c.toNat = n at h
  obtain ⟨h1, h2⟩ := h
  interval_cases n <;> decide

theorem matchChar_nonletter (c t : Char) (hc : isLetterFold c = false)
    (ht : isLetterFold t = true) : matchChar c t = false := by
  have hne : (c == t) = false := by
    rw [beq_eq_false_iff_ne]
    rintro rfl
    rw [hc] at ht
    exact absurd ht (by decide)
  unfold isLetterFold at hc
  unfold matchChar
  rw [hne, Bool.false_or, Bool.and_assoc, hc, Bool.and_false]

theorem matchFold_stop : ∀ (p : Str) (c : Char) (z name : Str), isLetterFold c = false →
    (∀ t ∈ name, isLetterFold t = true) → p.length < name.length →
    matchFold (p ++ c :: z) name = false
  | [], c, z, [], _, _, hl => by simp at hl
  | [], c, z, t :: name, hc, hn, _ => by
    simp [matchFold, matchChar_nonletter c t hc (hn t (by simp))]
  | x :: p, c, z, [], _, _, hl => by simp at hl
  | x :: p, c, z, t :: name, hc, hn, hl => by
    have ih := matchFold_stop p c z name hc (fun t' ht' => hn t' (List.mem_cons_of_mem _ ht'))
      (by simpa using hl)
    show (matchChar x t && matchFold (p ++ c :: z) name) = false
    rw [ih, Bool.and_false]

/-- A lookup stops at the first character that is not a letter: the entry found
in `p ++ c :: rest` is the entry found in `p`. -/
theorem lookupFrom_stop : ∀ (tab : List Str) (i : Nat) (p : Str) (c : Char) (rest : Str),
    (∀ name ∈ tab, ∀ t ∈ name, isLetterFold t = true) → isLetterFold c = false →
    lookupFrom i tab (p ++ c :: rest) =
      (lookupFrom i tab p).map (fun r => (r.1, r.2 ++ c :: rest))
  | [], _, _, _, _, _, _ => rfl
  | name :: tab, i, p, c, rest, htab, hc => by
    have ih := lookupFrom_stop tab (i + 1) p c rest
      (fun n hn => htab n (List.mem_cons_of_mem _ hn)) hc
    simp only [lookupFrom]
    by_cases hle : name.length ≤ p.length
    · have h1 : name.length ≤ (p ++ c :: rest).length := by
        simp only [List.length_append]; omega
      have h2 : (p ++ c :: rest).take name.length = p.take name.length :=
        List.take_append_of_le_length hle
      have h3 : (p ++ c :: rest).drop name.length = p.drop name.length ++ c :: rest :=
        List.drop_append_of_le_length hle
      rw [h2, h3]
      simp only [h1, hle, decide_True, Bool.true_and]
      split
      · rfl
      · exact ih
    · have hlt : p.length < name.length := Nat.lt_of_not_le hle
      have h2 : (p ++ c :: rest).take name.length =
          p ++ c :: rest.take (name.length - p.length - 1) := by
        rw [List.take_append_eq_append_take, List.take_of_length_le (by omega)]
        congr 1
        have : name.length - p.length = (name.length - p.length - 1) + 1 := by omega
        rw [this, List.take_succ_cons]
        simp
      rw [h2, matchFold_stop p c _ name hc (htab name (by simp)) hlt]
      simp only [hle, decide_False, Bool.false_and, Bool.and_false, Bool.false_eq_true, if_false]
      exact ih

theorem longMonthNames_letters : ∀ name ∈ longMonthNames, ∀ t ∈ name, isLetterFold t = true := by
  decide

theorem shortMonthNames_letters :
    ∀ name ∈ shortMonthNames, ∀ t ∈ name, isLetterFold t = true := by
  decide

theorem longDayNames_letters : ∀ name ∈ longDayNames, ∀ t ∈ name, isLetterFold t = true := by
  decide

/-- No table entry is found in a text that starts with a character that is not
a letter. -/
theorem lookup_of_nonletter (tab : List Str) (c : Char) (rest : Str)
    (htab : ∀ name ∈ tab, ∀ t ∈ name, isLetterFold t = true) (hne : [] ∉ tab)
    (hc : isLetterFold c = false) : lookup tab (c :: rest) = none := by
  have h := lookupFrom_stop tab 0 [] c rest htab hc
  have h0 : ∀ (tab : List Str) (i : Nat), [] ∉ tab → lookupFrom i tab [] = none := by
    intro tab
    induction tab with
    | nil => intro i _; rfl
    | cons n tab ih =>
      intro i hn
      simp only [List.mem_cons, not_or] at hn
      have hn1 : n ≠ [] := fun e => hn.1 e.symm
      have hlen : ¬ n.length ≤ 0 := by
        have := List.length_pos.mpr hn1
        omega
      simp only [lookupFrom, List.length_nil, hlen, decide_False, Bool.false_and,
        Bool.false_eq_true, if_false]
      exact ih (i + 1) hn.2
  rw [List.nil_append, h0 tab 0 hne] at h
  exact h

/-- C5: ordinal stripping is purely textual.  When a number of a header stands
between word boundaries (start or a non-word character on its left, end or a
non-word character on its right), attaching any of `st`, `nd`, `rd`, `th` right
after it leaves the result of `extractDateFromHeader` unchanged, so a header
that gave the date `d` still gives `d`, whichever number it is and whether or
not the suffix fits; "# Jan 21st, 2024", "# Jan 21th, 2024" and
"# Jan 21, 2024th" all give "2024-01-21". -/
theorem ordinal_suffix_is_textual :
    (∀ (a R b : Str) (s1 s2 : Char), R ≠ [] → (∀ c ∈ R, isDigit c = true) →
      (∀ c, a.getLast? = some c → isWordChar c = false) → startsWithWord b = false →
      isOrdinalSuffix s1 s2 = true →
        extractDateFromHeader (a ++ R ++ s1 :: s2 :: b) = extractDateFromHeader (a ++ R ++ b) ∧
        ∀ d : Date, extractDateFromHeader (a ++ R ++ b) = formatISO d →
          extractDateFromHeader (a ++ R ++ s1 :: s2 :: b) = formatISO d) ∧
    extractDateFromHeader "# Jan 21st, 2024".toList = "2024-01-21".toList ∧
    extractDateFromHeader "# Jan 21th, 2024".toList = "2024-01-21".toList ∧
    extractDateFromHeader "# Jan 21, 2024th".toList = "2024-01-21".toList := by
  refine ⟨?_, by decide, by decide, by decide⟩
  intro a R b s1 s2 hne hR ha hb hs
  have key : extractDateFromHeader (a ++ R ++ s1 :: s2 :: b) =
      extractDateFromHeader (a ++ R ++ b) := by
    unfold extractDateFromHeader headerDate
    rw [cleanTitle_attach_suffix a R b s1 s2 hne hR ha hb hs]
  exact ⟨key, fun d hd => key.trans hd⟩

/-- Witness for C5: in "# Jan 21, 2024" the number 21 stands between a blank
and a comma; with `th` attached the header still gives 2024-01-21. -/
theorem ordinal_suffix_is_textual_witness :
    extractDateFromHeader ("# Jan ".toList ++ "21".toList ++ 't' :: 'h' :: ", 2024".toList) =
      extractDateFromHeader ("# Jan ".toList ++ "21".toList ++ ", 2024".toList) ∧
    extractDateFromHeader ("# Jan ".toList ++ "21".toList ++ 't' :: 'h' :: ", 2024".toList) =
      formatISO ⟨2024, 1, 21⟩ :=
  ⟨(ordinal_suffix_is_textual.1 "# Jan ".toList "21".toList ", 2024".toList 't' 'h'
      (by decide) (by decide) (by decide) (by decide) (by decide)).1,
    (ordinal_suffix_is_textual.1 "# Jan ".toList "21".toList ", 2024".toList 't' 'h'
      (by decide) (by decide) (by decide) (by decide) (by decide)).2 ⟨2024, 1, 21⟩ (by decide)⟩

/-! ## Whole-title matching -/

/-- The canonical form of a valid date: ten characters, digits around two
hyphens. -/
theorem formatISO_shape (d : Date) (hd : isValidDate d = true) :
    ∃ y3 y2 y1 y0 m1 m0 d1 d0 : Char,
      isDigit y3 = true ∧ isDigit y2 = true ∧ isDigit y1 = true ∧ isDigit y0 = true ∧
      isDigit m1 = true ∧ isDigit m0 = true ∧ isDigit d1 = true ∧ isDigit d0 = true ∧
      formatISO d = [y3, y2, y1, y0, '-', m1, m0, '-', d1, d0] := by
  obtain ⟨hy, _, hm, _, hdd⟩ := isValidDate_bounds d hd
  exact ⟨_, _, _, _, _, _, _, _, isDigit_digitChar _, isDigit_digitChar _, isDigit_digitChar _,
    isDigit_digitChar _, isDigit_digitChar _, isDigit_digitChar _, isDigit_digitChar _,
    isDigit_digitChar _, formatISO_eq d hy (by omega) (by omega)⟩

theorem parse_of_lookup_none (l : Layout) (rest : Layout) (std : Std) (v : Str)
    (hl : l = ⟨[], std⟩ :: rest) (hstd : parseStd std v {} = none) : parse l v = none := by
  subst hl
  simp [parse, parseChunks, skip, skipFuel, hstd]

/-- No layout parses a text that has something in front of a canonical date. -/
theorem parseFirst_none_before_date (x : Str) (d : Date) (hd : isValidDate d = true)
    (hx : x ≠ []) : parseFirst dateFormats (x ++ formatISO d) = none := by
  obtain ⟨y3, y2, y1, y0, m1, m0, d1, d0, -, -, -, -, -, -, -, -, heq⟩ := formatISO_shape d hd
  rw [heq, parseFirst_eq_none_iff]
  have hyear : ∀ l : Layout, endsWithYear l = true →
      parse l (x ++ [y3, y2, y1, y0, '-', m1, m0, '-', d1, d0]) = none := by
    intro l he
    cases hp : parse l (x ++ [y3, y2, y1, y0, '-', m1, m0, '-', d1, d0]) with
    | none => rfl
    | some d' =>
      exfalso
      obtain ⟨p, y, hv, hy4, hyd⟩ := parse_endsWithYear l _ d' he hp
      have e : x ++ [y3, y2, y1, y0, '-', m1, m0, '-', d1, d0] =
          (x ++ [y3, y2, y1, y0, '-', m1]) ++ [m0, '-', d1, d0] := by simp
      rw [e] at hv
      have hy : [m0, '-', d1, d0] = y := List.append_inj_right' hv (by simp [hy4])
      have := hyd '-' (by rw [← hy]; simp)
      exact absurd this (by decide)
  intro l hl
  simp only [dateFormats, List.mem_cons, List.mem_singleton, List.not_mem_nil, or_false] at hl
  rcases hl with rfl | rfl | rfl | rfl | rfl | rfl | rfl
  · cases hp : parse layoutISO (x ++ [y3, y2, y1, y0, '-', m1, m0, '-', d1, d0]) with
    | none => rfl
    | some d' =>
      exfalso
      have h10 := parse_layoutISO_length _ d' hp
      have hpos := List.length_pos.mpr hx
      simp only [List.length_append, List.length_cons, List.length_nil] at h10
      omega
  · exact hyear _ (by decide)
  · exact hyear _ (by decide)
  · exact hyear _ (by decide)
  · exact hyear _ (by decide)
  · exact hyear _ (by decide)
  · exact hyear _ (by decide)

theorem ne_space_of_isDigit (c : Char) (h : isDigit c = true) : c ≠ ' ' := by
  rintro rfl
  exact absurd h (by decide)

/-- No layout parses a canonical date followed by `T` and more text. -/
theorem parseFirst_none_date_T (d : Date) (hd : isValidDate d = true) (r : Str) :
    parseFirst dateFormats (formatISO d ++ 'T' :: r) = none := by
  obtain ⟨y3, y2, y1, y0, m1, m0, d1, d0, h3, h2, h1, -, -, -, -, -, heq⟩ := formatISO_shape d hd
  rw [heq, parseFirst_eq_none_iff]
  have hl3 := isLetterFold_of_isDigit y3 h3
  intro l hl
  simp only [dateFormats, List.mem_cons, List.mem_singleton, List.not_mem_nil, or_false] at hl
  rcases hl with rfl | rfl | rfl | rfl | rfl | rfl | rfl
  · cases hp : parse layoutISO ([y3, y2, y1, y0, '-', m1, m0, '-', d1, d0] ++ 'T' :: r) with
    | none => rfl
    | some d' =>
      exfalso
      have h10 := parse_layoutISO_length _ d' hp
      simp only [List.length_append, List.length_cons, List.length_nil] at h10
      omega
  · refine parse_of_lookup_none _ _ .stdLongMonth _ rfl ?_
    simp [parseStd, lookup_of_nonletter longMonthNames y3 _ longMonthNames_letters (by decide) hl3]
  · refine parse_of_lookup_none _ _ .stdMonth _ rfl ?_
    simp [parseStd,
      lookup_of_nonletter shortMonthNames y3 _ shortMonthNames_letters (by decide) hl3]
  · refine parse_of_lookup_none _ _ .stdMonth _ rfl ?_
    simp [parseStd,
      lookup_of_nonletter shortMonthNames y3 _ shortMonthNames_letters (by decide) hl3]
  · refine parse_of_lookup_none _ _ .stdLongWeekDay _ rfl ?_
    simp [parseStd, lookup_of_nonletter longDayNames y3 _ longDayNames_letters (by decide) hl3]
  · simp [parse, layoutZeroDay, parseChunks, skip, skipFuel, parseStd, getnum, isDigitAt, h3, h2,
      ne_space_of_isDigit y1 h1]
  · simp [parse, layoutDay, parseChunks, skip, skipFuel, parseStd, getnum, isDigitAt, h3, h2,
      ne_space_of_isDigit y1 h1]

/-- A digit run followed by a character that starts no ordinal suffix is
copied. -/
theorem strip_digits_stop (ds : Str) (pw : Bool) (c : Char) (s : Str) (hne : ds ≠ [])
    (hds : ∀ x ∈ ds, isDigit x = true) (hc : isDigit c = false)
    (hsuf : ∀ b, isOrdinalSuffix c b = false) :
    strip pw (ds ++ c :: s) = ds ++ strip true (c :: s) := by
  apply strip_digits_of_none ds pw _ hne hds
  cases hm : ordinalMatchAt pw (ds ++ c :: s) with
  | none => rfl
  | some r =>
    exfalso
    obtain ⟨ds', rest⟩ := r
    obtain ⟨_, _, hds', a, b, hab, heq, _⟩ := ordinalMatchAt_some _ _ _ _ hm
    have ha := isOrdinalSuffix_facts a b hab
    have e1 : (ds ++ c :: s).dropWhile isDigit = c :: s := by
      rw [List.dropWhile_append_of_pos hds]
      simp [hc]
    have e2 : (ds' ++ a :: b :: rest).dropWhile isDigit = a :: b :: rest := by
      rw [List.dropWhile_append_of_pos hds']
      simp [ha.1]
    rw [heq, e2] at e1
    simp only [List.cons.injEq] at e1
    rw [e1.1, hsuf b] at hab
    exact absurd hab (by decide)

theorem cleanTitle_before_date (w : Str) (d : Date) (hd : isValidDate d = true)
    (hw : ∃ c ∈ w, isSpace c = false) :
    ∃ x, x ≠ [] ∧ cleanTitle ('#' :: ' ' :: (w ++ formatISO d)) = x ++ formatISO d := by
  obtain ⟨y3, y2, y1, y0, m1, m0, d1, d0, h3, h2, h1, h0, hm1, hm0, hd1, hd0, heq⟩ :=
    formatISO_shape d hd
  have e : '#' :: ' ' :: (w ++ formatISO d) =
      ('#' :: ' ' :: w) ++ y3 :: [y2, y1, y0, '-', m1, m0, '-', d1, d0] := by
    rw [heq]; simp
  have e2 : ([y2, y1, y0, '-', m1, m0, '-', d1, d0] : Str).rdropWhile isSpace =
      [y2, y1, y0, '-', m1, m0, '-', d1, d0] := by
    have : ([y2, y1, y0, '-', m1, m0, '-', d1, d0] : Str) =
        [y2, y1, y0, '-', m1, m0, '-', d1] ++ d0 :: [] := by simp
    rw [this, rdropWhile_append_stop _ _ d0 [] (isSpace_of_isDigit d0 hd0)]
    rfl
  have e3 : (('#' :: ' ' :: w).dropWhile (fun x => x == '#')).dropWhile isSpace =
      w.dropWhile isSpace := by
    simp [List.dropWhile_cons, show isSpace ' ' = true by decide]
  have hw' : w.dropWhile isSpace ≠ [] := by
    obtain ⟨c, hc, hcs⟩ := hw
    intro hnil
    have := List.dropWhile_eq_nil_iff.mp hnil c hc
    rw [hcs] at this
    exact absurd this (by decide)
  rw [cleanTitle_eq, e, trim_around_digit _ y3 _ h3, e2, e3]
  have hfree : ∀ c ∈ formatISO d, isWordChar c = true → isDigit c = true := by
    rw [heq]
    intro c hc hwc
    simp only [List.mem_cons, List.mem_singleton, List.not_mem_nil, or_false] at hc
    rcases hc with rfl | rfl | rfl | rfl | rfl | rfl | rfl | rfl | rfl | rfl <;> assumption
  have hstart : startsWithWord (formatISO d) = true := by
    rw [heq]
    exact isWordChar_of_isDigit y3 h3
  obtain ⟨x, hx, hxne⟩ := strip_keeps_letterFree_suffix (formatISO d) hfree hstart _
    (w.dropWhile isSpace) false (le_refl _)
  refine ⟨x, hxne hw', ?_⟩
  rw [← heq]
  exact hx

theorem cleanTitle_date_T (d : Date) (hd : isValidDate d = true) (t : Str) :
    ∃ r, cleanTitle ('#' :: ' ' :: (formatISO d ++ 'T' :: t)) = formatISO d ++ 'T' :: r := by
  obtain ⟨y3, y2, y1, y0, m1, m0, d1, d0, h3, h2, h1, h0, hm1, hm0, hd1, hd0, heq⟩ :=
    formatISO_shape d hd
  have e : '#' :: ' ' :: (formatISO d ++ 'T' :: t) =
      ['#', ' '] ++ y3 :: ([y2, y1, y0, '-', m1, m0, '-', d1, d0] ++ 'T' :: t) := by
    rw [heq]; simp
  have e2 : ([y2, y1, y0, '-', m1, m0, '-', d1, d0] ++ 'T' :: t).rdropWhile isSpace =
      [y2, y1, y0, '-', m1, m0, '-', d1, d0] ++ 'T' :: t.rdropWhile isSpace :=
    rdropWhile_append_stop _ _ 'T' t (by decide)
  have e3 : ((['#', ' '] : Str).dropWhile (fun x => x == '#')).dropWhile isSpace = [] := by
    decide
  rw [cleanTitle_eq, e, trim_around_digit _ y3 _ h3, e2, e3, heq]
  refine ⟨strip true (t.rdropWhile isSpace), ?_⟩
  have hdash : isWordChar '-' = false := by decide
  have k1 : strip false ([y3, y2, y1, y0] ++ '-' :: ([m1, m0] ++ '-' :: ([d1, d0] ++
      'T' :: t.rdropWhile isSpace))) =
      [y3, y2, y1, y0] ++ '-' :: ([m1, m0] ++ '-' :: ([d1, d0] ++
        'T' :: strip true (t.rdropWhile isSpace))) := by
    rw [strip_digits_nonword [y3, y2, y1, y0] false _ (by simp)
      (by simp [h3, h2, h1, h0]) (by simp [startsWithWord, hdash]),
      strip_true_cons, hdash,
      strip_digits_nonword [m1, m0] false _ (by simp)
      (by simp [hm1, hm0]) (by simp [startsWithWord, hdash]),
      strip_true_cons, hdash,
      strip_digits_stop [d1, d0] false 'T' _ (by simp) (by simp [hd1, hd0]) (by decide)
        (by intro b; simp [isOrdinalSuffix]),
      strip_true_cons]
    rfl
  simpa using k1

/-- C6: dates are matched against the whole cleaned title.  For every valid
canonical date, a header "# " + w + date gives no date whenever `w` has a
character that is not white space, and a header "# " + date + "T…" gives no
date whatever follows the `T`; so "# Meeting notes — 2024-01-02" and
"# 2024-01-02T10:00:00" give the empty string. -/
theorem whole_title_only :
    (∀ (d : Date) (w : Str), isValidDate d = true → (∃ c ∈ w, isSpace c = false) →
      extractDateFromHeader ('#' :: ' ' :: (w ++ formatISO d)) = []) ∧
    (∀ (d : Date) (t : Str), isValidDate d = true →
      extractDateFromHeader ('#' :: ' ' :: (formatISO d ++ 'T' :: t)) = []) ∧
    extractDateFromHeader "# Meeting notes — 2024-01-02".toList = [] ∧
    extractDateFromHeader "# 2024-01-02T10:00:00".toList = [] := by
  refine ⟨?_, ?_, by decide, by decide⟩
  · intro d w hd hw
    obtain ⟨x, hx, hc⟩ := cleanTitle_before_date w d hd hw
    unfold extractDateFromHeader headerDate
    rw [hc, parseFirst_none_before_date x d hd hx]
  · intro d t hd
    obtain ⟨r, hc⟩ := cleanTitle_date_T d hd t
    unfold extractDateFromHeader headerDate
    rw [hc, parseFirst_none_date_T d hd r]

/-- Witness for C6: 2024-01-02 is a valid date; with "Notes " in front of it,
or with "T10:00:00" behind it, the header gives no date. -/
theorem whole_title_only_witness :
    isValidDate ⟨2024, 1, 2⟩ = true ∧
    extractDateFromHeader ('#' :: ' ' :: ("Notes ".toList ++ formatISO ⟨2024, 1, 2⟩)) = [] ∧
    extractDateFromHeader ('#' :: ' ' :: (formatISO ⟨2024, 1, 2⟩ ++ 'T' :: "10:00:00".toList)) =
      [] :=
  ⟨by decide,
    whole_title_only.1 ⟨2024, 1, 2⟩ "Notes ".toList (by decide) ⟨'N', by decide, by decide⟩,
    whole_title_only.2.1 ⟨2024, 1, 2⟩ "10:00:00".toList (by decide)⟩

/-! ## Dates written in a layout -/

theorem appendInt_zero_small (n : Nat) (h : n < 10) : appendInt n 0 = [digitChar n] := by
  simp [appendInt, decimal, h]

theorem appendInt_zero_big (n : Nat) (h1 : 10 ≤ n) (h2 : n < 100) :
    appendInt n 0 = [digitChar (n / 10), digitChar (n % 10)] := by
  have h3 : ¬ n < 10 := by omega
  have h4 : n / 10 < 10 := by omega
  simp [appendInt, decimal, h3, h4]

/-- The digits that `Format` writes for a valid date. -/
theorem date_digits (d : Date) (hd : isValidDate d = true) :
    ∃ a3 a2 a1 a0 b1 b0 c1 c0 : Char,
      (isDigit a3 = true ∧ isDigit a2 = true ∧ isDigit a1 = true ∧ isDigit a0 = true ∧
        isDigit b1 = true ∧ isDigit b0 = true ∧ isDigit c1 = true ∧ isDigit c0 = true) ∧
      (appendInt d.year 4 = [a3, a2, a1, a0] ∧ appendInt d.day 2 = [b1, b0] ∧
        appendInt d.month 2 = [c1, c0] ∧
        appendInt d.day 0 = if d.day < 10 then [b0] else [b1, b0]) ∧
      (((digitVal a3 * 10 + digitVal a2) * 10 + digitVal a1) * 10 + digitVal a0 = d.year ∧
        digitVal b1 * 10 + digitVal b0 = d.day ∧ (d.day < 10 → digitVal b0 = d.day) ∧
        digitVal c1 * 10 + digitVal c0 = d.month) := by
  obtain ⟨hy, hm1, hm2, hd1, hd2⟩ := isValidDate_bounds d hd
  refine ⟨digitChar (d.year / 1000), digitChar (d.year / 100 % 10), digitChar (d.year / 10 % 10),
    digitChar (d.year % 10), digitChar (d.day / 10), digitChar (d.day % 10),
    digitChar (d.month / 10), digitChar (d.month % 10), ?_, ?_, ?_⟩
  · simp [isDigit_digitChar]
  · refine ⟨appendInt_four _ hy, appendInt_two _ (by omega), appendInt_two _ (by omega), ?_⟩
    split
    · rename_i h
      rw [appendInt_zero_small _ h]
      have : d.day % 10 = d.day := by omega
      rw [this]
    · rename_i h
      exact appendInt_zero_big _ (by omega) (by omega)
  · rw [digitVal_digitChar _ (by omega), digitVal_digitChar _ (by omega),
      digitVal_digitChar _ (by omega), digitVal_digitChar _ (by omega),
      digitVal_digitChar _ (by omega), digitVal_digitChar _ (by omega),
      digitVal_digitChar _ (by omega), digitVal_digitChar _ (by omega)]
    refine ⟨by omega, by omega, ?_, by omega⟩
    intro h
    omega

theorem lookup_stop (tab : List Str) (p : Str) (c : Char) (rest : Str)
    (htab : ∀ name ∈ tab, ∀ t ∈ name, isLetterFold t = true) (hc : isLetterFold c = false) :
    lookup tab (p ++ c :: rest) = (lookup tab p).map (fun r => (r.1, r.2 ++ c :: rest)) :=
  lookupFrom_stop tab 0 p c rest htab hc

theorem lookup_monthLong (m : Nat) (h1 : 1 ≤ m) (h2 : m ≤ 12) (c : Char) (rest : Str)
    (hc : isLetterFold c = false) :
    lookup longMonthNames (monthLong m ++ c :: rest) = some (m - 1, c :: rest) := by
  have h : lookup longMonthNames (monthLong m) = some (m - 1, []) := by
    interval_cases m <;> decide
  rw [lookup_stop _ _ _ _ longMonthNames_letters hc, h]
  rfl

theorem lookup_monthShort (m : Nat) (h1 : 1 ≤ m) (h2 : m ≤ 12) (c : Char) (rest : Str)
    (hc : isLetterFold c = false) :
    lookup shortMonthNames (monthShort m ++ c :: rest) = some (m - 1, c :: rest) := by
  have h : lookup shortMonthNames (monthShort m) = some (m - 1, []) := by
    interval_cases m <;> decide
  rw [lookup_stop _ _ _ _ shortMonthNames_letters hc, h]
  rfl

theorem lookup_long_of_monthShort (m : Nat) (h1 : 1 ≤ m) (h2 : m ≤ 12) (c : Char) (rest : Str)
    (hc : isLetterFold c = false) :
    lookup longMonthNames (monthShort m ++ c :: rest) = none ∨
      lookup longMonthNames (monthShort m ++ c :: rest) = some (m - 1, c :: rest) := by
  have h : lookup longMonthNames (monthShort m) = none ∨
      lookup longMonthNames (monthShort m) = some (m - 1, []) := by
    interval_cases m <;> decide
  rw [lookup_stop _ _ _ _ longMonthNames_letters hc]
  rcases h with h | h
  · left; rw [h]; rfl
  · right; rw [h]; rfl

theorem lookup_dayLong (w : Nat) (h : w < 7) (c : Char) (rest : Str)
    (hc : isLetterFold c = false) :
    (∃ i, lookup longDayNames (dayLong w ++ c :: rest) = some (i, c :: rest)) ∧
    lookup longMonthNames (dayLong w ++ c :: rest) = none ∧
    lookup shortMonthNames (dayLong w ++ c :: rest) = none := by
  have h0 : lookup longDayNames (dayLong w) = some (w, []) ∧
      lookup longMonthNames (dayLong w) = none ∧
      lookup shortMonthNames (dayLong w) = none := by
    interval_cases w <;> decide
  rw [lookup_stop _ _ _ _ longDayNames_letters hc,
    lookup_stop _ _ _ _ longMonthNames_letters hc,
    lookup_stop _ _ _ _ shortMonthNames_letters hc, h0.1, h0.2.1, h0.2.2]
  exact ⟨⟨w, rfl⟩, rfl, rfl⟩

/-- A name written by `Format`: not empty, and made of characters that are
neither digits nor white space. -/
theorem monthLong_word (m : Nat) (h1 : 1 ≤ m) (h2 : m ≤ 12) :
    monthLong m ≠ [] ∧ ∀ c ∈ monthLong m, isDigit c = false ∧ isSpace c = false := by
  interval_cases m <;> decide

theorem monthShort_word (m : Nat) (h1 : 1 ≤ m) (h2 : m ≤ 12) :
    monthShort m ≠ [] ∧ ∀ c ∈ monthShort m, isDigit c = false ∧ isSpace c = false := by
  interval_cases m <;> decide

theorem dayLong_word (w : Nat) (h : w < 7) :
    dayLong w ≠ [] ∧ ∀ c ∈ dayLong w, isDigit c = false ∧ isSpace c = false := by
  interval_cases w <;> decide

theorem weekday_lt (d : Date) : weekday d < 7 := Nat.mod_lt _ (by decide)

theorem decimal_digits : ∀ (fuel n : Nat), ∀ c ∈ decimal fuel n, isDigit c = true
  | 0, _, c, h => by simp [decimal] at h
  | fuel + 1, n, c, h => by
    simp only [decimal] at h
    split at h
    · simp only [List.mem_singleton] at h
      rw [h]; exact isDigit_digitChar _
    · rcases List.mem_append.mp h with h1 | h1
      · exact decimal_digits fuel _ c h1
      · simp only [List.mem_singleton] at h1
        rw [h1]; exact isDigit_digitChar _

/-- What `appendInt` writes is a non-empty run of digits. -/
theorem appendInt_block (n w : Nat) :
    appendInt n w ≠ [] ∧ ∀ c ∈ appendInt n w, isDigit c = true := by
  constructor
  · have h : decimal 20 n ≠ [] := by
      rw [show (20 : Nat) = 19 + 1 from rfl, decimal]
      split <;> simp
    simp [appendInt, h]
  · intro c hc
    simp only [appendInt] at hc
    rcases List.mem_append.mp hc with h1 | h1
    · rw [(List.mem_replicate.mp h1).2]; decide
    · exact decimal_digits _ _ c h1

theorem parseStd_year_appendInt (y : Nat) (hy : y < 10000) (rest : Str) (f : Fields) :
    parseStd .stdLongYear (appendInt y 4 ++ rest) f = some (rest, { f with year := y }) := by
  rw [appendInt_four y hy]
  have e : ((digitVal (digitChar (y / 1000)) * 10 + digitVal (digitChar (y / 100 % 10))) * 10 +
      digitVal (digitChar (y / 10 % 10))) * 10 + digitVal (digitChar (y % 10)) = y := by
    rw [digitVal_digitChar _ (by omega), digitVal_digitChar _ (by omega),
      digitVal_digitChar _ (by omega), digitVal_digitChar _ (by omega)]
    omega
  simp [parseStd, isDigitAt, isDigit_digitChar, atoi, leadingInt, e]

theorem getnum_appendInt_two (n : Nat) (hn : n < 100) (rest : Str) (fixed : Bool) :
    getnum (appendInt n 2 ++ rest) fixed = some (n, rest) := by
  rw [appendInt_two n hn]
  have e : digitVal (digitChar (n / 10)) * 10 + digitVal (digitChar (n % 10)) = n := by
    rw [digitVal_digitChar _ (by omega), digitVal_digitChar _ (by omega)]
    omega
  simp [getnum, isDigitAt, isDigit_digitChar, e]

theorem getnum_appendInt_zero (n : Nat) (hn : n < 100) (c : Char) (rest : Str)
    (hc : isDigit c = false) :
    getnum (appendInt n 0 ++ c :: rest) false = some (n, c :: rest) := by
  by_cases h : n < 10
  · rw [appendInt_zero_small n h]
    simp [getnum, isDigitAt, isDigit_digitChar, hc, digitVal_digitChar n h]
  · rw [appendInt_zero_big n (by omega) hn]
    have e : digitVal (digitChar (n / 10)) * 10 + digitVal (digitChar (n % 10)) = n := by
      rw [digitVal_digitChar _ (by omega), digitVal_digitChar _ (by omega)]
      omega
    simp [getnum, isDigitAt, isDigit_digitChar, e]

theorem getnum_appendInt_zero_fixed (n : Nat) (hn : n < 100) (c : Char) (rest : Str)
    (hc : isDigit c = false) :
    getnum (appendInt n 0 ++ c :: rest) true =
      if n < 10 then none else some (n, c :: rest) := by
  by_cases h : n < 10
  · rw [appendInt_zero_small n h]
    simp [getnum, isDigitAt, isDigit_digitChar, hc, h]
  · rw [appendInt_zero_big n (by omega) hn]
    have e : digitVal (digitChar (n / 10)) * 10 + digitVal (digitChar (n % 10)) = n := by
      rw [digitVal_digitChar _ (by omega), digitVal_digitChar _ (by omega)]
      omega
    simp [getnum, isDigitAt, isDigit_digitChar, e, h]

theorem skip_nil (v : Str) : skip v [] = some v := rfl

theorem skip_dash_cons (v : Str) : skip ('-' :: v) ['-'] = some v := by
  simp [skip, skipFuel]

theorem cutspace_block (B rest : Str) (hne : B ≠ []) (hB : ∀ c ∈ B, c ≠ ' ') :
    cutspace (B ++ rest) = B ++ rest := by
  cases B with
  | nil => exact absurd rfl hne
  | cons b B' =>
    have : b ≠ ' ' := hB b (by simp)
    simp [cutspace, this]

theorem skip_space_block (B rest : Str) (hne : B ≠ []) (hB : ∀ c ∈ B, c ≠ ' ') :
    skip (' ' :: (B ++ rest)) [' '] = some (B ++ rest) := by
  have h := cutspace_block B rest hne hB
  simp only [skip, List.length_singleton, skipFuel]
  simp only [if_true, ne_eq, not_true_eq_false, if_false]
  have e1 : cutspace (' ' :: (B ++ rest)) = B ++ rest := by
    simpa [cutspace] using h
  rw [e1]

theorem skip_comma_space_block (B rest : Str) (hne : B ≠ []) (hB : ∀ c ∈ B, c ≠ ' ') :
    skip (',' :: ' ' :: (B ++ rest)) [',', ' '] = some (B ++ rest) := by
  have h := skip_space_block B rest hne hB
  simp only [skip, List.length_singleton, List.length_cons, List.length_nil] at h ⊢
  simp only [skipFuel]
  simp only [show (',' : Char) ≠ ' ' by decide, if_false, ne_eq, not_true_eq_false]
  exact h

theorem skip_comma_space_fail (v : Str) : skip (' ' :: v) [',', ' '] = none := by
  simp [skip, skipFuel]

theorem parseChunks_step (lit : Str) (std : Std) (rest : Layout) (v v1 v2 : Str)
    (f f1 : Fields) (h1 : skip v lit = some v1) (h2 : parseStd std v1 f = some (v2, f1)) :
    parseChunks (⟨lit, std⟩ :: rest) v f = parseChunks rest v2 f1 := by
  simp [parseChunks, h1, h2]

theorem parseChunks_skip_none (lit : Str) (std : Std) (rest : Layout) (v : Str) (f : Fields)
    (h1 : skip v lit = none) : parseChunks (⟨lit, std⟩ :: rest) v f = none := by
  simp [parseChunks, h1]

theorem parseChunks_std_none (lit : Str) (std : Std) (rest : Layout) (v v1 : Str) (f : Fields)
    (h1 : skip v lit = some v1) (h2 : parseStd std v1 f = none) :
    parseChunks (⟨lit, std⟩ :: rest) v f = none := by
  simp [parseChunks, h1, h2]

theorem parseChunks_done (f : Fields) : parseChunks [] [] f = some f := rfl

theorem parse_of_chunks (l : Layout) (v : Str) (d : Date) (f : Fields)
    (h : parseChunks l v {} = some f) (hy : f.year = d.year) (hm : f.month = some d.month)
    (hdd : f.day = some d.day) (hd : isValidDate d = true) : parse l v = some d := by
  simp only [isValidDate, Bool.and_eq_true, decide_eq_true_eq] at hd
  unfold parse
  rw [h]
  simp only [hy, hm, hdd, Option.getD_some]
  simp
  omega

theorem parse_of_chunks_none (l : Layout) (v : Str) (h : parseChunks l v {} = none) :
    parse l v = none := by
  simp [parse, h]

theorem ne_space_of_not_isSpace (c : Char) (h : isSpace c = false) : c ≠ ' ' := by
  rintro rfl
  exact absurd h (by decide)

theorem digits_ne_space (B : Str) (h : ∀ c ∈ B, isDigit c = true) : ∀ c ∈ B, c ≠ ' ' :=
  fun c hc => ne_space_of_isDigit c (h c hc)

theorem word_ne_space (B : Str) (h : ∀ c ∈ B, isDigit c = false ∧ isSpace c = false) :
    ∀ c ∈ B, c ≠ ' ' :=
  fun c hc => ne_space_of_not_isSpace c (h c hc).2

theorem parseStd_zeroMonth_appendInt (m : Nat) (h1 : 1 ≤ m) (h2 : m ≤ 12) (rest : Str)
    (f : Fields) :
    parseStd .stdZeroMonth (appendInt m 2 ++ rest) f = some (rest, { f with month := some m }) := by
  have h : ¬ (m = 0 ∨ 12 < m) := by omega
  simp [parseStd, getnum_appendInt_two m (by omega), h]

theorem parseStd_zeroDay_appendInt (n : Nat) (hn : n < 100) (rest : Str) (f : Fields) :
    parseStd .stdZeroDay (appendInt n 2 ++ rest) f = some (rest, { f with day := some n }) := by
  simp [parseStd, getnum_appendInt_two n hn]

theorem parseStd_day_appendInt (n : Nat) (hn : n < 100) (c : Char) (rest : Str) (f : Fields)
    (hc : isDigit c = false) :
    parseStd .stdDay (appendInt n 0 ++ c :: rest) f =
      some (c :: rest, { f with day := some n }) := by
  simp [parseStd, getnum_appendInt_zero n hn c rest hc]

theorem parseStd_longMonth_name (m : Nat) (h1 : 1 ≤ m) (h2 : m ≤ 12) (c : Char) (rest : Str)
    (f : Fields) (hc : isLetterFold c = false) :
    parseStd .stdLongMonth (monthLong m ++ c :: rest) f =
      some (c :: rest, { f with month := some m }) := by
  simp [parseStd, lookup_monthLong m h1 h2 c rest hc, Nat.sub_add_cancel h1]

theorem parseStd_month_name (m : Nat) (h1 : 1 ≤ m) (h2 : m ≤ 12) (c : Char) (rest : Str)
    (f : Fields) (hc : isLetterFold c = false) :
    parseStd .stdMonth (monthShort m ++ c :: rest) f =
      some (c :: rest, { f with month := some m }) := by
  simp [parseStd, lookup_monthShort m h1 h2 c rest hc, Nat.sub_add_cancel h1]

theorem parseStd_weekday_name (w : Nat) (hw : w < 7) (c : Char) (rest : Str) (f : Fields)
    (hc : isLetterFold c = false) :
    parseStd .stdLongWeekDay (dayLong w ++ c :: rest) f = some (c :: rest, f) := by
  obtain ⟨⟨i, hi⟩, _, _⟩ := lookup_dayLong w hw c rest hc
  simp [parseStd, hi]

/-- The numeric layout reads back what it wrote. -/
theorem parse_format_layoutISO (d : Date) (hd : isValidDate d = true) :
    parse layoutISO (format layoutISO d) = some d := by
  obtain ⟨hy, hm1, hm2, hd1, hd2⟩ := isValidDate_bounds d hd
  have e : format layoutISO d =
      appendInt d.year 4 ++ '-' :: (appendInt d.month 2 ++ '-' :: (appendInt d.day 2 ++ [])) := rfl
  rw [e]
  refine parse_of_chunks _ _ d ⟨d.year, some d.month, some d.day⟩ ?_ rfl rfl rfl hd
  unfold layoutISO
  rw [parseChunks_step _ _ _ _ _ _ _ _ (skip_nil _) (parseStd_year_appendInt _ hy _ _),
    parseChunks_step _ _ _ _ _ _ _ _ (skip_dash_cons _)
      (parseStd_zeroMonth_appendInt _ hm1 hm2 _ _),
    parseChunks_step _ _ _ _ _ _ _ _ (skip_dash_cons _)
      (parseStd_zeroDay_appendInt _ (by omega) _ _)]
  rfl

/-- A month-first layout with a comma reads back day and year once its month
element has read the name. -/
theorem parse_monthFirst_comma (std : Std) (name : Str) (d : Date) (hd : isValidDate d = true)
    (hstd : ∀ (rest : Str) (f : Fields), parseStd std (name ++ ' ' :: rest) f =
      some (' ' :: rest, { f with month := some d.month })) :
    parse [⟨[], std⟩, ⟨[' '], .stdDay⟩, ⟨[',', ' '], .stdLongYear⟩]
      (name ++ ' ' :: (appendInt d.day 0 ++ ',' :: ' ' :: (appendInt d.year 4 ++ []))) =
        some d := by
  obtain ⟨hy, hm1, hm2, hd1, hd2⟩ := isValidDate_bounds d hd
  refine parse_of_chunks _ _ d ⟨d.year, some d.month, some d.day⟩ ?_ rfl rfl rfl hd
  rw [parseChunks_step _ _ _ _ _ _ _ _ (skip_nil _) (hstd _ _),
    parseChunks_step _ _ _ _ _ _ _ _
      (skip_space_block _ _ (appendInt_block _ _).1 (digits_ne_space _ (appendInt_block _ _).2))
      (parseStd_day_appendInt _ (by omega) ',' _ _ (by decide)),
    parseChunks_step _ _ _ _ _ _ _ _
      (skip_comma_space_block _ _ (appendInt_block _ _).1
        (digits_ne_space _ (appendInt_block _ _).2))
      (parseStd_year_appendInt _ hy _ _)]
  rfl

/-- A month-first layout with a comma does not read a text whose day is
followed by a blank. -/
theorem parse_monthFirst_comma_on_space (std : Std) (name : Str) (n : Nat) (hn : n < 100)
    (rest : Str)
    (hstd : ∀ (X : Str) (f : Fields), parseStd std (name ++ ' ' :: X) f = none ∨
      ∃ f1, parseStd std (name ++ ' ' :: X) f = some (' ' :: X, f1)) :
    parse [⟨[], std⟩, ⟨[' '], .stdDay⟩, ⟨[',', ' '], .stdLongYear⟩]
      (name ++ ' ' :: (appendInt n 0 ++ ' ' :: rest)) = none := by
  apply parse_of_chunks_none
  rcases hstd (appendInt n 0 ++ ' ' :: rest) {} with h | ⟨f1, h⟩
  · exact parseChunks_std_none _ _ _ _ _ _ (skip_nil _) h
  · rw [parseChunks_step _ _ _ _ _ _ _ _ (skip_nil _) h,
      parseChunks_step _ _ _ _ _ _ _ _
        (skip_space_block _ _ (appendInt_block _ _).1
          (digits_ne_space _ (appendInt_block _ _).2))
        (parseStd_day_appendInt _ hn ' ' _ _ (by decide))]
    exact parseChunks_skip_none _ _ _ _ _ (skip_comma_space_fail _)

theorem parse_format_layoutLongMonth (d : Date) (hd : isValidDate d = true) :
    parse layoutLongMonth (format layoutLongMonth d) = some d := by
  obtain ⟨hy, hm1, hm2, hd1, hd2⟩ := isValidDate_bounds d hd
  exact parse_monthFirst_comma .stdLongMonth (monthLong d.month) d hd
    (fun rest f => parseStd_longMonth_name _ hm1 hm2 ' ' rest f (by decide))

theorem parse_format_layoutShortMonthComma (d : Date) (hd : isValidDate d = true) :
    parse layoutShortMonthComma (format layoutShortMonthComma d) = some d := by
  obtain ⟨hy, hm1, hm2, hd1, hd2⟩ := isValidDate_bounds d hd
  exact parse_monthFirst_comma .stdMonth (monthShort d.month) d hd
    (fun rest f => parseStd_month_name _ hm1 hm2 ' ' rest f (by decide))

/-- What the full-month element does with an abbreviated name and a blank. -/
theorem parseStd_longMonth_short (m : Nat) (h1 : 1 ≤ m) (h2 : m ≤ 12) :
    (∀ (X : Str) (f : Fields), parseStd .stdLongMonth (monthShort m ++ ' ' :: X) f = none) ∨
    (∀ (X : Str) (f : Fields), parseStd .stdLongMonth (monthShort m ++ ' ' :: X) f =
      some (' ' :: X, { f with month := some m })) := by
  have h : lookup longMonthNames (monthShort m) = none ∨
      lookup longMonthNames (monthShort m) = some (m - 1, []) := by
    interval_cases m <;> decide
  rcases h with h | h
  · left
    intro X f
    simp [parseStd, lookup_stop _ _ _ _ longMonthNames_letters (show isLetterFold ' ' = false by decide), h]
  · right
    intro X f
    simp [parseStd, lookup_stop _ _ _ _ longMonthNames_letters (show isLetterFold ' ' = false by decide), h,
      Nat.sub_add_cancel h1]

/-- The full-month layout either fails on the abbreviated comma form or reads
the same date. -/
theorem parse_layoutLongMonth_shortComma (d : Date) (hd : isValidDate d = true) :
    parse layoutLongMonth (format layoutShortMonthComma d) = none ∨
      parse layoutLongMonth (format layoutShortMonthComma d) = some d := by
  obtain ⟨hy, hm1, hm2, hd1, hd2⟩ := isValidDate_bounds d hd
  rcases parseStd_longMonth_short d.month hm1 hm2 with h | h
  · left
    apply parse_of_chunks_none
    exact parseChunks_std_none _ _ _ _ _ _ (skip_nil _) (h _ _)
  · right
    exact parse_monthFirst_comma .stdLongMonth (monthShort d.month) d hd h

theorem parse_format_layoutShortMonth (d : Date) (hd : isValidDate d = true) :
    parse layoutShortMonth (format layoutShortMonth d) = some d := by
  obtain ⟨hy, hm1, hm2, hd1, hd2⟩ := isValidDate_bounds d hd
  have e : format layoutShortMonth d =
      monthShort d.month ++ ' ' :: (appendInt d.day 0 ++ ' ' :: (appendInt d.year 4 ++ [])) := rfl
  rw [e]
  refine parse_of_chunks _ _ d ⟨d.year, some d.month, some d.day⟩ ?_ rfl rfl rfl hd
  unfold layoutShortMonth
  rw [parseChunks_step _ _ _ _ _ _ _ _ (skip_nil _)
      (parseStd_month_name _ hm1 hm2 ' ' _ _ (by decide)),
    parseChunks_step _ _ _ _ _ _ _ _
      (skip_space_block _ _ (appendInt_block _ _).1 (digits_ne_space _ (appendInt_block _ _).2))
      (parseStd_day_appendInt _ (by omega) ' ' _ _ (by decide)),
    parseChunks_step _ _ _ _ _ _ _ _
      (skip_space_block _ _ (appendInt_block _ _).1 (digits_ne_space _ (appendInt_block _ _).2))
      (parseStd_year_appendInt _ hy _ _)]
  rfl

theorem parse_comma_layouts_shortMonth (d : Date) (hd : isValidDate d = true) :
    parse layoutLongMonth (format layoutShortMonth d) = none ∧
      parse layoutShortMonthComma (format layoutShortMonth d) = none := by
  obtain ⟨hy, hm1, hm2, hd1, hd2⟩ := isValidDate_bounds d hd
  constructor
  · refine parse_monthFirst_comma_on_space .stdLongMonth (monthShort d.month) d.day (by omega)
      (appendInt d.year 4 ++ []) ?_
    intro X f
    rcases parseStd_longMonth_short d.month hm1 hm2 with h | h
    · exact Or.inl (h X f)
    · exact Or.inr ⟨_, h X f⟩
  · refine parse_monthFirst_comma_on_space .stdMonth (monthShort d.month) d.day (by omega)
      (appendInt d.year 4 ++ []) ?_
    intro X f
    exact Or.inr ⟨_, parseStd_month_name _ hm1 hm2 ' ' X f (by decide)⟩

theorem parse_format_layoutWeekday (d : Date) (hd : isValidDate d = true) :
    parse layoutWeekday (format layoutWeekday d) = some d := by
  obtain ⟨hy, hm1, hm2, hd1, hd2⟩ := isValidDate_bounds d hd
  have e : format layoutWeekday d =
      dayLong (weekday d) ++ ',' :: ' ' :: (monthLong d.month ++ ' ' :: (appendInt d.day 0 ++
        ',' :: ' ' :: (appendInt d.year 4 ++ []))) := rfl
  rw [e]
  refine parse_of_chunks _ _ d ⟨d.year, some d.month, some d.day⟩ ?_ rfl rfl rfl hd
  unfold layoutWeekday
  rw [parseChunks_step _ _ _ _ _ _ _ _ (skip_nil _)
      (parseStd_weekday_name _ (weekday_lt d) ',' _ _ (by decide)),
    parseChunks_step _ _ _ _ _ _ _ _
      (skip_comma_space_block _ _ (monthLong_word _ hm1 hm2).1
        (word_ne_space _ (monthLong_word _ hm1 hm2).2))
      (parseStd_longMonth_name _ hm1 hm2 ' ' _ _ (by decide)),
    parseChunks_step _ _ _ _ _ _ _ _
      (skip_space_block _ _ (appendInt_block _ _).1 (digits_ne_space _ (appendInt_block _ _).2))
      (parseStd_day_appendInt _ (by omega) ',' _ _ (by decide)),
    parseChunks_step _ _ _ _ _ _ _ _
      (skip_comma_space_block _ _ (appendInt_block _ _).1
        (digits_ne_space _ (appendInt_block _ _).2))
      (parseStd_year_appendInt _ hy _ _)]
  rfl

/-- A day-first layout reads back month and year once its day element has read
the day. -/
theorem parse_dayFirst (std : Std) (D : Str) (d : Date) (hd : isValidDate d = true)
    (hstd : ∀ (rest : Str) (f : Fields), parseStd std (D ++ ' ' :: rest) f =
      some (' ' :: rest, { f with day := some d.day })) :
    parse [⟨[], std⟩, ⟨[' '], .stdMonth⟩, ⟨[' '], .stdLongYear⟩]
      (D ++ ' ' :: (monthShort d.month ++ ' ' :: (appendInt d.year 4 ++ []))) = some d := by
  obtain ⟨hy, hm1, hm2, hd1, hd2⟩ := isValidDate_bounds d hd
  refine parse_of_chunks _ _ d ⟨d.year, some d.month, some d.day⟩ ?_ rfl rfl rfl hd
  rw [parseChunks_step _ _ _ _ _ _ _ _ (skip_nil _) (hstd _ _),
    parseChunks_step _ _ _ _ _ _ _ _
      (skip_space_block _ _ (monthShort_word _ hm1 hm2).1
        (word_ne_space _ (monthShort_word _ hm1 hm2).2))
      (parseStd_month_name _ hm1 hm2 ' ' _ _ (by decide)),
    parseChunks_step _ _ _ _ _ _ _ _
      (skip_space_block _ _ (appendInt_block _ _).1 (digits_ne_space _ (appendInt_block _ _).2))
      (parseStd_year_appendInt _ hy _ _)]
  rfl

theorem parse_format_layoutZeroDay (d : Date) (hd : isValidDate d = true) :
    parse layoutZeroDay (format layoutZeroDay d) = some d := by
  obtain ⟨hy, hm1, hm2, hd1, hd2⟩ := isValidDate_bounds d hd
  exact parse_dayFirst .stdZeroDay (appendInt d.day 2) d hd
    (fun rest f => parseStd_zeroDay_appendInt _ (by omega) _ f)

theorem parse_format_layoutDay (d : Date) (hd : isValidDate d = true) :
    parse layoutDay (format layoutDay d) = some d := by
  obtain ⟨hy, hm1, hm2, hd1, hd2⟩ := isValidDate_bounds d hd
  exact parse_dayFirst .stdDay (appendInt d.day 0) d hd
    (fun rest f => parseStd_day_appendInt _ (by omega) ' ' rest f (by decide))

/-- The zero-padded layout either fails on the unpadded form or reads the same
date. -/
theorem parse_layoutZeroDay_day (d : Date) (hd : isValidDate d = true) :
    parse layoutZeroDay (format layoutDay d) = none ∨
      parse layoutZeroDay (format layoutDay d) = some d := by
  obtain ⟨hy, hm1, hm2, hd1, hd2⟩ := isValidDate_bounds d hd
  have hg := fun rest => getnum_appendInt_zero_fixed d.day (by omega) ' ' rest (by decide)
  by_cases h : d.day < 10
  · left
    apply parse_of_chunks_none
    refine parseChunks_std_none _ _ _ _ _ _ (skip_nil _) ?_
    have e : format layoutDay d =
        appendInt d.day 0 ++ ' ' :: (monthShort d.month ++ ' ' :: (appendInt d.year 4 ++ [])) :=
      rfl
    rw [e]
    simp [parseStd, hg, h]
  · right
    refine parse_dayFirst .stdZeroDay (appendInt d.day 0) d hd ?_
    intro rest f
    simp [parseStd, hg, h]

theorem parse_layoutISO_of_word (B rest : Str) (hne : B ≠ [])
    (hB : ∀ c ∈ B, isDigit c = false ∧ isSpace c = false) :
    parse layoutISO (B ++ rest) = none := by
  cases B with
  | nil => exact absurd rfl hne
  | cons b B' =>
    have hb : isDigit b = false := (hB b (by simp)).1
    apply parse_of_chunks_none
    refine parseChunks_std_none _ _ _ _ _ _ (skip_nil _) ?_
    simp [parseStd, isDigitAt, hb]

theorem atoi_none_of_mem (s : Str) (c : Char) (hc : c ∈ s) (hd : isDigit c = false) :
    atoi s = none := by
  cases h : atoi s with
  | none => rfl
  | some y =>
    have := atoi_digits s y h c hc
    rw [hd] at this
    exact absurd this (by decide)

theorem parse_layoutISO_of_day (n w : Nat) (hn : n < 100) (hw : w = 0 ∨ w = 2) (rest : Str) :
    parse layoutISO (appendInt n w ++ ' ' :: rest) = none := by
  apply parse_of_chunks_none
  refine parseChunks_std_none _ _ _ _ _ _ (skip_nil _) ?_
  have key : ∀ v : Str, ' ' ∈ v.take 4 → parseStd .stdLongYear v {} = none := by
    intro v hv
    simp only [parseStd]
    split
    · rfl
    · rw [atoi_none_of_mem _ ' ' hv (by decide)]
  apply key
  have h2 : appendInt n 2 = [digitChar (n / 10), digitChar (n % 10)] := appendInt_two n hn
  rcases hw with rfl | rfl
  · by_cases h : n < 10
    · rw [appendInt_zero_small n h]
      simp
    · rw [appendInt_zero_big n (by omega) hn]
      simp
  · rw [h2]
    simp

theorem parse_nameFirst_of_digits (l : Layout) (ds rest : Str) (hne : ds ≠ [])
    (hds : ∀ c ∈ ds, isDigit c = true)
    (hl : l = layoutLongMonth ∨ l = layoutShortMonthComma ∨ l = layoutShortMonth ∨
      l = layoutWeekday) :
    parse l (ds ++ rest) = none := by
  cases ds with
  | nil => exact absurd rfl hne
  | cons c ds' =>
    have hc : isLetterFold c = false := isLetterFold_of_isDigit c (hds c (by simp))
    rw [List.cons_append]
    rcases hl with rfl | rfl | rfl | rfl
    · refine parse_of_lookup_none _ _ .stdLongMonth _ rfl ?_
      simp [parseStd,
        lookup_of_nonletter longMonthNames c _ longMonthNames_letters (by decide) hc]
    · refine parse_of_lookup_none _ _ .stdMonth _ rfl ?_
      simp [parseStd,
        lookup_of_nonletter shortMonthNames c _ shortMonthNames_letters (by decide) hc]
    · refine parse_of_lookup_none _ _ .stdMonth _ rfl ?_
      simp [parseStd,
        lookup_of_nonletter shortMonthNames c _ shortMonthNames_letters (by decide) hc]
    · refine parse_of_lookup_none _ _ .stdLongWeekDay _ rfl ?_
      simp [parseStd,
        lookup_of_nonletter longDayNames c _ longDayNames_letters (by decide) hc]

theorem parse_monthFirst_of_weekday (l : Layout) (w : Nat) (hw : w < 7) (rest : Str)
    (hl : l = layoutLongMonth ∨ l = layoutShortMonthComma ∨ l = layoutShortMonth) :
    parse l (dayLong w ++ ',' :: rest) = none := by
  obtain ⟨_, h1, h2⟩ := lookup_dayLong w hw ',' rest (by decide)
  rcases hl with rfl | rfl | rfl
  · refine parse_of_lookup_none _ _ .stdLongMonth _ rfl ?_
    simp [parseStd, h1]
  · refine parse_of_lookup_none _ _ .stdMonth _ rfl ?_
    simp [parseStd, h2]
  · refine parse_of_lookup_none _ _ .stdMonth _ rfl ?_
    simp [parseStd, h2]

/-- Each of the seven layouts, applied to a valid date written in it, gives
that date back as the first successful parse of the code's layout list. -/
theorem parseFirst_format (d : Date) (hd : isValidDate d = true) (l : Layout)
    (hl : l ∈ dateFormats) : parseFirst dateFormats (format l d) = some d := by
  obtain ⟨hy, hm1, hm2, hd1, hd2⟩ := isValidDate_bounds d hd
  have hML := monthLong_word d.month hm1 hm2
  have hMS := monthShort_word d.month hm1 hm2
  have hDL := dayLong_word (weekday d) (weekday_lt d)
  simp only [dateFormats, List.mem_cons, List.mem_singleton, List.not_mem_nil, or_false] at hl
  rcases hl with rfl | rfl | rfl | rfl | rfl | rfl | rfl
  · simp only [dateFormats, parseFirst, parse_format_layoutISO d hd]
  · have h0 : parse layoutISO (format layoutLongMonth d) = none :=
      parse_layoutISO_of_word (monthLong d.month) _ hML.1 hML.2
    simp only [dateFormats, parseFirst, h0, parse_format_layoutLongMonth d hd]
  · have h0 : parse layoutISO (format layoutShortMonthComma d) = none :=
      parse_layoutISO_of_word (monthShort d.month) _ hMS.1 hMS.2
    rcases parse_layoutLongMonth_shortComma d hd with h1 | h1
    · simp only [dateFormats, parseFirst, h0, h1, parse_format_layoutShortMonthComma d hd]
    · simp only [dateFormats, parseFirst, h0, h1]
  · have h0 : parse layoutISO (format layoutShortMonth d) = none :=
      parse_layoutISO_of_word (monthShort d.month) _ hMS.1 hMS.2
    obtain ⟨h1, h2⟩ := parse_comma_layouts_shortMonth d hd
    simp only [dateFormats, parseFirst, h0, h1, h2, parse_format_layoutShortMonth d hd]
  · have h0 : parse layoutISO (format layoutWeekday d) = none :=
      parse_layoutISO_of_word (dayLong (weekday d)) _ hDL.1 hDL.2
    have h1 : parse layoutLongMonth (format layoutWeekday d) = none :=
      parse_monthFirst_of_weekday _ (weekday d) (weekday_lt d) _ (Or.inl rfl)
    have h2 : parse layoutShortMonthComma (format layoutWeekday d) = none :=
      parse_monthFirst_of_weekday _ (weekday d) (weekday_lt d) _ (Or.inr (Or.inl rfl))
    have h3 : parse layoutShortMonth (format layoutWeekday d) = none :=
      parse_monthFirst_of_weekday _ (weekday d) (weekday_lt d) _ (Or.inr (Or.inr rfl))
    simp only [dateFormats, parseFirst, h0, h1, h2, h3, parse_format_layoutWeekday d hd]
  · have hb := appendInt_block d.day 2
    have h0 : parse layoutISO (format layoutZeroDay d) = none :=
      parse_layoutISO_of_day d.day 2 (by omega) (Or.inr rfl) _
    have h1 : parse layoutLongMonth (format layoutZeroDay d) = none :=
      parse_nameFirst_of_digits _ (appendInt d.day 2) _ hb.1 hb.2 (Or.inl rfl)
    have h2 : parse layoutShortMonthComma (format layoutZeroDay d) = none :=
      parse_nameFirst_of_digits _ (appendInt d.day 2) _ hb.1 hb.2 (Or.inr (Or.inl rfl))
    have h3 : parse layoutShortMonth (format layoutZeroDay d) = none :=
      parse_nameFirst_of_digits _ (appendInt d.day 2) _ hb.1 hb.2 (Or.inr (Or.inr (Or.inl rfl)))
    have h4 : parse layoutWeekday (format layoutZeroDay d) = none :=
      parse_nameFirst_of_digits _ (appendInt d.day 2) _ hb.1 hb.2 (Or.inr (Or.inr (Or.inr rfl)))
    simp only [dateFormats, parseFirst, h0, h1, h2, h3, h4, parse_format_layoutZeroDay d hd]
  · have hb := appendInt_block d.day 0
    have h0 : parse layoutISO (format layoutDay d) = none :=
      parse_layoutISO_of_day d.day 0 (by omega) (Or.inl rfl) _
    have h1 : parse layoutLongMonth (format layoutDay d) = none :=
      parse_nameFirst_of_digits _ (appendInt d.day 0) _ hb.1 hb.2 (Or.inl rfl)
    have h2 : parse layoutShortMonthComma (format layoutDay d) = none :=
      parse_nameFirst_of_digits _ (appendInt d.day 0) _ hb.1 hb.2 (Or.inr (Or.inl rfl))
    have h3 : parse layoutShortMonth (format layoutDay d) = none :=
      parse_nameFirst_of_digits _ (appendInt d.day 0) _ hb.1 hb.2 (Or.inr (Or.inr (Or.inl rfl)))
    have h4 : parse layoutWeekday (format layoutDay d) = none :=
      parse_nameFirst_of_digits _ (appendInt d.day 0) _ hb.1 hb.2 (Or.inr (Or.inr (Or.inr rfl)))
    rcases parse_layoutZeroDay_day d hd with h5 | h5
    · simp only [dateFormats, parseFirst, h0, h1, h2, h3, h4, h5, parse_format_layoutDay d hd]
    · simp only [dateFormats, parseFirst, h0, h1, h2, h3, h4, h5]

theorem strip_word_block : ∀ (B : Str) (pw : Bool) (c : Char) (rest : Str),
    (∀ x ∈ B, isDigit x = false) → isWordChar c = false →
    strip pw (B ++ c :: rest) = B ++ c :: strip false rest
  | [], pw, c, rest, _, hc => by
    rw [List.nil_append, strip_cons_of_not_digit pw c rest (isDigit_of_nonword c hc), hc]
    rfl
  | b :: B, pw, c, rest, hB, hc => by
    have ih := strip_word_block B (isWordChar b) c rest
      (fun x hx => hB x (List.mem_cons_of_mem _ hx)) hc
    have h1 : strip pw (b :: (B ++ c :: rest)) = b :: strip (isWordChar b) (B ++ c :: rest) :=
      strip_cons_of_not_digit pw b _ (hB b (by simp))
    rw [ih] at h1
    exact h1

theorem strip_nonword_cons (pw : Bool) (c : Char) (rest : Str) (hc : isWordChar c = false) :
    strip pw (c :: rest) = c :: strip false rest :=
  strip_word_block [] pw c rest (by simp) hc

theorem strip_digit_block (ds : Str) (pw : Bool) (c : Char) (rest : Str) (hne : ds ≠ [])
    (hds : ∀ x ∈ ds, isDigit x = true) (hc : isWordChar c = false) :
    strip pw (ds ++ c :: rest) = ds ++ c :: strip false rest := by
  rw [strip_digits_nonword ds pw (c :: rest) hne hds hc, strip_true_cons, hc]

theorem strip_digits_end (ds : Str) (pw : Bool) (hds : ∀ x ∈ ds, isDigit x = true) :
    strip pw (ds ++ []) = ds ++ [] := by
  rw [List.append_nil]
  exact strip_letterFree ds pw (fun c hc _ => hds c hc)

/-- Trimming the header `"# " ++ r` gives `r` back when `r` begins and ends
with a block free of white space. -/
theorem trim_render (r B rest pre Y : Str) (h1 : r = B ++ rest) (hB1 : B ≠ [])
    (hB2 : ∀ c ∈ B, isSpace c = false) (h2 : r = pre ++ Y) (hY1 : Y ≠ [])
    (hY2 : ∀ c ∈ Y, isSpace c = false) :
    stringsTrimSpace (stringsTrimLeft ('#' :: ' ' :: r) '#') = r := by
  have e1 : stringsTrimLeft ('#' :: ' ' :: r) '#' = ' ' :: r := by
    simp [stringsTrimLeft, List.dropWhile_cons]
  have e2 : (' ' :: r).dropWhile isSpace = r := by
    rw [List.dropWhile_cons, if_pos (by decide), h1]
    cases B with
    | nil => exact absurd rfl hB1
    | cons b B' =>
      have hb : isSpace b = false := hB2 b (by simp)
      simp [List.dropWhile_cons, hb]
  rw [stringsTrimSpace_eq, e1, e2, h2]
  obtain ⟨Y', z, rfl⟩ : ∃ Y' z, Y = Y' ++ [z] := by
    rcases eq_nil_or_concat_of_getLast? Y (fun _ => True) (fun _ _ => trivial) with
      h | ⟨p, c, h, _⟩
    · exact absurd h hY1
    · exact ⟨p, c, h⟩
  have hz : isSpace z = false := hY2 z (by simp)
  have e3 : pre ++ (Y' ++ [z]) = (pre ++ Y') ++ z :: [] := by simp
  rw [e3, rdropWhile_append_stop _ _ z [] hz]
  rfl

theorem digits_not_space (B : Str) (h : ∀ c ∈ B, isDigit c = true) :
    ∀ c ∈ B, isSpace c = false :=
  fun c hc => isSpace_of_isDigit c (h c hc)

/-- A valid date written in one of the seven layouts is its own cleaned title:
trimming removes only the marker and the blank, and there is no ordinal to
remove. -/
theorem cleanTitle_format (d : Date) (hd : isValidDate d = true) (l : Layout)
    (hl : l ∈ dateFormats) : cleanTitle ('#' :: ' ' :: format l d) = format l d := by
  obtain ⟨hy, hm1, hm2, hd1, hd2⟩ := isValidDate_bounds d hd
  have hML := monthLong_word d.month hm1 hm2
  have hMS := monthShort_word d.month hm1 hm2
  have hDL := dayLong_word (weekday d) (weekday_lt d)
  have hY := appendInt_block d.year 4
  have hD := appendInt_block d.day 0
  have hD2 := appendInt_block d.day 2
  have hM2 := appendInt_block d.month 2
  have hsp : isWordChar ' ' = false := by decide
  have hco : isWordChar ',' = false := by decide
  have hda : isWordChar '-' = false := by decide
  rw [cleanTitle_eq]
  simp only [dateFormats, List.mem_cons, List.mem_singleton, List.not_mem_nil, or_false] at hl
  rcases hl with rfl | rfl | rfl | rfl | rfl | rfl | rfl
  · have e : format layoutISO d = appendInt d.year 4 ++ '-' :: (appendInt d.month 2 ++
        '-' :: (appendInt d.day 2 ++ [])) := rfl
    rw [trim_render _ (appendInt d.year 4) _
      (appendInt d.year 4 ++ '-' :: (appendInt d.month 2 ++ ['-'])) (appendInt d.day 2) e
      hY.1 (digits_not_space _ hY.2) (by rw [e]; simp) hD2.1 (digits_not_space _ hD2.2), e,
      strip_digit_block _ _ _ _ hY.1 hY.2 hda, strip_digit_block _ _ _ _ hM2.1 hM2.2 hda,
      strip_digits_end _ _ hD2.2]
  · have e : format layoutLongMonth d = monthLong d.month ++ ' ' :: (appendInt d.day 0 ++
        ',' :: ' ' :: (appendInt d.year 4 ++ [])) := rfl
    rw [trim_render _ (monthLong d.month) _
      (monthLong d.month ++ ' ' :: (appendInt d.day 0 ++ [',', ' '])) (appendInt d.year 4) e
      hML.1 (fun c hc => (hML.2 c hc).2) (by rw [e]; simp) hY.1 (digits_not_space _ hY.2), e,
      strip_word_block _ _ _ _ (fun c hc => (hML.2 c hc).1) hsp,
      strip_digit_block _ _ _ _ hD.1 hD.2 hco, strip_nonword_cons _ _ _ hsp,
      strip_digits_end _ _ hY.2]
  · have e : format layoutShortMonthComma d = monthShort d.month ++ ' ' :: (appendInt d.day 0 ++
        ',' :: ' ' :: (appendInt d.year 4 ++ [])) := rfl
    rw [trim_render _ (monthShort d.month) _
      (monthShort d.month ++ ' ' :: (appendInt d.day 0 ++ [',', ' '])) (appendInt d.year 4) e
      hMS.1 (fun c hc => (hMS.2 c hc).2) (by rw [e]; simp) hY.1 (digits_not_space _ hY.2), e,
      strip_word_block _ _ _ _ (fun c hc => (hMS.2 c hc).1) hsp,
      strip_digit_block _ _ _ _ hD.1 hD.2 hco, strip_nonword_cons _ _ _ hsp,
      strip_digits_end _ _ hY.2]
  · have e : format layoutShortMonth d = monthShort d.month ++ ' ' :: (appendInt d.day 0 ++
        ' ' :: (appendInt d.year 4 ++ [])) := rfl
    rw [trim_render _ (monthShort d.month) _
      (monthShort d.month ++ ' ' :: (appendInt d.day 0 ++ [' '])) (appendInt d.year 4) e
      hMS.1 (fun c hc => (hMS.2 c hc).2) (by rw [e]; simp) hY.1 (digits_not_space _ hY.2), e,
      strip_word_block _ _ _ _ (fun c hc => (hMS.2 c hc).1) hsp,
      strip_digit_block _ _ _ _ hD.1 hD.2 hsp, strip_digits_end _ _ hY.2]
  · have e : format layoutWeekday d = dayLong (weekday d) ++ ',' :: ' ' :: (monthLong d.month ++
        ' ' :: (appendInt d.day 0 ++ ',' :: ' ' :: (appendInt d.year 4 ++ []))) := rfl
    rw [trim_render _ (dayLong (weekday d)) _
      (dayLong (weekday d) ++ ',' :: ' ' :: (monthLong d.month ++
        ' ' :: (appendInt d.day 0 ++ [',', ' ']))) (appendInt d.year 4) e
      hDL.1 (fun c hc => (hDL.2 c hc).2) (by rw [e]; simp) hY.1 (digits_not_space _ hY.2), e,
      strip_word_block _ _ _ _ (fun c hc => (hDL.2 c hc).1) hco,
      strip_nonword_cons _ _ _ hsp,
      strip_word_block _ _ _ _ (fun c hc => (hML.2 c hc).1) hsp,
      strip_digit_block _ _ _ _ hD.1 hD.2 hco, strip_nonword_cons _ _ _ hsp,
      strip_digits_end _ _ hY.2]
  · have e : format layoutZeroDay d = appendInt d.day 2 ++ ' ' :: (monthShort d.month ++
        ' ' :: (appendInt d.year 4 ++ [])) := rfl
    rw [trim_render _ (appendInt d.day 2) _
      (appendInt d.day 2 ++ ' ' :: (monthShort d.month ++ [' '])) (appendInt d.year 4) e
      hD2.1 (digits_not_space _ hD2.2) (by rw [e]; simp) hY.1 (digits_not_space _ hY.2), e,
      strip_digit_block _ _ _ _ hD2.1 hD2.2 hsp,
      strip_word_block _ _ _ _ (fun c hc => (hMS.2 c hc).1) hsp, strip_digits_end _ _ hY.2]
  · have e : format layoutDay d = appendInt d.day 0 ++ ' ' :: (monthShort d.month ++
        ' ' :: (appendInt d.year 4 ++ [])) := rfl
    rw [trim_render _ (appendInt d.day 0) _
      (appendInt d.day 0 ++ ' ' :: (monthShort d.month ++ [' '])) (appendInt d.year 4) e
      hD.1 (digits_not_space _ hD.2) (by rw [e]; simp) hY.1 (digits_not_space _ hY.2), e,
      strip_digit_block _ _ _ _ hD.1 hD.2 hsp,
      strip_word_block _ _ _ _ (fun c hc => (hMS.2 c hc).1) hsp, strip_digits_end _ _ hY.2]

/-- The reference date 2006-01-02 written in each layout is the layout string
itself, in the order of `dateFormats`. -/
theorem format_reference_date :
    dateFormats.map (fun l => format l ⟨2006, 1, 2⟩) =
      ["2006-01-02", "January 2, 2006", "Jan 2, 2006", "Jan 2 2006", "Monday, January 2, 2006",
        "02 Jan 2006", "2 Jan 2006"].map String.toList := by
  decide

/-- C3: for every valid calendar date with a year in 0000..9999 and each of the
seven supported layouts, `extractDateFromHeader` applied to "# " followed by
the date written in that layout returns the date in canonical form;
"# January 2, 2024" and "# 2nd Jan 2024" both give "2024-01-02". -/
theorem extractDateFromHeader_format :
    (∀ (d : Date) (l : Layout), isValidDate d = true → l ∈ dateFormats →
      extractDateFromHeader ('#' :: ' ' :: format l d) = formatISO d) ∧
    extractDateFromHeader "# January 2, 2024".toList = "2024-01-02".toList ∧
    extractDateFromHeader "# 2nd Jan 2024".toList = "2024-01-02".toList := by
  refine ⟨?_, by decide, by decide⟩
  intro d l hd hl
  unfold extractDateFromHeader headerDate
  rw [cleanTitle_format d hd l hl, parseFirst_format d hd l hl]

/-- Witness for C3: 2024-01-02 is a valid date, the weekday layout writes it as
"Tuesday, January 2, 2024", and the header made of it gives "2024-01-02". -/
theorem extractDateFromHeader_format_witness :
    isValidDate ⟨2024, 1, 2⟩ = true ∧ layoutWeekday ∈ dateFormats ∧
    format layoutWeekday ⟨2024, 1, 2⟩ = "Tuesday, January 2, 2024".toList ∧
    extractDateFromHeader ('#' :: ' ' :: format layoutWeekday ⟨2024, 1, 2⟩) =
      formatISO ⟨2024, 1, 2⟩ ∧
    formatISO ⟨2024, 1, 2⟩ = "2024-01-02".toList :=
  ⟨by decide, by decide, by decide,
    extractDateFromHeader_format.1 ⟨2024, 1, 2⟩ layoutWeekday (by decide) (by decide),
    by decide⟩

/-! ## Canonical results -/

theorem isCanonical_formatISO (d : Date) (hd : isValidDate d = true) :
    isCanonical (formatISO d) = true := by
  obtain ⟨hy, hm1, hm2, hd1, hd2⟩ := isValidDate_bounds d hd
  have hv := hd
  simp only [isValidDate, Bool.and_eq_true, decide_eq_true_eq] at hv
  rw [formatISO_eq d hy (by omega) (by omega)]
  have ey : ((digitVal (digitChar (d.year / 1000)) * 10 + digitVal (digitChar (d.year / 100 % 10))) *
      10 + digitVal (digitChar (d.year / 10 % 10))) * 10 + digitVal (digitChar (d.year % 10)) =
      d.year := by
    rw [digitVal_digitChar _ (by omega), digitVal_digitChar _ (by omega),
      digitVal_digitChar _ (by omega), digitVal_digitChar _ (by omega)]
    omega
  have em : digitVal (digitChar (d.month / 10)) * 10 + digitVal (digitChar (d.month % 10)) =
      d.month := by
    rw [digitVal_digitChar _ (by omega), digitVal_digitChar _ (by omega)]
    omega
  have ed : digitVal (digitChar (d.day / 10)) * 10 + digitVal (digitChar (d.day % 10)) =
      d.day := by
    rw [digitVal_digitChar _ (by omega), digitVal_digitChar _ (by omega)]
    omega
  simp only [isCanonical, isDigit_digitChar, ey, em, ed, Bool.true_and, beq_self_eq_true,
    Bool.and_eq_true, decide_eq_true_eq]
  omega

/-- C11: every non-empty result of `extractDateFromHeader` is in canonical form:
exactly ten characters, a four-digit year, a hyphen, a two-digit month in
01..12, a hyphen, and a two-digit day that exists in that month of that
year. -/
theorem extractDateFromHeader_canonical (headerLine : Str)
    (h : extractDateFromHeader headerLine ≠ []) :
    isCanonical (extractDateFromHeader headerLine) = true ∧
      (extractDateFromHeader headerLine).length = 10 := by
  rcases extractDateFromHeader_cases headerLine with ⟨_, h0⟩ | ⟨d, _, hv, hd⟩
  · exact absurd h0 h
  · rw [hd]
    refine ⟨isCanonical_formatISO d hv, ?_⟩
    obtain ⟨hy, hm1, hm2, hd1, hd2⟩ := isValidDate_bounds d hv
    rw [formatISO_eq d hy (by omega) (by omega)]
    rfl

/-- Witness for C11: "# 29 Feb 2024" gives a non-empty result, and that result
"2024-02-29" is canonical. -/
theorem extractDateFromHeader_canonical_witness :
    extractDateFromHeader "# 29 Feb 2024".toList = "2024-02-29".toList ∧
    isCanonical (extractDateFromHeader "# 29 Feb 2024".toList) = true ∧
    (extractDateFromHeader "# 29 Feb 2024".toList).length = 10 ∧
    isCanonical "2023-02-29".toList = false :=
  ⟨by decide, (extractDateFromHeader_canonical "# 29 Feb 2024".toList (by decide)).1,
    (extractDateFromHeader_canonical "# 29 Feb 2024".toList (by decide)).2, by decide⟩

/-! ## The whole tool -/

/-- What `processMarkdownFile` appends for a document: nothing, or its blocks
and one newline. -/
theorem processMarkdownFile_eq_append (filePath content startDate endDate out : Str) :
    processMarkdownFile filePath content startDate endDate out =
      out ++ processMarkdownFile filePath content startDate endDate [] := by
  unfold processMarkdownFile
  rw [processLines_eq, processLines_eq]
  split <;> simp

theorem walkStep_eq_append (startDate endDate out : Str) (e : Entry) :
    walkStep startDate endDate out e = out ++ walkStep startDate endDate [] e := by
  unfold walkStep
  split
  · simp
  · split
    · exact processMarkdownFile_eq_append _ _ _ _ _
    · simp

theorem foldl_walkStep_eq_append (startDate endDate : Str) :
    ∀ (entries : List Entry) (out : Str),
      entries.foldl (walkStep startDate endDate) out =
        out ++ entries.foldl (walkStep startDate endDate) []
  | [], out => by simp
  | e :: rest, out => by
    rw [List.foldl_cons, List.foldl_cons, foldl_walkStep_eq_append startDate endDate rest,
      foldl_walkStep_eq_append startDate endDate rest (walkStep startDate endDate [] e),
      walkStep_eq_append startDate endDate out e, List.append_assoc]

theorem runMain_append_eq (flagStartDate flagEndDate currentDate : Str)
    (entries : List Entry) (out : Str) :
    runMain true flagStartDate flagEndDate currentDate entries out =
      out ++ runMain true flagStartDate flagEndDate currentDate entries [] := by
  unfold runMain
  simp only [Bool.not_true, Bool.false_eq_true, if_false]
  exact foldl_walkStep_eq_append _ _ _ _

theorem emittedBlocks_append (startDate endDate : Str) (a b : List Entry) :
    emittedBlocks startDate endDate (a ++ b) =
      emittedBlocks startDate endDate a ++ emittedBlocks startDate endDate b := by
  induction a with
  | nil => rfl
  | cons e rest ih => simp [emittedBlocks, ih]

theorem runMain_append_entries (flagStartDate flagEndDate currentDate : Str)
    (a b : List Entry) (out : Str) :
    runMain true flagStartDate flagEndDate currentDate (a ++ b) out =
      runMain true flagStartDate flagEndDate currentDate b
        (runMain true flagStartDate flagEndDate currentDate a out) := by
  unfold runMain
  simp [List.foldl_append]

theorem walkStep_eq_blocks (startDate endDate out : Str) (e : Entry) :
    walkStep startDate endDate out e =
      if (emittedBlocks startDate endDate [e]).isEmpty then out
      else out ++ ((emittedBlocks startDate endDate [e]).flatten ++ ['\n']) := by
  unfold walkStep
  simp only [emittedBlocks, List.append_nil]
  split
  · rfl
  · split
    · unfold processMarkdownFile
      exact processLines_eq _ _ _ _ _
    · rfl

theorem emittedBlocks_eq_flatten (startDate endDate : Str) (entries : List Entry) :
    emittedBlocks startDate endDate entries =
      (entries.map (fun e => emittedBlocks startDate endDate [e])).flatten := by
  induction entries with
  | nil => rfl
  | cons e rest ih =>
    rw [List.map_cons, List.flatten_cons, ← ih]
    simp [emittedBlocks]

theorem foldl_walkStep_eq_blocks (startDate endDate : Str) :
    ∀ (entries : List Entry) (out : Str),
      entries.foldl (walkStep startDate endDate) out =
        out ++ (entries.map (fun e =>
          if (emittedBlocks startDate endDate [e]).isEmpty then []
          else (emittedBlocks startDate endDate [e]).flatten ++ ['\n'])).flatten
  | [], out => by simp
  | e :: rest, out => by
    rw [List.foldl_cons, foldl_walkStep_eq_blocks startDate endDate rest,
      walkStep_eq_blocks startDate endDate out e, List.map_cons, List.flatten_cons]
    split <;> simp

theorem runMain_append_eq_blocks (flagStartDate flagEndDate currentDate : Str)
    (entries : List Entry) (out : Str) :
    runMain true flagStartDate flagEndDate currentDate entries out =
      out ++ (entries.map (fun e =>
        if (emittedBlocks (defaultDate flagStartDate currentDate)
            (defaultDate flagEndDate currentDate) [e]).isEmpty then []
        else (emittedBlocks (defaultDate flagStartDate currentDate)
            (defaultDate flagEndDate currentDate) [e]).flatten ++ ['\n'])).flatten := by
  unfold runMain
  simp only [Bool.not_true, Bool.false_eq_true, if_false]
  exact foldl_walkStep_eq_blocks _ _ _ _

/-- C12: append accumulation.  `processMarkdownFile` only appends, so the
previous output is a prefix of the new one.  A run in append mode leaves the
previous content in place and appends, for each scanned document in traversal
order that emits blocks, these blocks and one newline; the emitted blocks of
the run are those of its documents, one after the other.  So a second run over
the same documents and range keeps what the first run left and appends the
same blocks a second time: the output is that of one run over the documents
listed twice, and the blocks written by the two runs are the blocks of one
run, twice.  One document with one matching header shows it: one block after
the first run, the same block twice after the second. -/
theorem append_mode_accumulates :
    (∀ filePath content startDate endDate out : Str,
      out <+: processMarkdownFile filePath content startDate endDate out) ∧
    (∀ (flagStartDate flagEndDate currentDate : Str) (entries : List Entry) (out : Str),
      runMain true flagStartDate flagEndDate currentDate entries out =
        out ++ (entries.map (fun e =>
          if (emittedBlocks (defaultDate flagStartDate currentDate)
              (defaultDate flagEndDate currentDate) [e]).isEmpty then []
          else (emittedBlocks (defaultDate flagStartDate currentDate)
              (defaultDate flagEndDate currentDate) [e]).flatten ++ ['\n'])).flatten ∧
      runMain true flagStartDate flagEndDate currentDate entries
          (runMain true flagStartDate flagEndDate currentDate entries out) =
        runMain true flagStartDate flagEndDate currentDate entries out ++
          (entries.map (fun e =>
            if (emittedBlocks (defaultDate flagStartDate currentDate)
                (defaultDate flagEndDate currentDate) [e]).isEmpty then []
            else (emittedBlocks (defaultDate flagStartDate currentDate)
                (defaultDate flagEndDate currentDate) [e]).flatten ++ ['\n'])).flatten ∧
      runMain true flagStartDate flagEndDate currentDate entries out <+:
          runMain true flagStartDate flagEndDate currentDate entries
            (runMain true flagStartDate flagEndDate currentDate entries out) ∧
      runMain true flagStartDate flagEndDate currentDate entries
          (runMain true flagStartDate flagEndDate currentDate entries out) =
        out ++ runMain true flagStartDate flagEndDate currentDate entries [] ++
          runMain true flagStartDate flagEndDate currentDate entries [] ∧
      runMain true flagStartDate flagEndDate currentDate entries
          (runMain true flagStartDate flagEndDate currentDate entries out) =
        runMain true flagStartDate flagEndDate currentDate (entries ++ entries) out) ∧
    (∀ (startDate endDate out : Str) (e : Entry),
      walkStep startDate endDate out e =
        if (emittedBlocks startDate endDate [e]).isEmpty then out
        else out ++ ((emittedBlocks startDate endDate [e]).flatten ++ ['\n'])) ∧
    (∀ (startDate endDate : Str) (entries : List Entry),
      emittedBlocks startDate endDate entries =
          (entries.map (fun e => emittedBlocks startDate endDate [e])).flatten ∧
      emittedBlocks startDate endDate (entries ++ entries) =
          emittedBlocks startDate endDate entries ++ emittedBlocks startDate endDate entries ∧
      (emittedBlocks startDate endDate (entries ++ entries)).length =
        2 * (emittedBlocks startDate endDate entries).length) ∧
    emittedBlocks "2024-01-01".toList "2024-01-31".toList
        [⟨"a.md".toList, "a.md".toList, false, false, "# 2024-01-02\nbody".toList⟩,
          ⟨"b.txt".toList, "b.txt".toList, false, false, "# 2024-01-02\nno".toList⟩] =
      ["# a\nbody\n".toList] ∧
    runMain true "2024-01-01".toList "2024-01-31".toList "2024-06-01".toList
        [⟨"a.md".toList, "a.md".toList, false, false, "# 2024-01-02\nbody".toList⟩,
          ⟨"b.txt".toList, "b.txt".toList, false, false, "# 2024-01-02\nno".toList⟩]
        "old\n".toList =
      "old\n# a\nbody\n\n".toList ∧
    runMain true "2024-01-01".toList "2024-01-31".toList "2024-06-01".toList
        [⟨"a.md".toList, "a.md".toList, false, false, "# 2024-01-02\nbody".toList⟩,
          ⟨"b.txt".toList, "b.txt".toList, false, false, "# 2024-01-02\nno".toList⟩]
        "old\n# a\nbody\n\n".toList =
      "old\n# a\nbody\n\n# a\nbody\n\n".toList := by
  refine ⟨?_, ?_, walkStep_eq_blocks, ?_, by decide, by decide, by decide⟩
  · intro filePath content startDate endDate out
    exact ⟨_, (processMarkdownFile_eq_append filePath content startDate endDate out).symm⟩
  · intro fs fe cur entries out
    have h := runMain_append_eq fs fe cur entries (runMain true fs fe cur entries out)
    refine ⟨runMain_append_eq_blocks fs fe cur entries out,
      runMain_append_eq_blocks fs fe cur entries _, ⟨_, h.symm⟩, ?_, ?_⟩
    · rw [h, runMain_append_eq fs fe cur entries out]
    · rw [runMain_append_entries]
  · intro startDate endDate entries
    refine ⟨emittedBlocks_eq_flatten startDate endDate entries, ?_⟩
    rw [emittedBlocks_append]
    refine ⟨rfl, ?_⟩
    rw [List.length_append]
    omega

/-- C13: idempotence of truncation.  Without `-append` the final output does
not depend on what the output file held before, so a second run with the same
inputs, started on the output of the first, gives the same output again. -/
theorem truncate_mode_idempotent (flagStartDate flagEndDate currentDate : Str)
    (entries : List Entry) :
    (∀ out out' : Str,
      runMain false flagStartDate flagEndDate currentDate entries out =
        runMain false flagStartDate flagEndDate currentDate entries out') ∧
    (∀ out : Str,
      runMain false flagStartDate flagEndDate currentDate entries
          (runMain false flagStartDate flagEndDate currentDate entries out) =
        runMain false flagStartDate flagEndDate currentDate entries out) := by
  constructor
  · intro out out'
    rfl
  · intro out
    rfl

/-! ## The capturing flag -/

theorem captureStep_flag (filePath startDate endDate : Str) (st : Capture) (line : Str) :
    (captureStep filePath startDate endDate st line).isMatchingHeader =
      if isTopHeader line then isDateInRange line startDate endDate
      else st.isMatchingHeader := by
  have e : isTopHeader line = stringsHasPrefix line ['#', ' '] := rfl
  by_cases hh : stringsHasPrefix line ['#', ' '] = true
  · by_cases hr : isDateInRange line startDate endDate = true
    · simp [captureStep, e, hh, hr]
    · simp [captureStep, e, hh, hr]
  · by_cases hm : st.isMatchingHeader = true
    · simp [captureStep, e, hh, hm]
    · simp [captureStep, e, hh, hm]

theorem foldl_captureStep_flag (filePath startDate endDate : Str) :
    ∀ (lines : List Str) (st : Capture),
      (lines.foldl (captureStep filePath startDate endDate) st).isMatchingHeader =
        match lastTopHeader lines with
        | some h => isDateInRange h startDate endDate
        | none => st.isMatchingHeader := by
  intro lines
  induction lines using List.reverseRecOn with
  | nil => intro st; rfl
  | append_singleton pre line ih =>
    intro st
    rw [List.foldl_append, List.foldl_cons, List.foldl_nil, captureStep_flag, ih]
    by_cases hh : isTopHeader line = true
    · simp [lastTopHeader, List.filter_append, hh]
    · simp [lastTopHeader, List.filter_append, hh]

/-- C14: the capturing flag starts false; after any prefix of the lines it is
true exactly when the prefix has a top-level header and the last one has a date
in range; a line that is not a top-level header leaves the flag as it is, and a
top-level header sets it to its own date test whatever it was. -/
theorem capturing_flag_invariant (filePath startDate endDate : Str) :
    (captureLines filePath startDate endDate []).isMatchingHeader = false ∧
    (∀ pre : List Str,
      ((captureLines filePath startDate endDate pre).isMatchingHeader = true ↔
        ∃ h, lastTopHeader pre = some h ∧ isDateInRange h startDate endDate = true)) ∧
    (∀ (st : Capture) (line : Str), isTopHeader line = false →
      (captureStep filePath startDate endDate st line).isMatchingHeader =
        st.isMatchingHeader) ∧
    (∀ (st : Capture) (line : Str), isTopHeader line = true →
      (captureStep filePath startDate endDate st line).isMatchingHeader =
        isDateInRange line startDate endDate) := by
  refine ⟨rfl, ?_, ?_, ?_⟩
  · intro pre
    unfold captureLines
    rw [foldl_captureStep_flag]
    cases hl : lastTopHeader pre with
    | none => simp
    | some h => simp
  · intro st line hl
    rw [captureStep_flag, hl]
    simp
  · intro st line hl
    rw [captureStep_flag, hl]
    simp

/-- Witness for C14: after the prefix "# 2024-01-01", "a", "# Other" the last
top-level header is "# Other", whose date test fails, so the flag is false;
the body line "a" left the flag set and the header "# Other" cleared it. -/
theorem capturing_flag_invariant_witness :
    lastTopHeader ["# 2024-01-01".toList, "a".toList, "# Other".toList] =
      some "# Other".toList ∧
    (captureLines "doc.md".toList "2024-01-01".toList "2024-01-01".toList
      ["# 2024-01-01".toList, "a".toList, "# Other".toList]).isMatchingHeader = false ∧
    (captureStep "doc.md".toList "2024-01-01".toList "2024-01-01".toList ⟨true, []⟩
      "a".toList).isMatchingHeader = true ∧
    (captureStep "doc.md".toList "2024-01-01".toList "2024-01-01".toList ⟨true, []⟩
      "# Other".toList).isMatchingHeader =
        isDateInRange "# Other".toList "2024-01-01".toList "2024-01-01".toList :=
  ⟨by decide, by decide,
    (capturing_flag_invariant "doc.md".toList "2024-01-01".toList "2024-01-01".toList).2.2.1
      ⟨true, []⟩ "a".toList (by decide),
    (capturing_flag_invariant "doc.md".toList "2024-01-01".toList "2024-01-01".toList).2.2.2
      ⟨true, []⟩ "# Other".toList (by decide)⟩

/-! ## Markers that are not section boundaries -/

theorem format_layoutISO_eq (d : Date) : format layoutISO d = formatISO d := by
  simp [format, formatStd, formatISO, layoutISO]

theorem dropWhile_hash_replicate (n : Nat) (s : Str) (hs : ∀ c, s.head? = some c → c ≠ '#') :
    (List.replicate n '#' ++ s).dropWhile (fun x => x == '#') = s := by
  induction n with
  | zero =>
    cases s with
    | nil => rfl
    | cons c s' =>
      have : c ≠ '#' := hs c rfl
      simp [this]
  | succ n ih => simpa [List.replicate_succ] using ih

/-- A canonical date behind any number of markers and at most one blank is the
cleaned title of the line. -/
theorem cleanTitle_markers (d : Date) (hd : isValidDate d = true) (n : Nat) (ws : Str)
    (hws : ws = [] ∨ ws = [' ']) :
    cleanTitle (List.replicate n '#' ++ (ws ++ formatISO d)) = formatISO d := by
  obtain ⟨y3, y2, y1, y0, m1, m0, d1, d0, h3, h2, h1, h0, hm1, hm0, hd1, hd0, heq⟩ :=
    formatISO_shape d hd
  have e : List.replicate n '#' ++ (ws ++ formatISO d) =
      (List.replicate n '#' ++ ws) ++ y3 :: [y2, y1, y0, '-', m1, m0, '-', d1, d0] := by
    rw [heq]; simp
  have e2 : ([y2, y1, y0, '-', m1, m0, '-', d1, d0] : Str).rdropWhile isSpace =
      [y2, y1, y0, '-', m1, m0, '-', d1, d0] := by
    have : ([y2, y1, y0, '-', m1, m0, '-', d1, d0] : Str) =
        [y2, y1, y0, '-', m1, m0, '-', d1] ++ d0 :: [] := by simp
    rw [this, rdropWhile_append_stop _ _ d0 [] (isSpace_of_isDigit d0 hd0)]
    rfl
  have e3 : ((List.replicate n '#' ++ ws).dropWhile (fun x => x == '#')).dropWhile isSpace =
      [] := by
    rw [dropWhile_hash_replicate n ws (by rcases hws with rfl | rfl <;> simp)]
    rcases hws with rfl | rfl <;> decide
  have hfree : ∀ c ∈ formatISO d, isWordChar c = true → isDigit c = true := by
    rw [heq]
    intro c hc hwc
    simp only [List.mem_cons, List.mem_singleton, List.not_mem_nil, or_false] at hc
    rcases hc with rfl | rfl | rfl | rfl | rfl | rfl | rfl | rfl | rfl | rfl <;> assumption
  rw [cleanTitle_eq, e, trim_around_digit _ y3 _ h3, e2, e3, List.nil_append, ← heq]
  exact strip_letterFree _ _ hfree

theorem extractDateFromHeader_markers (d : Date) (hd : isValidDate d = true) (n : Nat)
    (ws : Str) (hws : ws = [] ∨ ws = [' ']) :
    extractDateFromHeader (List.replicate n '#' ++ (ws ++ formatISO d)) = formatISO d := by
  unfold extractDateFromHeader headerDate
  rw [cleanTitle_markers d hd n ws hws]
  have h := parseFirst_format d hd layoutISO (by decide)
  rw [format_layoutISO_eq] at h
  rw [h]

theorem captureStep_of_not_header (filePath startDate endDate : Str) (st : Capture) (line : Str)
    (h : isTopHeader line = false) :
    captureStep filePath startDate endDate st line =
      if st.isMatchingHeader then
        { st with outputContent := st.outputContent ++ (line ++ ['\n']) }
      else st := by
  have e : stringsHasPrefix line "# ".toList = false := h
  unfold captureStep
  rw [e]
  simp

/-- C16: only a line that starts with `#` and a blank is a section boundary.
A line with two or more markers before the blank, or with markers directly
before the date, is not a top-level header although `extractDateFromHeader`
gives its date; on any line that is not a top-level header the loop leaves the
capturing flag as it is, whatever the range, appends the line verbatim when
capturing and leaves the accumulated text alone otherwise. -/
theorem only_marker_blank_is_boundary :
    (∀ (filePath startDate endDate : Str) (st : Capture) (line : Str),
      isTopHeader line = false →
        (captureStep filePath startDate endDate st line).isMatchingHeader =
            st.isMatchingHeader ∧
        (captureStep filePath startDate endDate st line).outputContent =
          if st.isMatchingHeader then st.outputContent ++ (line ++ ['\n'])
          else st.outputContent) ∧
    (∀ (d : Date) (k : Nat), isValidDate d = true →
      isTopHeader (List.replicate (k + 2) '#' ++ (' ' :: formatISO d)) = false ∧
      extractDateFromHeader (List.replicate (k + 2) '#' ++ (' ' :: formatISO d)) =
        formatISO d) ∧
    (∀ (d : Date) (k : Nat), isValidDate d = true →
      isTopHeader (List.replicate (k + 1) '#' ++ formatISO d) = false ∧
      extractDateFromHeader (List.replicate (k + 1) '#' ++ formatISO d) = formatISO d) ∧
    extractDateFromHeader "## 2024-01-01".toList = "2024-01-01".toList ∧
    extractDateFromHeader "#2024-01-01".toList = "2024-01-01".toList ∧
    accumulated "doc.md".toList "2024-01-01".toList "2024-01-02".toList
        ["## 2024-01-01".toList, "x".toList, "# 2024-01-01".toList, "#2024-01-02".toList,
          "## 2023-01-01".toList, "y".toList] =
      "# doc\n#2024-01-02\n## 2023-01-01\ny\n".toList := by
  refine ⟨?_, ?_, ?_, by decide, by decide, by decide⟩
  · intro filePath startDate endDate st line h
    rw [captureStep_of_not_header filePath startDate endDate st line h]
    by_cases hm : st.isMatchingHeader = true
    · simp [hm]
    · simp [hm]
  · intro d k hd
    constructor
    · simp [isTopHeader, stringsHasPrefix, List.replicate_succ, List.isPrefixOf]
    · exact extractDateFromHeader_markers d hd (k + 2) [' '] (Or.inr rfl)
  · intro d k hd
    constructor
    · obtain ⟨y3, y2, y1, y0, m1, m0, d1, d0, h3, -, -, -, -, -, -, -, heq⟩ :=
        formatISO_shape d hd
      rw [heq]
      cases k with
      | zero =>
        have : y3 ≠ ' ' := ne_space_of_isDigit y3 h3
        simp [isTopHeader, stringsHasPrefix, List.isPrefixOf, this.symm]
      | succ k =>
        simp [isTopHeader, stringsHasPrefix, List.replicate_succ, List.isPrefixOf]
    · exact extractDateFromHeader_markers d hd (k + 1) [] (Or.inl rfl)

/-- Witness for C16: "## 2024-01-01" is not a top-level header, its date is
2024-01-01, and the loop copies it when capturing and drops it otherwise,
leaving the flag alone. -/
theorem only_marker_blank_is_boundary_witness :
    isValidDate ⟨2024, 1, 1⟩ = true ∧
    isTopHeader "## 2024-01-01".toList = false ∧
    extractDateFromHeader (List.replicate (0 + 2) '#' ++ (' ' :: formatISO ⟨2024, 1, 1⟩)) =
      formatISO ⟨2024, 1, 1⟩ ∧
    (captureStep "doc.md".toList "2024-01-01".toList "2024-01-01".toList ⟨true, "t\n".toList⟩
      "## 2024-01-01".toList).isMatchingHeader = true ∧
    (captureStep "doc.md".toList "2024-01-01".toList "2024-01-01".toList ⟨false, "t\n".toList⟩
      "## 2024-01-01".toList).outputContent =
        (if (⟨false, "t\n".toList⟩ : Capture).isMatchingHeader then
          "t\n".toList ++ ("## 2024-01-01".toList ++ ['\n'])
        else "t\n".toList) :=
  ⟨by decide, by decide,
    (only_marker_blank_is_boundary.2.1 ⟨2024, 1, 1⟩ 0 (by decide)).2,
    (only_marker_blank_is_boundary.1 "doc.md".toList "2024-01-01".toList "2024-01-01".toList
      ⟨true, "t\n".toList⟩ "## 2024-01-01".toList (by decide)).1,
    (only_marker_blank_is_boundary.1 "doc.md".toList "2024-01-01".toList "2024-01-01".toList
      ⟨false, "t\n".toList⟩ "## 2024-01-01".toList (by decide)).2⟩

/-! ## The weekday name -/

theorem parse_layoutWeekday_any (w : Nat) (hw : w < 7) (d : Date) (hd : isValidDate d = true) :
    parse layoutWeekday (formatWithWeekday w d) = some d := by
  obtain ⟨hy, hm1, hm2, hd1, hd2⟩ := isValidDate_bounds d hd
  have e : formatWithWeekday w d =
      dayLong w ++ ',' :: ' ' :: (monthLong d.month ++ ' ' :: (appendInt d.day 0 ++
        ',' :: ' ' :: (appendInt d.year 4 ++ []))) := rfl
  rw [e]
  refine parse_of_chunks _ _ d ⟨d.year, some d.month, some d.day⟩ ?_ rfl rfl rfl hd
  unfold layoutWeekday
  rw [parseChunks_step _ _ _ _ _ _ _ _ (skip_nil _)
      (parseStd_weekday_name _ hw ',' _ _ (by decide)),
    parseChunks_step _ _ _ _ _ _ _ _
      (skip_comma_space_block _ _ (monthLong_word _ hm1 hm2).1
        (word_ne_space _ (monthLong_word _ hm1 hm2).2))
      (parseStd_longMonth_name _ hm1 hm2 ' ' _ _ (by decide)),
    parseChunks_step _ _ _ _ _ _ _ _
      (skip_space_block _ _ (appendInt_block _ _).1 (digits_ne_space _ (appendInt_block _ _).2))
      (parseStd_day_appendInt _ (by omega) ',' _ _ (by decide)),
    parseChunks_step _ _ _ _ _ _ _ _
      (skip_comma_space_block _ _ (appendInt_block _ _).1
        (digits_ne_space _ (appendInt_block _ _).2))
      (parseStd_year_appendInt _ hy _ _)]
  rfl

theorem parseFirst_formatWithWeekday (w : Nat) (hw : w < 7) (d : Date)
    (hd : isValidDate d = true) :
    parseFirst dateFormats (formatWithWeekday w d) = some d := by
  have hDL := dayLong_word w hw
  have h0 : parse layoutISO (formatWithWeekday w d) = none :=
    parse_layoutISO_of_word (dayLong w) _ hDL.1 hDL.2
  have h1 : parse layoutLongMonth (formatWithWeekday w d) = none :=
    parse_monthFirst_of_weekday _ w hw _ (Or.inl rfl)
  have h2 : parse layoutShortMonthComma (formatWithWeekday w d) = none :=
    parse_monthFirst_of_weekday _ w hw _ (Or.inr (Or.inl rfl))
  have h3 : parse layoutShortMonth (formatWithWeekday w d) = none :=
    parse_monthFirst_of_weekday _ w hw _ (Or.inr (Or.inr rfl))
  simp only [dateFormats, parseFirst, h0, h1, h2, h3, parse_layoutWeekday_any w hw d hd]

theorem cleanTitle_formatWithWeekday (w : Nat) (hw : w < 7) (d : Date)
    (hd : isValidDate d = true) :
    cleanTitle ('#' :: ' ' :: formatWithWeekday w d) = formatWithWeekday w d := by
  obtain ⟨hy, hm1, hm2, hd1, hd2⟩ := isValidDate_bounds d hd
  have hML := monthLong_word d.month hm1 hm2
  have hDL := dayLong_word w hw
  have hY := appendInt_block d.year 4
  have hD := appendInt_block d.day 0
  have hsp : isWordChar ' ' = false := by decide
  have hco : isWordChar ',' = false := by decide
  have e : formatWithWeekday w d = dayLong w ++ ',' :: ' ' :: (monthLong d.month ++
      ' ' :: (appendInt d.day 0 ++ ',' :: ' ' :: (appendInt d.year 4 ++ []))) := rfl
  rw [cleanTitle_eq, trim_render _ (dayLong w) _
    (dayLong w ++ ',' :: ' ' :: (monthLong d.month ++
      ' ' :: (appendInt d.day 0 ++ [',', ' ']))) (appendInt d.year 4) e
    hDL.1 (fun c hc => (hDL.2 c hc).2) (by rw [e]; simp) hY.1 (digits_not_space _ hY.2), e,
    strip_word_block _ _ _ _ (fun c hc => (hDL.2 c hc).1) hco,
    strip_nonword_cons _ _ _ hsp,
    strip_word_block _ _ _ _ (fun c hc => (hML.2 c hc).1) hsp,
    strip_digit_block _ _ _ _ hD.1 hD.2 hco, strip_nonword_cons _ _ _ hsp,
    strip_digits_end _ _ hY.2]

/-- C17: the weekday name of the layout "Monday, January 2, 2006" is not
checked against the date.  For every valid date and every one of the seven
weekday names W, the header "# W, <full month> <day>, <year>" gives the date in
canonical form; "# Monday, January 2, 2024" gives "2024-01-02" although that
day was a Tuesday. -/
theorem weekday_name_not_checked :
    (∀ (d : Date) (w : Nat), isValidDate d = true → w < 7 →
      extractDateFromHeader ('#' :: ' ' :: formatWithWeekday w d) = formatISO d) ∧
    (List.range 7).map (fun w => formatWithWeekday w ⟨2024, 1, 2⟩) =
      ["Sunday, January 2, 2024", "Monday, January 2, 2024", "Tuesday, January 2, 2024",
        "Wednesday, January 2, 2024", "Thursday, January 2, 2024", "Friday, January 2, 2024",
        "Saturday, January 2, 2024"].map String.toList ∧
    extractDateFromHeader "# Monday, January 2, 2024".toList = "2024-01-02".toList ∧
    dayLong (weekday ⟨2024, 1, 2⟩) = "Tuesday".toList := by
  refine ⟨?_, by decide, by decide, by decide⟩
  intro d w hd hw
  unfold extractDateFromHeader headerDate
  rw [cleanTitle_formatWithWeekday w hw d hd, parseFirst_formatWithWeekday w hw d hd]

/-- Witness for C17: 2024-01-02 is valid, weekday name 1 is Monday, and the
header written with it gives the canonical date. -/
theorem weekday_name_not_checked_witness :
    isValidDate ⟨2024, 1, 2⟩ = true ∧ (1 : Nat) < 7 ∧
    formatWithWeekday 1 ⟨2024, 1, 2⟩ = "Monday, January 2, 2024".toList ∧
    extractDateFromHeader ('#' :: ' ' :: formatWithWeekday 1 ⟨2024, 1, 2⟩) =
      formatISO ⟨2024, 1, 2⟩ :=
  ⟨by decide, by decide, by decide,
    weekday_name_not_checked.1 ⟨2024, 1, 2⟩ 1 (by decide) (by decide)⟩

/-! ## Malformed dates -/

theorem cleanTitle_numeric (Y M D : Str) (hY : Y ≠ [] ∧ ∀ c ∈ Y, isDigit c = true)
    (hM : M ≠ [] ∧ ∀ c ∈ M, isDigit c = true) (hD : D ≠ [] ∧ ∀ c ∈ D, isDigit c = true) :
    cleanTitle ('#' :: ' ' :: (Y ++ '-' :: (M ++ '-' :: (D ++ [])))) =
      Y ++ '-' :: (M ++ '-' :: (D ++ [])) := by
  have hda : isWordChar '-' = false := by decide
  rw [cleanTitle_eq, trim_render _ Y _ (Y ++ '-' :: (M ++ ['-'])) D rfl
    hY.1 (digits_not_space _ hY.2) (by simp) hD.1 (digits_not_space _ hD.2),
    strip_digit_block _ _ _ _ hY.1 hY.2 hda, strip_digit_block _ _ _ _ hM.1 hM.2 hda,
    strip_digits_end _ _ hD.2]

theorem cleanTitle_monthFirst_comma (N D Y : Str)
    (hN : N ≠ [] ∧ ∀ c ∈ N, isDigit c = false ∧ isSpace c = false)
    (hD : D ≠ [] ∧ ∀ c ∈ D, isDigit c = true) (hY : Y ≠ [] ∧ ∀ c ∈ Y, isDigit c = true) :
    cleanTitle ('#' :: ' ' :: (N ++ ' ' :: (D ++ ',' :: ' ' :: (Y ++ [])))) =
      N ++ ' ' :: (D ++ ',' :: ' ' :: (Y ++ [])) := by
  have hsp : isWordChar ' ' = false := by decide
  have hco : isWordChar ',' = false := by decide
  rw [cleanTitle_eq, trim_render _ N _ (N ++ ' ' :: (D ++ [',', ' '])) Y rfl
    hN.1 (fun c hc => (hN.2 c hc).2) (by simp) hY.1 (digits_not_space _ hY.2),
    strip_word_block _ _ _ _ (fun c hc => (hN.2 c hc).1) hsp,
    strip_digit_block _ _ _ _ hD.1 hD.2 hco, strip_nonword_cons _ _ _ hsp,
    strip_digits_end _ _ hY.2]

theorem cleanTitle_monthFirst_space (N D Y : Str)
    (hN : N ≠ [] ∧ ∀ c ∈ N, isDigit c = false ∧ isSpace c = false)
    (hD : D ≠ [] ∧ ∀ c ∈ D, isDigit c = true) (hY : Y ≠ [] ∧ ∀ c ∈ Y, isDigit c = true) :
    cleanTitle ('#' :: ' ' :: (N ++ ' ' :: (D ++ ' ' :: (Y ++ [])))) =
      N ++ ' ' :: (D ++ ' ' :: (Y ++ [])) := by
  have hsp : isWordChar ' ' = false := by decide
  rw [cleanTitle_eq, trim_render _ N _ (N ++ ' ' :: (D ++ [' '])) Y rfl
    hN.1 (fun c hc => (hN.2 c hc).2) (by simp) hY.1 (digits_not_space _ hY.2),
    strip_word_block _ _ _ _ (fun c hc => (hN.2 c hc).1) hsp,
    strip_digit_block _ _ _ _ hD.1 hD.2 hsp, strip_digits_end _ _ hY.2]

theorem cleanTitle_weekdayFirst (W N D Y : Str)
    (hW : W ≠ [] ∧ ∀ c ∈ W, isDigit c = false ∧ isSpace c = false)
    (hN : N ≠ [] ∧ ∀ c ∈ N, isDigit c = false ∧ isSpace c = false)
    (hD : D ≠ [] ∧ ∀ c ∈ D, isDigit c = true) (hY : Y ≠ [] ∧ ∀ c ∈ Y, isDigit c = true) :
    cleanTitle ('#' :: ' ' :: (W ++ ',' :: ' ' :: (N ++ ' ' :: (D ++ ',' :: ' ' :: (Y ++ []))))) =
      W ++ ',' :: ' ' :: (N ++ ' ' :: (D ++ ',' :: ' ' :: (Y ++ []))) := by
  have hsp : isWordChar ' ' = false := by decide
  have hco : isWordChar ',' = false := by decide
  rw [cleanTitle_eq, trim_render _ W _
    (W ++ ',' :: ' ' :: (N ++ ' ' :: (D ++ [',', ' ']))) Y rfl
    hW.1 (fun c hc => (hW.2 c hc).2) (by simp) hY.1 (digits_not_space _ hY.2),
    strip_word_block _ _ _ _ (fun c hc => (hW.2 c hc).1) hco,
    strip_nonword_cons _ _ _ hsp,
    strip_word_block _ _ _ _ (fun c hc => (hN.2 c hc).1) hsp,
    strip_digit_block _ _ _ _ hD.1 hD.2 hco, strip_nonword_cons _ _ _ hsp,
    strip_digits_end _ _ hY.2]

theorem cleanTitle_dayFirst (D N Y : Str)
    (hD : D ≠ [] ∧ ∀ c ∈ D, isDigit c = true)
    (hN : N ≠ [] ∧ ∀ c ∈ N, isDigit c = false ∧ isSpace c = false)
    (hY : Y ≠ [] ∧ ∀ c ∈ Y, isDigit c = true) :
    cleanTitle ('#' :: ' ' :: (D ++ ' ' :: (N ++ ' ' :: (Y ++ [])))) =
      D ++ ' ' :: (N ++ ' ' :: (Y ++ [])) := by
  have hsp : isWordChar ' ' = false := by decide
  rw [cleanTitle_eq, trim_render _ D _ (D ++ ' ' :: (N ++ [' '])) Y rfl
    hD.1 (digits_not_space _ hD.2) (by simp) hY.1 (digits_not_space _ hY.2),
    strip_digit_block _ _ _ _ hD.1 hD.2 hsp,
    strip_word_block _ _ _ _ (fun c hc => (hN.2 c hc).1) hsp, strip_digits_end _ _ hY.2]

/-- The cleaned title of "# " followed by a date written in the shape of a
layout is that text, whether or not the date exists; the month needs a name
unless the layout is the numeric one. -/
theorem cleanTitle_format_any (d : Date) (l : Layout) (hl : l ∈ dateFormats)
    (hm : l = layoutISO ∨ (1 ≤ d.month ∧ d.month ≤ 12)) :
    cleanTitle ('#' :: ' ' :: format l d) = format l d := by
  have hDL := dayLong_word (weekday d) (weekday_lt d)
  have hY := appendInt_block d.year 4
  have hD := appendInt_block d.day 0
  have hD2 := appendInt_block d.day 2
  have hM2 := appendInt_block d.month 2
  simp only [dateFormats, List.mem_cons, List.mem_singleton, List.not_mem_nil, or_false] at hl
  rcases hl with rfl | rfl | rfl | rfl | rfl | rfl | rfl
  · exact cleanTitle_numeric _ _ _ hY hM2 hD2
  · obtain ⟨hm1, hm2⟩ := hm.resolve_left (by decide)
    exact cleanTitle_monthFirst_comma _ _ _ (monthLong_word _ hm1 hm2) hD hY
  · obtain ⟨hm1, hm2⟩ := hm.resolve_left (by decide)
    exact cleanTitle_monthFirst_comma _ _ _ (monthShort_word _ hm1 hm2) hD hY
  · obtain ⟨hm1, hm2⟩ := hm.resolve_left (by decide)
    exact cleanTitle_monthFirst_space _ _ _ (monthShort_word _ hm1 hm2) hD hY
  · obtain ⟨hm1, hm2⟩ := hm.resolve_left (by decide)
    exact cleanTitle_weekdayFirst _ _ _ _ hDL (monthLong_word _ hm1 hm2) hD hY
  · obtain ⟨hm1, hm2⟩ := hm.resolve_left (by decide)
    exact cleanTitle_dayFirst _ _ _ hD2 (monthShort_word _ hm1 hm2) hY
  · obtain ⟨hm1, hm2⟩ := hm.resolve_left (by decide)
    exact cleanTitle_dayFirst _ _ _ hD (monthShort_word _ hm1 hm2) hY

/-- The same for a date written with a two-digit year. -/
theorem cleanTitle_formatShortYear (d : Date) (l : Layout) (hl : l ∈ dateFormats)
    (hm1 : 1 ≤ d.month) (hm2 : d.month ≤ 12) :
    cleanTitle ('#' :: ' ' :: formatShortYear l d) = formatShortYear l d := by
  have hDL := dayLong_word (weekday d) (weekday_lt d)
  have hML := monthLong_word d.month hm1 hm2
  have hMS := monthShort_word d.month hm1 hm2
  have hY := appendInt_block d.year 2
  have hD := appendInt_block d.day 0
  have hD2 := appendInt_block d.day 2
  have hM2 := appendInt_block d.month 2
  simp only [dateFormats, List.mem_cons, List.mem_singleton, List.not_mem_nil, or_false] at hl
  rcases hl with rfl | rfl | rfl | rfl | rfl | rfl | rfl
  · exact cleanTitle_numeric _ _ _ hY hM2 hD2
  · exact cleanTitle_monthFirst_comma _ _ _ hML hD hY
  · exact cleanTitle_monthFirst_comma _ _ _ hMS hD hY
  · exact cleanTitle_monthFirst_space _ _ _ hMS hD hY
  · exact cleanTitle_weekdayFirst _ _ _ _ hDL hML hD hY
  · exact cleanTitle_dayFirst _ _ _ hD2 hMS hY
  · exact cleanTitle_dayFirst _ _ _ hD hMS hY

/-- A text with a character that is not a digit among its last four does not
end with four digits. -/
theorem not_ends_with_four_digits (pre t : Str) (c : Char) (hc : isDigit c = false)
    (ht : t.length < 4) (p y : Str) (h : pre ++ c :: t = p ++ y) (hy : y.length = 4)
    (hd : ∀ x ∈ y, isDigit x = true) : False := by
  have hmem : c ∈ y := by
    rcases List.append_eq_append_iff.mp h with ⟨a', h1, h2⟩ | ⟨c', h1, h2⟩
    · cases c' : a' with
      | nil =>
        rw [c'] at h2
        simp only [List.nil_append] at h2
        rw [← h2]; simp
      | cons a0 a1 =>
        exfalso
        rw [c'] at h2
        have := congrArg List.length h2
        simp only [List.length_cons, List.length_append] at this
        omega
    · rw [h2]; simp
  have := hd c hmem
  rw [hc] at this
  exact absurd this (by decide)

theorem parse_yearLast_none (l : Layout) (he : endsWithYear l = true) (pre t : Str) (c : Char)
    (hc : isDigit c = false) (ht : t.length < 4) : parse l (pre ++ c :: t) = none := by
  cases hp : parse l (pre ++ c :: t) with
  | none => rfl
  | some d' =>
    exfalso
    obtain ⟨p, y, hv, hy4, hyd⟩ := parse_endsWithYear l _ d' he hp
    exact not_ends_with_four_digits pre t c hc ht p y hv hy4 hyd

theorem parse_layoutISO_none_of_length (v : Str) (h : v.length ≠ 10) :
    parse layoutISO v = none := by
  cases hp : parse layoutISO v with
  | none => rfl
  | some d' => exact absurd (parse_layoutISO_length v d' hp) h

theorem appendInt_two_length (n : Nat) (h : n < 100) : (appendInt n 2).length = 2 := by
  rw [appendInt_two n h]; rfl

/-- No layout parses a date written with a two-digit year. -/
theorem parseFirst_formatShortYear (d : Date) (l : Layout) (hl : l ∈ dateFormats)
    (hy : d.year < 100) (hm1 : 1 ≤ d.month) (hm2 : d.month ≤ 12) (hdd : d.day < 100) :
    parseFirst dateFormats (formatShortYear l d) = none := by
  have hML := monthLong_word d.month hm1 hm2
  have hMS := monthShort_word d.month hm1 hm2
  have hDL := dayLong_word (weekday d) (weekday_lt d)
  have hY2 : (appendInt d.year 2 ++ []).length < 4 := by
    rw [List.append_nil, appendInt_two_length _ hy]; decide
  have hD2 : (appendInt d.day 2 ++ []).length < 4 := by
    rw [List.append_nil, appendInt_two_length _ hdd]; decide
  have hsp : isDigit ' ' = false := by decide
  have hda : isDigit '-' = false := by decide
  rw [parseFirst_eq_none_iff]
  -- every layout with the year last fails on each of the seven texts
  have hlast : ∀ l' : Layout, endsWithYear l' = true → parse l' (formatShortYear l d) = none := by
    intro l' he
    simp only [dateFormats, List.mem_cons, List.mem_singleton, List.not_mem_nil, or_false] at hl
    rcases hl with rfl | rfl | rfl | rfl | rfl | rfl | rfl
    · have e : formatShortYear layoutISO d =
          (appendInt d.year 2 ++ '-' :: appendInt d.month 2) ++ '-' :: (appendInt d.day 2 ++ []) := by
        simp [formatShortYear, formatStdShortYear, formatStd, layoutISO]
      rw [e]
      exact parse_yearLast_none l' he _ _ '-' hda hD2
    · have e : formatShortYear layoutLongMonth d =
          (monthLong d.month ++ ' ' :: (appendInt d.day 0 ++ [','])) ++
            ' ' :: (appendInt d.year 2 ++ []) := by
        simp [formatShortYear, formatStdShortYear, formatStd, layoutLongMonth]
      rw [e]
      exact parse_yearLast_none l' he _ _ ' ' hsp hY2
    · have e : formatShortYear layoutShortMonthComma d =
          (monthShort d.month ++ ' ' :: (appendInt d.day 0 ++ [','])) ++
            ' ' :: (appendInt d.year 2 ++ []) := by
        simp [formatShortYear, formatStdShortYear, formatStd, layoutShortMonthComma]
      rw [e]
      exact parse_yearLast_none l' he _ _ ' ' hsp hY2
    · have e : formatShortYear layoutShortMonth d =
          (monthShort d.month ++ ' ' :: appendInt d.day 0) ++
            ' ' :: (appendInt d.year 2 ++ []) := by
        simp [formatShortYear, formatStdShortYear, formatStd, layoutShortMonth]
      rw [e]
      exact parse_yearLast_none l' he _ _ ' ' hsp hY2
    · have e : formatShortYear layoutWeekday d =
          (dayLong (weekday d) ++ ',' :: ' ' :: (monthLong d.month ++
            ' ' :: (appendInt d.day 0 ++ [',']))) ++ ' ' :: (appendInt d.year 2 ++ []) := by
        simp [formatShortYear, formatStdShortYear, formatStd, layoutWeekday]
      rw [e]
      exact parse_yearLast_none l' he _ _ ' ' hsp hY2
    · have e : formatShortYear layoutZeroDay d =
          (appendInt d.day 2 ++ ' ' :: monthShort d.month) ++
            ' ' :: (appendInt d.year 2 ++ []) := by
        simp [formatShortYear, formatStdShortYear, formatStd, layoutZeroDay]
      rw [e]
      exact parse_yearLast_none l' he _ _ ' ' hsp hY2
    · have e : formatShortYear layoutDay d =
          (appendInt d.day 0 ++ ' ' :: monthShort d.month) ++
            ' ' :: (appendInt d.year 2 ++ []) := by
        simp [formatShortYear, formatStdShortYear, formatStd, layoutDay]
      rw [e]
      exact parse_yearLast_none l' he _ _ ' ' hsp hY2
  -- the numeric layout fails too
  have hiso : parse layoutISO (formatShortYear l d) = none := by
    simp only [dateFormats, List.mem_cons, List.mem_singleton, List.not_mem_nil, or_false] at hl
    rcases hl with rfl | rfl | rfl | rfl | rfl | rfl | rfl
    · apply parse_layoutISO_none_of_length
      have e : formatShortYear layoutISO d =
          appendInt d.year 2 ++ '-' :: (appendInt d.month 2 ++ '-' :: (appendInt d.day 2 ++ [])) :=
        rfl
      rw [e]
      simp only [List.length_append, List.length_cons, List.length_nil,
        appendInt_two_length _ hy, appendInt_two_length _ (show d.month < 100 by omega),
        appendInt_two_length _ hdd]
      decide
    · exact parse_layoutISO_of_word (monthLong d.month) _ hML.1 hML.2
    · exact parse_layoutISO_of_word (monthShort d.month) _ hMS.1 hMS.2
    · exact parse_layoutISO_of_word (monthShort d.month) _ hMS.1 hMS.2
    · exact parse_layoutISO_of_word (dayLong (weekday d)) _ hDL.1 hDL.2
    · exact parse_layoutISO_of_day d.day 2 hdd (Or.inr rfl) _
    · exact parse_layoutISO_of_day d.day 0 hdd (Or.inl rfl) _
  intro l' hl'
  simp only [dateFormats, List.mem_cons, List.mem_singleton, List.not_mem_nil, or_false] at hl'
  rcases hl' with rfl | rfl | rfl | rfl | rfl | rfl | rfl
  · exact hiso
  · exact hlast _ (by decide)
  · exact hlast _ (by decide)
  · exact hlast _ (by decide)
  · exact hlast _ (by decide)
  · exact hlast _ (by decide)
  · exact hlast _ (by decide)

/-- A layout whose chunks read the fields of a date that does not exist fails
at the final check of the day of the month. -/
theorem parse_none_of_fields (l : Layout) (v : Str) (d : Date) (f : Fields)
    (h : parseChunks l v {} = some f) (hy : f.year = d.year) (hm : f.month = some d.month)
    (hdd : f.day = some d.day) (hy4 : d.year < 10000) (hm1 : 1 ≤ d.month) (hm2 : d.month ≤ 12)
    (hinv : isValidDate d = false) : parse l v = none := by
  have hin : ¬ (1 ≤ d.day ∧ d.day ≤ daysIn d.month d.year) := by
    intro hc
    have : isValidDate d = true := by
      simp only [isValidDate, Bool.and_eq_true, decide_eq_true_eq]
      omega
    rw [hinv] at this
    exact absurd this (by decide)
  unfold parse
  rw [h]
  simp only [hy, hm, hdd, Option.getD_some]
  have hc : (decide (d.day < 1) || decide (daysIn d.month d.year < d.day)) = true := by
    simp only [Bool.or_eq_true, decide_eq_true_eq]
    omega
  rw [if_pos hc]

theorem chunks_layoutISO (d : Date) (hy : d.year < 10000) (hm1 : 1 ≤ d.month)
    (hm2 : d.month ≤ 12) (hdd : d.day < 100) :
    parseChunks layoutISO (format layoutISO d) {} =
      some ⟨d.year, some d.month, some d.day⟩ := by
  have e : format layoutISO d =
      appendInt d.year 4 ++ '-' :: (appendInt d.month 2 ++ '-' :: (appendInt d.day 2 ++ [])) := rfl
  rw [e]
  unfold layoutISO
  rw [parseChunks_step _ _ _ _ _ _ _ _ (skip_nil _) (parseStd_year_appendInt _ hy _ _),
    parseChunks_step _ _ _ _ _ _ _ _ (skip_dash_cons _)
      (parseStd_zeroMonth_appendInt _ hm1 hm2 _ _),
    parseChunks_step _ _ _ _ _ _ _ _ (skip_dash_cons _)
      (parseStd_zeroDay_appendInt _ hdd _ _)]
  rfl

/-- The numeric layout rejects a month outside 01..12. -/
theorem parse_layoutISO_month_range (d : Date) (hy : d.year < 10000) (hm : d.month < 100)
    (hout : d.month = 0 ∨ 12 < d.month) : parse layoutISO (format layoutISO d) = none := by
  have e : format layoutISO d =
      appendInt d.year 4 ++ '-' :: (appendInt d.month 2 ++ '-' :: (appendInt d.day 2 ++ [])) := rfl
  rw [e]
  apply parse_of_chunks_none
  unfold layoutISO
  rw [parseChunks_step _ _ _ _ _ _ _ _ (skip_nil _) (parseStd_year_appendInt _ hy _ _)]
  refine parseChunks_std_none _ _ _ _ _ _ (skip_dash_cons _) ?_
  simp [parseStd, getnum_appendInt_two d.month hm, hout]

theorem chunks_monthFirst_comma (std : Std) (name : Str) (d : Date) (hy : d.year < 10000)
    (hdd : d.day < 100)
    (hstd : ∀ (rest : Str) (f : Fields), parseStd std (name ++ ' ' :: rest) f =
      some (' ' :: rest, { f with month := some d.month })) :
    parseChunks [⟨[], std⟩, ⟨[' '], .stdDay⟩, ⟨[',', ' '], .stdLongYear⟩]
      (name ++ ' ' :: (appendInt d.day 0 ++ ',' :: ' ' :: (appendInt d.year 4 ++ []))) {} =
        some ⟨d.year, some d.month, some d.day⟩ := by
  rw [parseChunks_step _ _ _ _ _ _ _ _ (skip_nil _) (hstd _ _),
    parseChunks_step _ _ _ _ _ _ _ _
      (skip_space_block _ _ (appendInt_block _ _).1 (digits_ne_space _ (appendInt_block _ _).2))
      (parseStd_day_appendInt _ hdd ',' _ _ (by decide)),
    parseChunks_step _ _ _ _ _ _ _ _
      (skip_comma_space_block _ _ (appendInt_block _ _).1
        (digits_ne_space _ (appendInt_block _ _).2))
      (parseStd_year_appendInt _ hy _ _)]
  rfl

theorem chunks_monthFirst_space (name : Str) (d : Date) (hy : d.year < 10000)
    (hdd : d.day < 100)
    (hstd : ∀ (rest : Str) (f : Fields), parseStd .stdMonth (name ++ ' ' :: rest) f =
      some (' ' :: rest, { f with month := some d.month })) :
    parseChunks layoutShortMonth
      (name ++ ' ' :: (appendInt d.day 0 ++ ' ' :: (appendInt d.year 4 ++ []))) {} =
        some ⟨d.year, some d.month, some d.day⟩ := by
  unfold layoutShortMonth
  rw [parseChunks_step _ _ _ _ _ _ _ _ (skip_nil _) (hstd _ _),
    parseChunks_step _ _ _ _ _ _ _ _
      (skip_space_block _ _ (appendInt_block _ _).1 (digits_ne_space _ (appendInt_block _ _).2))
      (parseStd_day_appendInt _ hdd ' ' _ _ (by decide)),
    parseChunks_step _ _ _ _ _ _ _ _
      (skip_space_block _ _ (appendInt_block _ _).1 (digits_ne_space _ (appendInt_block _ _).2))
      (parseStd_year_appendInt _ hy _ _)]
  rfl

theorem chunks_layoutWeekday (d : Date) (hy : d.year < 10000) (hm1 : 1 ≤ d.month)
    (hm2 : d.month ≤ 12) (hdd : d.day < 100) :
    parseChunks layoutWeekday (format layoutWeekday d) {} =
      some ⟨d.year, some d.month, some d.day⟩ := by
  have e : format layoutWeekday d =
      dayLong (weekday d) ++ ',' :: ' ' :: (monthLong d.month ++ ' ' :: (appendInt d.day 0 ++
        ',' :: ' ' :: (appendInt d.year 4 ++ []))) := rfl
  rw [e]
  unfold layoutWeekday
  rw [parseChunks_step _ _ _ _ _ _ _ _ (skip_nil _)
      (parseStd_weekday_name _ (weekday_lt d) ',' _ _ (by decide)),
    parseChunks_step _ _ _ _ _ _ _ _
      (skip_comma_space_block _ _ (monthLong_word _ hm1 hm2).1
        (word_ne_space _ (monthLong_word _ hm1 hm2).2))
      (parseStd_longMonth_name _ hm1 hm2 ' ' _ _ (by decide)),
    parseChunks_step _ _ _ _ _ _ _ _
      (skip_space_block _ _ (appendInt_block _ _).1 (digits_ne_space _ (appendInt_block _ _).2))
      (parseStd_day_appendInt _ hdd ',' _ _ (by decide)),
    parseChunks_step _ _ _ _ _ _ _ _
      (skip_comma_space_block _ _ (appendInt_block _ _).1
        (digits_ne_space _ (appendInt_block _ _).2))
      (parseStd_year_appendInt _ hy _ _)]
  rfl

theorem chunks_dayFirst (std : Std) (D : Str) (d : Date) (hy : d.year < 10000)
    (hm1 : 1 ≤ d.month) (hm2 : d.month ≤ 12)
    (hstd : ∀ (rest : Str) (f : Fields), parseStd std (D ++ ' ' :: rest) f =
      some (' ' :: rest, { f with day := some d.day })) :
    parseChunks [⟨[], std⟩, ⟨[' '], .stdMonth⟩, ⟨[' '], .stdLongYear⟩]
      (D ++ ' ' :: (monthShort d.month ++ ' ' :: (appendInt d.year 4 ++ []))) {} =
        some ⟨d.year, some d.month, some d.day⟩ := by
  rw [parseChunks_step _ _ _ _ _ _ _ _ (skip_nil _) (hstd _ _),
    parseChunks_step _ _ _ _ _ _ _ _
      (skip_space_block _ _ (monthShort_word _ hm1 hm2).1
        (word_ne_space _ (monthShort_word _ hm1 hm2).2))
      (parseStd_month_name _ hm1 hm2 ' ' _ _ (by decide)),
    parseChunks_step _ _ _ _ _ _ _ _
      (skip_space_block _ _ (appendInt_block _ _).1 (digits_ne_space _ (appendInt_block _ _).2))
      (parseStd_year_appendInt _ hy _ _)]
  rfl

/-- A month-first layout without a comma does not read a text whose day is
followed by a comma. -/
theorem parse_monthFirst_space_on_comma (name : Str) (n : Nat) (hn : n < 100) (rest : Str)
    (hstd : ∀ (X : Str) (f : Fields), parseStd .stdMonth (name ++ ' ' :: X) f = none ∨
      ∃ f1, parseStd .stdMonth (name ++ ' ' :: X) f = some (' ' :: X, f1)) :
    parse layoutShortMonth (name ++ ' ' :: (appendInt n 0 ++ ',' :: rest)) = none := by
  apply parse_of_chunks_none
  unfold layoutShortMonth
  rcases hstd (appendInt n 0 ++ ',' :: rest) {} with h | ⟨f1, h⟩
  · exact parseChunks_std_none _ _ _ _ _ _ (skip_nil _) h
  · rw [parseChunks_step _ _ _ _ _ _ _ _ (skip_nil _) h,
      parseChunks_step _ _ _ _ _ _ _ _
        (skip_space_block _ _ (appendInt_block _ _).1
          (digits_ne_space _ (appendInt_block _ _).2))
        (parseStd_day_appendInt _ hn ',' _ _ (by decide))]
    refine parseChunks_skip_none _ _ _ _ _ ?_
    simp [skip, skipFuel]

/-- What the abbreviated-month element does with a full month name and a
blank: it reads the month and stops at the blank, or it stops inside the
name. -/
theorem parseStd_month_long (m : Nat) (h1 : 1 ≤ m) (h2 : m ≤ 12) :
    (∀ (X : Str) (f : Fields), parseStd .stdMonth (monthLong m ++ ' ' :: X) f =
      some (' ' :: X, { f with month := some m })) ∨
    (∀ (X : Str) (f : Fields), ∃ c t f1,
      parseStd .stdMonth (monthLong m ++ ' ' :: X) f = some (c :: t, f1) ∧ c ≠ ' ') := by
  have h : lookup shortMonthNames (monthLong m) = some (m - 1, (monthLong m).drop 3) ∧
      ∀ c ∈ (monthLong m).drop 3, c ≠ ' ' := by
    interval_cases m <;> decide
  obtain ⟨h, hc⟩ := h
  cases hdrop : (monthLong m).drop 3 with
  | nil =>
    left
    intro X f
    rw [hdrop] at h
    simp [parseStd, lookup_stop _ _ _ _ shortMonthNames_letters
      (show isLetterFold ' ' = false by decide), h, Nat.sub_add_cancel h1]
  | cons c t =>
    right
    intro X f
    rw [hdrop] at h hc
    refine ⟨c, t ++ ' ' :: X, { f with month := some (m - 1 + 1) }, ?_, hc c (by simp)⟩
    simp [parseStd, lookup_stop _ _ _ _ shortMonthNames_letters
      (show isLetterFold ' ' = false by decide), h]

theorem skip_space_fail (c : Char) (t : Str) (hc : c ≠ ' ') : skip (c :: t) [' '] = none := by
  simp [skip, skipFuel, hc]

/-- The weekday element reads no month name. -/
theorem parseStd_weekday_month (m : Nat) (h1 : 1 ≤ m) (h2 : m ≤ 12) (X : Str) (f : Fields) :
    parseStd .stdLongWeekDay (monthLong m ++ ' ' :: X) f = none ∧
    parseStd .stdLongWeekDay (monthShort m ++ ' ' :: X) f = none := by
  have h : lookup longDayNames (monthLong m) = none ∧
      lookup longDayNames (monthShort m) = none := by
    interval_cases m <;> decide
  constructor
  · simp [parseStd, lookup_stop _ _ _ _ longDayNames_letters
      (show isLetterFold ' ' = false by decide), h.1]
  · simp [parseStd, lookup_stop _ _ _ _ longDayNames_letters
      (show isLetterFold ' ' = false by decide), h.2]

/-- The day-first layouts read no text that starts with a name. -/
theorem parse_dayFirst_of_word (l : Layout) (B rest : Str) (hne : B ≠ [])
    (hB : ∀ c ∈ B, isDigit c = false ∧ isSpace c = false)
    (hl : l = layoutZeroDay ∨ l = layoutDay) : parse l (B ++ rest) = none := by
  cases B with
  | nil => exact absurd rfl hne
  | cons b B' =>
    have hb : isDigit b = false := (hB b (by simp)).1
    apply parse_of_chunks_none
    rcases hl with rfl | rfl
    · refine parseChunks_std_none _ _ _ _ _ _ (skip_nil _) ?_
      simp [parseStd, getnum, isDigitAt, hb]
    · refine parseChunks_std_none _ _ _ _ _ _ (skip_nil _) ?_
      simp [parseStd, getnum, isDigitAt, hb]

/-- The day-first layouts read no text that starts with the four digits of a
year. -/
theorem parse_dayFirst_of_year (l : Layout) (y : Nat) (hy : y < 10000) (rest : Str)
    (hl : l = layoutZeroDay ∨ l = layoutDay) : parse l (appendInt y 4 ++ rest) = none := by
  rw [appendInt_four y hy]
  have h3 := ne_space_of_isDigit _ (isDigit_digitChar (y / 10 % 10))
  apply parse_of_chunks_none
  rcases hl with rfl | rfl
  · simp [layoutZeroDay, parseChunks, skip, skipFuel, parseStd, getnum, isDigitAt,
      isDigit_digitChar, h3]
  · simp [layoutDay, parseChunks, skip, skipFuel, parseStd, getnum, isDigitAt,
      isDigit_digitChar, h3]

theorem parseStd_day_appendInt_two (n : Nat) (hn : n < 100) (rest : Str) (f : Fields) :
    parseStd .stdDay (appendInt n 2 ++ rest) f = some (rest, { f with day := some n }) := by
  simp [parseStd, getnum_appendInt_two n hn]

/-- The zero-padded element on an unpadded day and a blank: it fails on one
digit and reads two. -/
theorem parseStd_zeroDay_unpadded (n : Nat) (hn : n < 100) :
    (∀ (rest : Str) (f : Fields), parseStd .stdZeroDay (appendInt n 0 ++ ' ' :: rest) f = none) ∨
    (∀ (rest : Str) (f : Fields), parseStd .stdZeroDay (appendInt n 0 ++ ' ' :: rest) f =
      some (' ' :: rest, { f with day := some n })) := by
  have hg := fun rest => getnum_appendInt_zero_fixed n hn ' ' rest (by decide)
  by_cases h : n < 10
  · left
    intro rest f
    simp [parseStd, hg, h]
  · right
    intro rest f
    simp [parseStd, hg, h]

/-- No layout parses a date that does not exist, written in the shape of any of
the seven layouts. -/
theorem parseFirst_format_invalid (d : Date) (l : Layout) (hl : l ∈ dateFormats)
    (hy : d.year < 10000) (hdd : d.day < 100)
    (hm : (l = layoutISO ∧ d.month < 100) ∨ (1 ≤ d.month ∧ d.month ≤ 12))
    (hinv : isValidDate d = false) : parseFirst dateFormats (format l d) = none := by
  have hDL := dayLong_word (weekday d) (weekday_lt d)
  have hY := appendInt_block d.year 4
  have hD := appendInt_block d.day 0
  have hD2 := appendInt_block d.day 2
  rw [parseFirst_eq_none_iff]
  intro l' hl'
  simp only [dateFormats, List.mem_cons, List.mem_singleton, List.not_mem_nil, or_false] at hl hl'
  rcases hl with rfl | rfl | rfl | rfl | rfl | rfl | rfl
  · -- the numeric form
    rcases hl' with rfl | rfl | rfl | rfl | rfl | rfl | rfl
    · by_cases hr : 1 ≤ d.month ∧ d.month ≤ 12
      · exact parse_none_of_fields _ _ d _ (chunks_layoutISO d hy hr.1 hr.2 hdd) rfl rfl rfl
          hy hr.1 hr.2 hinv
      · have hm' : d.month < 100 := by
          rcases hm with h | h
          · exact h.2
          · omega
        exact parse_layoutISO_month_range d hy hm' (by omega)
    · exact parse_nameFirst_of_digits _ (appendInt d.year 4) _ hY.1 hY.2 (Or.inl rfl)
    · exact parse_nameFirst_of_digits _ (appendInt d.year 4) _ hY.1 hY.2 (Or.inr (Or.inl rfl))
    · exact parse_nameFirst_of_digits _ (appendInt d.year 4) _ hY.1 hY.2
        (Or.inr (Or.inr (Or.inl rfl)))
    · exact parse_nameFirst_of_digits _ (appendInt d.year 4) _ hY.1 hY.2
        (Or.inr (Or.inr (Or.inr rfl)))
    · exact parse_dayFirst_of_year _ d.year hy _ (Or.inl rfl)
    · exact parse_dayFirst_of_year _ d.year hy _ (Or.inr rfl)
  · -- full month, day, comma, year
    obtain ⟨hm1, hm2⟩ := hm.resolve_left (fun h => absurd h.1 (by decide))
    have hML := monthLong_word d.month hm1 hm2
    rcases hl' with rfl | rfl | rfl | rfl | rfl | rfl | rfl
    · exact parse_layoutISO_of_word (monthLong d.month) _ hML.1 hML.2
    · exact parse_none_of_fields _ _ d _
        (chunks_monthFirst_comma .stdLongMonth (monthLong d.month) d hy hdd
          (fun rest f => parseStd_longMonth_name _ hm1 hm2 ' ' rest f (by decide)))
        rfl rfl rfl hy hm1 hm2 hinv
    · rcases parseStd_month_long d.month hm1 hm2 with h | h
      · exact parse_none_of_fields _ _ d _
          (chunks_monthFirst_comma .stdMonth (monthLong d.month) d hy hdd h)
          rfl rfl rfl hy hm1 hm2 hinv
      · obtain ⟨c, t, f1, h1, hc⟩ := h (appendInt d.day 0 ++ ',' :: ' ' ::
          (appendInt d.year 4 ++ [])) {}
        apply parse_of_chunks_none
        exact (parseChunks_step _ _ _ _ _ _ _ _ (skip_nil _) h1).trans
          (parseChunks_skip_none _ _ _ _ _ (skip_space_fail c t hc))
    · rcases parseStd_month_long d.month hm1 hm2 with h | h
      · exact parse_monthFirst_space_on_comma (monthLong d.month) d.day hdd _
          (fun X f => Or.inr ⟨_, h X f⟩)
      · obtain ⟨c, t, f1, h1, hc⟩ := h (appendInt d.day 0 ++ ',' :: ' ' ::
          (appendInt d.year 4 ++ [])) {}
        apply parse_of_chunks_none
        exact (parseChunks_step _ _ _ _ _ _ _ _ (skip_nil _) h1).trans
          (parseChunks_skip_none _ _ _ _ _ (skip_space_fail c t hc))
    · apply parse_of_chunks_none
      exact parseChunks_std_none _ _ _ _ _ _ (skip_nil _)
        (parseStd_weekday_month d.month hm1 hm2 _ _).1
    · exact parse_dayFirst_of_word _ (monthLong d.month) _ hML.1 hML.2 (Or.inl rfl)
    · exact parse_dayFirst_of_word _ (monthLong d.month) _ hML.1 hML.2 (Or.inr rfl)
  · -- abbreviated month, day, comma, year
    obtain ⟨hm1, hm2⟩ := hm.resolve_left (fun h => absurd h.1 (by decide))
    have hMS := monthShort_word d.month hm1 hm2
    rcases hl' with rfl | rfl | rfl | rfl | rfl | rfl | rfl
    · exact parse_layoutISO_of_word (monthShort d.month) _ hMS.1 hMS.2
    · rcases parseStd_longMonth_short d.month hm1 hm2 with h | h
      · apply parse_of_chunks_none
        exact parseChunks_std_none _ _ _ _ _ _ (skip_nil _) (h _ _)
      · exact parse_none_of_fields _ _ d _
          (chunks_monthFirst_comma .stdLongMonth (monthShort d.month) d hy hdd h)
          rfl rfl rfl hy hm1 hm2 hinv
    · exact parse_none_of_fields _ _ d _
        (chunks_monthFirst_comma .stdMonth (monthShort d.month) d hy hdd
          (fun rest f => parseStd_month_name _ hm1 hm2 ' ' rest f (by decide)))
        rfl rfl rfl hy hm1 hm2 hinv
    · exact parse_monthFirst_space_on_comma (monthShort d.month) d.day hdd _
        (fun X f => Or.inr ⟨_, parseStd_month_name _ hm1 hm2 ' ' X f (by decide)⟩)
    · apply parse_of_chunks_none
      exact parseChunks_std_none _ _ _ _ _ _ (skip_nil _)
        (parseStd_weekday_month d.month hm1 hm2 _ _).2
    · exact parse_dayFirst_of_word _ (monthShort d.month) _ hMS.1 hMS.2 (Or.inl rfl)
    · exact parse_dayFirst_of_word _ (monthShort d.month) _ hMS.1 hMS.2 (Or.inr rfl)
  · -- abbreviated month, day, year
    obtain ⟨hm1, hm2⟩ := hm.resolve_left (fun h => absurd h.1 (by decide))
    have hMS := monthShort_word d.month hm1 hm2
    rcases hl' with rfl | rfl | rfl | rfl | rfl | rfl | rfl
    · exact parse_layoutISO_of_word (monthShort d.month) _ hMS.1 hMS.2
    · refine parse_monthFirst_comma_on_space .stdLongMonth (monthShort d.month) d.day hdd
        (appendInt d.year 4 ++ []) ?_
      intro X f
      rcases parseStd_longMonth_short d.month hm1 hm2 with h | h
      · exact Or.inl (h X f)
      · exact Or.inr ⟨_, h X f⟩
    · refine parse_monthFirst_comma_on_space .stdMonth (monthShort d.month) d.day hdd
        (appendInt d.year 4 ++ []) ?_
      intro X f
      exact Or.inr ⟨_, parseStd_month_name _ hm1 hm2 ' ' X f (by decide)⟩
    · exact parse_none_of_fields _ _ d _
        (chunks_monthFirst_space (monthShort d.month) d hy hdd
          (fun rest f => parseStd_month_name _ hm1 hm2 ' ' rest f (by decide)))
        rfl rfl rfl hy hm1 hm2 hinv
    · apply parse_of_chunks_none
      exact parseChunks_std_none _ _ _ _ _ _ (skip_nil _)
        (parseStd_weekday_month d.month hm1 hm2 _ _).2
    · exact parse_dayFirst_of_word _ (monthShort d.month) _ hMS.1 hMS.2 (Or.inl rfl)
    · exact parse_dayFirst_of_word _ (monthShort d.month) _ hMS.1 hMS.2 (Or.inr rfl)
  · -- weekday, full month, day, comma, year
    obtain ⟨hm1, hm2⟩ := hm.resolve_left (fun h => absurd h.1 (by decide))
    rcases hl' with rfl | rfl | rfl | rfl | rfl | rfl | rfl
    · exact parse_layoutISO_of_word (dayLong (weekday d)) _ hDL.1 hDL.2
    · exact parse_monthFirst_of_weekday _ (weekday d) (weekday_lt d) _ (Or.inl rfl)
    · exact parse_monthFirst_of_weekday _ (weekday d) (weekday_lt d) _ (Or.inr (Or.inl rfl))
    · exact parse_monthFirst_of_weekday _ (weekday d) (weekday_lt d) _ (Or.inr (Or.inr rfl))
    · exact parse_none_of_fields _ _ d _ (chunks_layoutWeekday d hy hm1 hm2 hdd)
        rfl rfl rfl hy hm1 hm2 hinv
    · exact parse_dayFirst_of_word _ (dayLong (weekday d)) _ hDL.1 hDL.2 (Or.inl rfl)
    · exact parse_dayFirst_of_word _ (dayLong (weekday d)) _ hDL.1 hDL.2 (Or.inr rfl)
  · -- zero-padded day, abbreviated month, year
    obtain ⟨hm1, hm2⟩ := hm.resolve_left (fun h => absurd h.1 (by decide))
    rcases hl' with rfl | rfl | rfl | rfl | rfl | rfl | rfl
    · exact parse_layoutISO_of_day d.day 2 hdd (Or.inr rfl) _
    · exact parse_nameFirst_of_digits _ (appendInt d.day 2) _ hD2.1 hD2.2 (Or.inl rfl)
    · exact parse_nameFirst_of_digits _ (appendInt d.day 2) _ hD2.1 hD2.2 (Or.inr (Or.inl rfl))
    · exact parse_nameFirst_of_digits _ (appendInt d.day 2) _ hD2.1 hD2.2
        (Or.inr (Or.inr (Or.inl rfl)))
    · exact parse_nameFirst_of_digits _ (appendInt d.day 2) _ hD2.1 hD2.2
        (Or.inr (Or.inr (Or.inr rfl)))
    · exact parse_none_of_fields _ _ d _
        (chunks_dayFirst .stdZeroDay (appendInt d.day 2) d hy hm1 hm2
          (fun rest f => parseStd_zeroDay_appendInt _ hdd _ f))
        rfl rfl rfl hy hm1 hm2 hinv
    · exact parse_none_of_fields _ _ d _
        (chunks_dayFirst .stdDay (appendInt d.day 2) d hy hm1 hm2
          (fun rest f => parseStd_day_appendInt_two _ hdd _ f))
        rfl rfl rfl hy hm1 hm2 hinv
  · -- unpadded day, abbreviated month, year
    obtain ⟨hm1, hm2⟩ := hm.resolve_left (fun h => absurd h.1 (by decide))
    rcases hl' with rfl | rfl | rfl | rfl | rfl | rfl | rfl
    · exact parse_layoutISO_of_day d.day 0 hdd (Or.inl rfl) _
    · exact parse_nameFirst_of_digits _ (appendInt d.day 0) _ hD.1 hD.2 (Or.inl rfl)
    · exact parse_nameFirst_of_digits _ (appendInt d.day 0) _ hD.1 hD.2 (Or.inr (Or.inl rfl))
    · exact parse_nameFirst_of_digits _ (appendInt d.day 0) _ hD.1 hD.2
        (Or.inr (Or.inr (Or.inl rfl)))
    · exact parse_nameFirst_of_digits _ (appendInt d.day 0) _ hD.1 hD.2
        (Or.inr (Or.inr (Or.inr rfl)))
    · rcases parseStd_zeroDay_unpadded d.day hdd with h | h
      · apply parse_of_chunks_none
        exact parseChunks_std_none _ _ _ _ _ _ (skip_nil _) (h _ _)
      · exact parse_none_of_fields _ _ d _
          (chunks_dayFirst .stdZeroDay (appendInt d.day 0) d hy hm1 hm2 h)
          rfl rfl rfl hy hm1 hm2 hinv
    · exact parse_none_of_fields _ _ d _
        (chunks_dayFirst .stdDay (appendInt d.day 0) d hy hm1 hm2
          (fun rest f => parseStd_day_appendInt _ hdd ' ' rest f (by decide)))
        rfl rfl rfl hy hm1 hm2 hinv

/-- C15: malformed dates yield no date. A title written in the shape of any of
the seven layouts (the text `Format` would give for the fields `d`) whose
fields name no real calendar date gives the empty string: in the numeric
layout for any two-digit month, and in every layout for a month 1..12 with a
day that does not exist; so does a title in the shape of any layout whose year
is written with two digits only. The four examples of the claim follow. -/
theorem malformed_dates_yield_no_date :
    (∀ d : Date, d.year < 10000 → d.month < 100 → d.day < 100 → isValidDate d = false →
      extractDateFromHeader ('#' :: ' ' :: format layoutISO d) = []) ∧
    (∀ (d : Date) (l : Layout), l ∈ dateFormats → d.year < 10000 → 1 ≤ d.month →
      d.month ≤ 12 → d.day < 100 → isValidDate d = false →
      extractDateFromHeader ('#' :: ' ' :: format l d) = []) ∧
    (∀ (d : Date) (l : Layout), l ∈ dateFormats → d.year < 100 → 1 ≤ d.month →
      d.month ≤ 12 → d.day < 100 →
      extractDateFromHeader ('#' :: ' ' :: formatShortYear l d) = []) ∧
    extractDateFromHeader "# 2023-02-29".toList = [] ∧
    extractDateFromHeader "# 2024-13-01".toList = [] ∧
    extractDateFromHeader "# Feb 30, 2024".toList = [] ∧
    extractDateFromHeader "# Jan 2, 24".toList = [] := by
  have hISO : layoutISO ∈ dateFormats := by simp [dateFormats]
  refine ⟨?_, ?_, ?_, by decide, by decide, by decide, by decide⟩
  · intro d hy hm hdd hinv
    unfold extractDateFromHeader headerDate
    rw [cleanTitle_format_any d layoutISO hISO (Or.inl rfl),
      parseFirst_format_invalid d layoutISO hISO hy hdd (Or.inl ⟨rfl, hm⟩) hinv]
  · intro d l hl hy hm1 hm2 hdd hinv
    unfold extractDateFromHeader headerDate
    rw [cleanTitle_format_any d l hl (Or.inr ⟨hm1, hm2⟩),
      parseFirst_format_invalid d l hl hy hdd (Or.inr ⟨hm1, hm2⟩) hinv]
  · intro d l hl hy hm1 hm2 hdd
    unfold extractDateFromHeader headerDate
    rw [cleanTitle_formatShortYear d l hl hm1 hm2,
      parseFirst_formatShortYear d l hl hy hm1 hm2 hdd]

/-- Witness for C15: the general statements at the fields of the claim's
examples: 2023-02-29 and 2024-13-01 in the numeric layout, 30 February 2024 in
the layout "Jan 2, 2006", and 2 January of year 24 written with two digits. -/
theorem malformed_dates_yield_no_date_witness :
    (format layoutISO ⟨2023, 2, 29⟩ = "2023-02-29".toList ∧
      isValidDate ⟨2023, 2, 29⟩ = false ∧
      extractDateFromHeader ('#' :: ' ' :: format layoutISO ⟨2023, 2, 29⟩) = []) ∧
    (format layoutISO ⟨2024, 13, 1⟩ = "2024-13-01".toList ∧
      isValidDate ⟨2024, 13, 1⟩ = false ∧
      extractDateFromHeader ('#' :: ' ' :: format layoutISO ⟨2024, 13, 1⟩) = []) ∧
    (format layoutShortMonthComma ⟨2024, 2, 30⟩ = "Feb 30, 2024".toList ∧
      layoutShortMonthComma ∈ dateFormats ∧ isValidDate ⟨2024, 2, 30⟩ = false ∧
      extractDateFromHeader ('#' :: ' ' :: format layoutShortMonthComma ⟨2024, 2, 30⟩) = []) ∧
    (formatShortYear layoutShortMonthComma ⟨24, 1, 2⟩ = "Jan 2, 24".toList ∧
      extractDateFromHeader ('#' :: ' ' :: formatShortYear layoutShortMonthComma ⟨24, 1, 2⟩)
        = []) :=
  ⟨⟨by decide, by decide,
      malformed_dates_yield_no_date.1 ⟨2023, 2, 29⟩ (by decide) (by decide) (by decide)
        (by decide)⟩,
    ⟨by decide, by decide,
      malformed_dates_yield_no_date.1 ⟨2024, 13, 1⟩ (by decide) (by decide) (by decide)
        (by decide)⟩,
    ⟨by decide, by decide, by decide,
      malformed_dates_yield_no_date.2.1 ⟨2024, 2, 30⟩ layoutShortMonthComma (by decide)
        (by decide) (by decide) (by decide) (by decide) (by decide)⟩,
    ⟨by decide,
      malformed_dates_yield_no_date.2.2.1 ⟨24, 1, 2⟩ layoutShortMonthComma (by decide)
        (by decide) (by decide) (by decide) (by decide)⟩⟩

end ObsidianExport
